import Mathlib

set_option maxHeartbeats 1000000

namespace Sokobauto

/-! Verification of the Sokobauto state-space exploration engine and
    Barnes-Hut octree against their specification.  The Rust sources under
    `RulesEngine/src` are embedded shallowly: `i8`/`i32`/`usize` machine
    integers become `Int`/`Nat` (range hypotheses are added where the `i8`
    range matters), `f32` vector arithmetic becomes exact rational
    arithmetic, and every Rust panic is an `Option.none` result. -/

/-- Cell variants of the shared static board, from `core/models.rs`. -/
inductive Cell where
  | Wall
  | Floor
  | Target
deriving DecidableEq, Repr

/-- Coordinate pair `Vec2 { i: i8, j: i8 }` from `core/models.rs`, with
    `Int` components standing for the `i8` values. -/
structure Vec2 where
  i : Int
  j : Int
deriving DecidableEq, Repr

/-- Lexicographic strict order on `Vec2`, as produced by Rust
    `#[derive(PartialOrd, Ord)]` on the field order `(i, j)`. -/
def Vec2.lt (a b : Vec2) : Prop :=
  a.i < b.i ∨ (a.i = b.i ∧ a.j < b.j)

/-- Lexicographic non-strict order on `Vec2` (derived `Ord`). -/
def Vec2.le (a b : Vec2) : Prop :=
  a.i < b.i ∨ (a.i = b.i ∧ a.j ≤ b.j)

instance (a b : Vec2) : Decidable (Vec2.lt a b) := by
  unfold Vec2.lt; infer_instance

instance (a b : Vec2) : Decidable (Vec2.le a b) := by
  unfold Vec2.le; infer_instance

theorem Vec2.le_refl (a : Vec2) : Vec2.le a a := Or.inr ⟨rfl, le_rfl⟩

theorem Vec2.le_trans {a b c : Vec2} (hab : Vec2.le a b) (hbc : Vec2.le b c) :
    Vec2.le a c := by
  rcases hab with h1 | ⟨h1, h1j⟩ <;> rcases hbc with h2 | ⟨h2, h2j⟩
  · exact Or.inl (lt_trans h1 h2)
  · exact Or.inl (h2 ▸ h1)
  · exact Or.inl (h1 ▸ h2)
  · exact Or.inr ⟨h1.trans h2, Int.le_trans h1j h2j⟩

theorem Vec2.le_total (a b : Vec2) : Vec2.le a b ∨ Vec2.le b a := by
  rcases lt_trichotomy a.i b.i with h | h | h
  · exact Or.inl (Or.inl h)
  · rcases Int.le_total a.j b.j with hj | hj
    · exact Or.inl (Or.inr ⟨h, hj⟩)
    · exact Or.inr (Or.inr ⟨h.symm, hj⟩)
  · exact Or.inr (Or.inl h)

theorem Vec2.le_antisymm {a b : Vec2} (hab : Vec2.le a b) (hba : Vec2.le b a) :
    a = b := by
  rcases hab with h1 | ⟨h1, h1j⟩ <;> rcases hba with h2 | ⟨h2, h2j⟩
  · exact absurd h2 (not_lt_of_gt h1)
  · exact absurd h1 (h2 ▸ lt_irrefl _)
  · exact absurd h2 (h1 ▸ lt_irrefl _)
  · cases a; cases b
    simp only [Vec2.mk.injEq]
    exact ⟨h1, Int.le_antisymm h1j h2j⟩

instance : IsAntisymm Vec2 Vec2.le := ⟨fun _ _ => Vec2.le_antisymm⟩

/-- Boolean comparator used when sorting boxes, matching the comparator of
    Rust `sort_unstable` on the derived `Ord`. -/
def vec2LeB (a b : Vec2) : Bool := decide (Vec2.le a b)

/-- Componentwise vector addition (`impl Add for Vec2`). -/
def Vec2.add (a b : Vec2) : Vec2 := ⟨a.i + b.i, a.j + b.j⟩

/-- Componentwise vector subtraction (`impl Sub for Vec2`). -/
def Vec2.sub (a b : Vec2) : Vec2 := ⟨a.i - b.i, a.j - b.j⟩

/-- The four cardinal neighbours of a coordinate, in the order produced by
    `Vec2GameLogicAdapter::neighbors` in `core/model_helpers.rs`:
    up, down, left, right. -/
def Vec2.neighbors (p : Vec2) : List Vec2 :=
  [⟨p.i - 1, p.j⟩, ⟨p.i + 1, p.j⟩, ⟨p.i, p.j - 1⟩, ⟨p.i, p.j + 1⟩]

/-! Box-set container, from `core/game_state_environment.rs`.  The Rust
    struct stores a fixed array `[Vec2; BOX_COUNT]` padded with the sentinel
    `EMPTY_BOX = (i8::MAX, i8::MAX)`; it is modelled as a `List Vec2` of
    length `BOX_COUNT`. -/

/-- `BOX_COUNT` from `core/game_state_environment.rs`. -/
def BOX_COUNT : Nat := 8

/-- The `EMPTY_BOX` sentinel `(i8::MAX, i8::MAX)`. -/
def EMPTY_BOX : Vec2 := ⟨127, 127⟩

/-- The box container: the fixed 8-slot array of
    `GameStateEnvironment { boxes: [Vec2; BOX_COUNT] }`. -/
structure GameStateEnvironment where
  boxes : List Vec2
deriving DecidableEq, Repr

/-- `iter_boxes`: the live boxes are the prefix before the first
    `EMPTY_BOX` sentinel (`take_while(|&&b| b != EMPTY_BOX)`). -/
def iterBoxes (e : GameStateEnvironment) : List Vec2 :=
  e.boxes.takeWhile (fun b => b ≠ EMPTY_BOX)

/-- `complete_moves` sorts the whole fixed array ascending
    (`DEDUPLICATE_BOXES` is `true` in `core/consts.rs`). -/
def sortBoxes (l : List Vec2) : List Vec2 := l.insertionSort Vec2.le

/-- `GameStateEnvironment::new(boxes)`: asserts `boxes.len() <= 15`, copies
    the inputs into the first slots of an 8-slot array padded with
    `EMPTY_BOX`, then sorts (`complete_moves`).  Both the failed assert and
    the out-of-bounds write `boxes_fixed[i]` for `i >= 8` are Rust panics,
    modelled as `none`.  The Rust parameter is a `Vec<IVec2>` converted
    entrywise by `IVec2 -> Vec2` (a bijective component swap); the
    embedding takes the already-converted `Vec2` list. -/
def envNew (l : List Vec2) : Option GameStateEnvironment :=
  if l.length > 15 then none
  else if l.length > BOX_COUNT then none
  else some ⟨sortBoxes (l ++ List.replicate (BOX_COUNT - l.length) EMPTY_BOX)⟩

/-- `has_box_at`: membership among the live boxes.  The Rust code asserts
    the queried position is not the sentinel; claims using this carry
    hypotheses keeping positions inside the `i8` board range, where the
    assert cannot fire. -/
def hasBoxAt (e : GameStateEnvironment) (p : Vec2) : Bool :=
  (iterBoxes e).contains p

/-- The exact sequence of `Vec2` values fed to the hasher by
    `impl Hash for GameStateEnvironment` (it hashes `iter_boxes()` in
    order); two environments produce equal hashes for every deterministic
    hasher iff these streams are equal. -/
def hashInputs (e : GameStateEnvironment) : List Vec2 := iterBoxes e

/-- `impl PartialEq for GameStateEnvironment`: equality of the live-box
    iterators. -/
def envEq (a b : GameStateEnvironment) : Prop := iterBoxes a = iterBoxes b

instance (a b : GameStateEnvironment) : Decidable (envEq a b) := by
  unfold envEq; infer_instance

instance : IsTotal Vec2 Vec2.le := ⟨Vec2.le_total⟩

instance : IsTrans Vec2 Vec2.le := ⟨fun _ _ _ => Vec2.le_trans⟩

theorem sortBoxes_perm (l : List Vec2) : (sortBoxes l).Perm l :=
  List.perm_insertionSort Vec2.le l

theorem sortBoxes_sorted (l : List Vec2) :
    List.Sorted Vec2.le (sortBoxes l) :=
  List.sorted_insertionSort Vec2.le l

theorem sortBoxes_eq_of_perm {l₁ l₂ : List Vec2} (h : l₁.Perm l₂) :
    sortBoxes l₁ = sortBoxes l₂ :=
  List.eq_of_perm_of_sorted
    (((sortBoxes_perm l₁).trans h).trans (sortBoxes_perm l₂).symm)
    (sortBoxes_sorted l₁) (sortBoxes_sorted l₂)

/-- Claim C8: the box-set container is claimed to support at least 15 boxes,
    and `GameStateEnvironment::new` itself asserts `boxes.len() <= 15`; but
    the backing array has only `BOX_COUNT = 8` slots, so the construction
    aborts (out-of-bounds write `boxes_fixed[8]`) on any list of 9 to 15
    positions.  This theorem evaluates the embedded constructor at a list
    of 9 distinct valid positions and shows it aborts. -/
theorem c8_envNew_aborts_on_nine_boxes :
    envNew [⟨0, 0⟩, ⟨0, 1⟩, ⟨0, 2⟩, ⟨0, 3⟩, ⟨0, 4⟩, ⟨0, 5⟩, ⟨0, 6⟩, ⟨0, 7⟩,
      ⟨0, 8⟩] = none := by
  decide

/-- Claim C9: box-set equality and hashing are order-insensitive.  For any
    two permutation-equivalent box lists within the size the container
    actually supports (at most `BOX_COUNT = 8`; see C8), construction
    succeeds on both, the constructed values are equal (even structurally,
    because construction sorts the padded array ascending), hence
    Rust-level equality (`iter_boxes` agreement) holds and the value
    streams fed to the hasher coincide, so every deterministic hasher
    yields equal hashes. -/
theorem c9_env_eq_hash_order_insensitive (l₁ l₂ : List Vec2)
    (hperm : l₁.Perm l₂) (hlen : l₁.length ≤ BOX_COUNT) :
    ∃ e₁ e₂, envNew l₁ = some e₁ ∧ envNew l₂ = some e₂ ∧
      e₁ = e₂ ∧ envEq e₁ e₂ ∧ hashInputs e₁ = hashInputs e₂ := by
  have hlen2 : l₂.length = l₁.length := hperm.length_eq.symm
  have hbc : BOX_COUNT = 8 := rfl
  rw [hbc] at hlen
  have h15 : ¬ l₁.length > 15 := by omega
  have h8 : ¬ l₁.length > BOX_COUNT := by rw [hbc]; omega
  have h15b : ¬ l₂.length > 15 := by omega
  have h8b : ¬ l₂.length > BOX_COUNT := by rw [hbc]; omega
  have hpad : (l₁ ++ List.replicate (BOX_COUNT - l₁.length) EMPTY_BOX).Perm
      (l₂ ++ List.replicate (BOX_COUNT - l₂.length) EMPTY_BOX) := by
    rw [hlen2]
    exact hperm.append_right _
  have hsort := sortBoxes_eq_of_perm hpad
  refine ⟨⟨sortBoxes (l₁ ++ List.replicate (BOX_COUNT - l₁.length) EMPTY_BOX)⟩,
    ⟨sortBoxes (l₂ ++ List.replicate (BOX_COUNT - l₂.length) EMPTY_BOX)⟩,
    ?_, ?_, ?_, ?_, ?_⟩
  · simp [envNew, h15, h8]
  · simp [envNew, h15b, h8b]
  · simpa using hsort
  · unfold envEq iterBoxes
    simp [hsort]
  · unfold hashInputs iterBoxes
    simp [hsort]

/-- Concrete instantiation of `c9_env_eq_hash_order_insensitive` at a pair
    of two-element permutations. -/
theorem c9_env_eq_hash_order_insensitive_witness :
    ([⟨1, 2⟩, ⟨0, 0⟩] : List Vec2).Perm [⟨0, 0⟩, ⟨1, 2⟩] ∧
    ([⟨1, 2⟩, ⟨0, 0⟩] : List Vec2).length ≤ BOX_COUNT ∧
    (∃ e₁ e₂, envNew [⟨1, 2⟩, ⟨0, 0⟩] = some e₁ ∧
      envNew [⟨0, 0⟩, ⟨1, 2⟩] = some e₂ ∧
      e₁ = e₂ ∧ envEq e₁ e₂ ∧ hashInputs e₁ = hashInputs e₂) :=
  ⟨by decide, by decide,
    c9_env_eq_hash_order_insensitive _ _ (by decide) (by decide)⟩

/-! Step function, from `RulesEngine/src/core/update.rs`.  That file works
    on the fused-grid game state (cells carry boxes and the player), with
    the board dimensions read off the grid itself. -/

/-- Cell alphabet of the fused grid used by `update.rs` (the seven-variant
    `Cell` enum that file imports). -/
inductive CellO where
  | Wall
  | Floor
  | Target
  | BoxOnFloor
  | BoxOnTarget
  | PlayerOnFloor
  | PlayerOnTarget
deriving DecidableEq, Repr

/-- Game state over the fused grid: `GameState { grid, player }`. -/
structure GameStateO where
  grid : List (List CellO)
  player : Vec2
deriving DecidableEq, Repr

/-- Move directions, from `core/models.rs`. -/
inductive Direction where
  | Up
  | Down
  | Left
  | Right
deriving DecidableEq, Repr

/-- User actions, from `core/models.rs` (currently only `Move`). -/
inductive UserAction where
  | Move (d : Direction)
deriving DecidableEq, Repr

/-- Change kinds reported by the step function, from `core/models.rs`. -/
inductive GameChangeType where
  | PlayerMove
  | PlayerAndBoxMove
deriving DecidableEq, Repr

/-- Step results: `GameUpdate` from `core/models.rs`. -/
inductive GameUpdateO where
  | NextState (s : GameStateO) (k : GameChangeType)
  | Error (msg : String)
deriving DecidableEq, Repr

/-- `vec_from_dir` from `update.rs`. -/
def vecFromDir (d : Direction) : Vec2 :=
  match d with
  | .Up => ⟨-1, 0⟩
  | .Down => ⟨1, 0⟩
  | .Left => ⟨0, -1⟩
  | .Right => ⟨0, 1⟩

/-- Read `grid[i][j]`.  Every read performed by `step` is bounds-checked
    beforehand, so the default value is never observed on the checked
    paths. -/
def gridGet (g : List (List CellO)) (i j : Int) : CellO :=
  (((g.get? i.toNat).getD []).get? j.toNat).getD CellO.Wall

/-- Write `grid[i][j] = c` (functional update of the cloned grid). -/
def gridSet (g : List (List CellO)) (i j : Int) (c : CellO) : List (List CellO) :=
  g.set i.toNat (((g.get? i.toNat).getD []).set j.toNat c)

/-- Common tail of `step` (lines 49-59 of `update.rs`): clear the player's
    old cell, then place the player at the destination `(ni, nj)`. -/
def finishMove (grid : List (List CellO)) (player : Vec2) (ni nj : Int)
    (kind : GameChangeType) : GameUpdateO :=
  let cur := gridGet grid player.i player.j
  let g3 := gridSet grid player.i player.j
    (if cur = CellO.PlayerOnTarget then CellO.Target else CellO.Floor)
  let destNow := gridGet g3 ni nj
  let g4 := gridSet g3 ni nj
    (if destNow = CellO.Target then CellO.PlayerOnTarget else CellO.PlayerOnFloor)
  GameUpdateO.NextState ⟨g4, ⟨ni, nj⟩⟩ kind

/-- `step` from `RulesEngine/src/core/update.rs` lines 4-72, translated
    clause by clause.  The Rust function clones the grid and returns a
    fresh state; the embedding is pure, so the input is trivially
    unchanged. -/
def step (game : GameStateO) (action : UserAction) : GameUpdateO :=
  let h : Int := game.grid.length
  let w : Int := (game.grid.headD []).length
  let dir := match action with | .Move d => vecFromDir d
  let ni := game.player.i + dir.i
  let nj := game.player.j + dir.j
  if ni < 0 ∨ nj < 0 ∨ ni ≥ h ∨ nj ≥ w then
    GameUpdateO.Error "Cannot move out of bounds"
  else
    let dest := gridGet game.grid ni nj
    let pushing := dest = CellO.BoxOnFloor ∨ dest = CellO.BoxOnTarget
    if pushing then
      let bi := ni + dir.i
      let bj := nj + dir.j
      if bi < 0 ∨ bj < 0 ∨ bi ≥ h ∨ bj ≥ w then
        GameUpdateO.Error "Cannot push block out of bounds"
      else
        let beyond := gridGet game.grid bi bj
        if ¬ (beyond = CellO.Floor ∨ beyond = CellO.Target) then
          GameUpdateO.Error "Cannot push block"
        else
          let g1 := gridSet game.grid bi bj
            (if beyond = CellO.Target then CellO.BoxOnTarget else CellO.BoxOnFloor)
          let g2 := gridSet g1 ni nj
            (if dest = CellO.BoxOnTarget then CellO.Target else CellO.Floor)
          finishMove g2 game.player ni nj GameChangeType.PlayerAndBoxMove
    else
      if ¬ (dest = CellO.Floor ∨ dest = CellO.Target) then
        GameUpdateO.Error "Cannot walk into a wall"
      else
        finishMove game.grid game.player ni nj GameChangeType.PlayerMove

/-- A fused-grid cell holding the player. -/
def isPlayerCell (c : CellO) : Prop :=
  c = CellO.PlayerOnFloor ∨ c = CellO.PlayerOnTarget

instance (c : CellO) : Decidable (isPlayerCell c) := by
  unfold isPlayerCell; infer_instance

/-- A fused-grid cell holding a box. -/
def isBoxCell (c : CellO) : Prop :=
  c = CellO.BoxOnFloor ∨ c = CellO.BoxOnTarget

instance (c : CellO) : Decidable (isBoxCell c) := by
  unfold isBoxCell; infer_instance

/-- Well-formed fused-grid state: rectangular non-empty grid with
    dimensions at most 127 (the `i8` range), the player inside the board
    on a player cell, and no player cell anywhere else. -/
def wfState (s : GameStateO) : Prop :=
  (∀ row ∈ s.grid, row.length = (s.grid.headD []).length) ∧
  0 < s.grid.length ∧ s.grid.length ≤ 127 ∧
  0 < (s.grid.headD []).length ∧ (s.grid.headD []).length ≤ 127 ∧
  0 ≤ s.player.i ∧ s.player.i < s.grid.length ∧
  0 ≤ s.player.j ∧ s.player.j < (s.grid.headD []).length ∧
  isPlayerCell (gridGet s.grid s.player.i s.player.j) ∧
  (∀ ii < s.grid.length, ∀ jj < (s.grid.headD []).length,
    ¬ ((ii : Int) = s.player.i ∧ (jj : Int) = s.player.j) →
    ¬ isPlayerCell (gridGet s.grid ii jj))

instance (s : GameStateO) : Decidable (wfState s) := by
  unfold wfState; infer_instance

/-- Row length at an integer row index (0 for missing rows). -/
def rowLen (g : List (List CellO)) (i : Int) : Nat :=
  ((g.get? i.toNat).getD []).length

theorem length_gridSet (g : List (List CellO)) (i j : Int) (c : CellO) :
    (gridSet g i j c).length = g.length :=
  List.length_set g i.toNat _

theorem rowLen_gridSet (g : List (List CellO)) (i j : Int) (c : CellO)
    (i2 : Int) : rowLen (gridSet g i j c) i2 = rowLen g i2 := by
  unfold rowLen gridSet
  simp only [List.get?_eq_getElem?, List.getElem?_set]
  by_cases hii : i.toNat = i2.toNat
  · rw [hii]
    by_cases hlt : i2.toNat < g.length
    · simp [hlt, List.length_set]
    · have hnone : g[i2.toNat]? = none := List.getElem?_eq_none (by omega)
      simp [hlt, hnone]
  · simp [hii]

theorem gridGet_gridSet_self (g : List (List CellO)) (i j : Int) (c : CellO)
    (hil : i.toNat < g.length) (hjl : j.toNat < rowLen g i) :
    gridGet (gridSet g i j c) i j = c := by
  unfold rowLen at hjl
  rw [List.get?_eq_getElem?] at hjl
  have hrow : g[i.toNat]? = some (g[i.toNat]) := List.getElem?_eq_getElem hil
  rw [hrow] at hjl
  simp only [Option.getD_some] at hjl
  unfold gridGet gridSet
  simp [List.get?_eq_getElem?, List.getElem?_set, hil, hjl]

theorem gridGet_gridSet_ne (g : List (List CellO)) (i1 j1 i2 j2 : Int)
    (c : CellO) (h1i : 0 ≤ i1) (h1j : 0 ≤ j1) (h2i : 0 ≤ i2) (h2j : 0 ≤ j2)
    (hne : ¬ (i1 = i2 ∧ j1 = j2)) :
    gridGet (gridSet g i1 j1 c) i2 j2 = gridGet g i2 j2 := by
  unfold gridGet gridSet
  simp only [List.get?_eq_getElem?, List.getElem?_set]
  by_cases hii : i1.toNat = i2.toNat
  · have hi12 : i1 = i2 := by omega
    have hj12 : j1 ≠ j2 := fun h => hne ⟨hi12, h⟩
    have hjj : j1.toNat ≠ j2.toNat := by omega
    rw [hii]
    by_cases hlt : i2.toNat < g.length
    · simp [hlt, List.getElem?_set, hjj]
    · have hnone : g[i2.toNat]? = none := List.getElem?_eq_none (by omega)
      simp [hlt, hnone]
  · simp [hii]

theorem rowLen_eq (g : List (List CellO))
    (hrect : ∀ row ∈ g, row.length = (g.headD []).length) (i : Int)
    (hlt : i.toNat < g.length) : rowLen g i = (g.headD []).length := by
  unfold rowLen
  rw [List.get?_eq_getElem?, List.getElem?_eq_getElem hlt]
  exact hrect _ (List.getElem_mem hlt)

/-- The direction vector of an action. -/
def dirOf (a : UserAction) : Vec2 :=
  match a with | .Move d => vecFromDir d

theorem Vec2.eq_iff (p q : Vec2) : p = q ↔ (p.i = q.i ∧ p.j = q.j) := by
  constructor
  · intro hpq
    rw [hpq]
    exact ⟨rfl, rfl⟩
  · intro hij
    cases p; cases q
    obtain ⟨h1, h2⟩ := hij
    cases h1; cases h2
    rfl

/-- Behaviour of `finishMove`: the player lands on `(ni, nj)` (on-target
    variant when that cell is a `Target` after the earlier writes), the
    player's old cell is cleared back to floor or target, and no other
    cell changes. -/
theorem finishMove_spec (g : List (List CellO)) (pl : Vec2) (ni nj : Int)
    (k : GameChangeType)
    (hpl0i : 0 ≤ pl.i) (hpl0j : 0 ≤ pl.j)
    (hplin : pl.i.toNat < g.length) (hpljn : pl.j.toNat < rowLen g pl.i)
    (hni0 : 0 ≤ ni) (hnj0 : 0 ≤ nj)
    (hniin : ni.toNat < g.length) (hnjin : nj.toNat < rowLen g ni)
    (hne : ¬ (ni = pl.i ∧ nj = pl.j)) :
    ∃ g4, finishMove g pl ni nj k = GameUpdateO.NextState ⟨g4, ⟨ni, nj⟩⟩ k ∧
      (∀ p : Vec2, 0 ≤ p.i → 0 ≤ p.j →
        gridGet g4 p.i p.j =
          (if p.i = ni ∧ p.j = nj then
            (if gridGet g ni nj = CellO.Target then CellO.PlayerOnTarget
              else CellO.PlayerOnFloor)
          else if p.i = pl.i ∧ p.j = pl.j then
            (if gridGet g pl.i pl.j = CellO.PlayerOnTarget then CellO.Target
              else CellO.Floor)
          else gridGet g p.i p.j)) := by
  refine ⟨_, rfl, ?_⟩
  intro p hp0i hp0j
  have hg3n : gridGet (gridSet g pl.i pl.j
      (if gridGet g pl.i pl.j = CellO.PlayerOnTarget then CellO.Target
        else CellO.Floor)) ni nj = gridGet g ni nj :=
    gridGet_gridSet_ne _ _ _ _ _ _ hpl0i hpl0j hni0 hnj0
      (fun hc => hne ⟨hc.1.symm, hc.2.symm⟩)
  by_cases hpd : p.i = ni ∧ p.j = nj
  · rw [if_pos hpd]
    obtain ⟨h1, h2⟩ := hpd
    simp only [finishMove, h1, h2]
    rw [hg3n]
    refine gridGet_gridSet_self _ _ _ _ ?_ ?_
    · rw [length_gridSet]; exact hniin
    · rw [rowLen_gridSet]; exact hnjin
  · rw [if_neg hpd]
    rw [hg3n]
    have hstep1 : gridGet (gridSet (gridSet g pl.i pl.j
        (if gridGet g pl.i pl.j = CellO.PlayerOnTarget then CellO.Target
          else CellO.Floor)) ni nj
        (if gridGet g ni nj = CellO.Target then CellO.PlayerOnTarget
          else CellO.PlayerOnFloor)) p.i p.j =
        gridGet (gridSet g pl.i pl.j
          (if gridGet g pl.i pl.j = CellO.PlayerOnTarget then CellO.Target
            else CellO.Floor)) p.i p.j :=
      gridGet_gridSet_ne _ _ _ _ _ _ hni0 hnj0 hp0i hp0j
        (fun hc => hpd ⟨hc.1.symm, hc.2.symm⟩)
    rw [hstep1]
    by_cases hpp : p.i = pl.i ∧ p.j = pl.j
    · rw [if_pos hpp]
      obtain ⟨h1, h2⟩ := hpp
      rw [h1, h2]
      exact gridGet_gridSet_self _ _ _ _ hplin hpljn
    · rw [if_neg hpp]
      exact gridGet_gridSet_ne _ _ _ _ _ _ hpl0i hpl0j hp0i hp0j
        (fun hc => hpp ⟨hc.1.symm, hc.2.symm⟩)

/-- Full statement of claim C1 at a given state and action: the exact case
    analysis of §4.2 of the spec, with the resulting grid characterized
    cell by cell (the pushed box appears on the beyond cell, the player on
    the destination, the player's old cell is cleared, and every other
    cell is untouched). -/
def stepClaimStatement (s : GameStateO) (a : UserAction) : Prop :=
  let h : Int := s.grid.length
  let w : Int := (s.grid.headD []).length
  let dir := dirOf a
  let d : Vec2 := ⟨s.player.i + dir.i, s.player.j + dir.j⟩
  let b : Vec2 := ⟨d.i + dir.i, d.j + dir.j⟩
  let oobD : Prop := d.i < 0 ∨ d.j < 0 ∨ d.i ≥ h ∨ d.j ≥ w
  let oobB : Prop := b.i < 0 ∨ b.j < 0 ∨ b.i ≥ h ∨ b.j ≥ w
  let inBds : Vec2 → Prop := fun p => 0 ≤ p.i ∧ p.i < h ∧ 0 ≤ p.j ∧ p.j < w
  (oobD → step s a = GameUpdateO.Error "Cannot move out of bounds") ∧
  (¬ oobD → isBoxCell (gridGet s.grid d.i d.j) →
    (oobB → step s a = GameUpdateO.Error "Cannot push block out of bounds") ∧
    (¬ oobB → (gridGet s.grid b.i b.j = CellO.Wall ∨
        isBoxCell (gridGet s.grid b.i b.j)) →
      step s a = GameUpdateO.Error "Cannot push block") ∧
    (¬ oobB → ¬ (gridGet s.grid b.i b.j = CellO.Wall ∨
        isBoxCell (gridGet s.grid b.i b.j)) →
      ∃ s2, step s a = GameUpdateO.NextState s2 GameChangeType.PlayerAndBoxMove ∧
        s2.player = d ∧
        (∀ p : Vec2, inBds p → gridGet s2.grid p.i p.j =
          (if p = b then
            (if gridGet s.grid b.i b.j = CellO.Target then CellO.BoxOnTarget
              else CellO.BoxOnFloor)
          else if p = d then
            (if gridGet s.grid d.i d.j = CellO.BoxOnTarget then CellO.PlayerOnTarget
              else CellO.PlayerOnFloor)
          else if p = s.player then
            (if gridGet s.grid s.player.i s.player.j = CellO.PlayerOnTarget
              then CellO.Target else CellO.Floor)
          else gridGet s.grid p.i p.j)))) ∧
  (¬ oobD → ¬ isBoxCell (gridGet s.grid d.i d.j) →
    (gridGet s.grid d.i d.j = CellO.Floor ∨ gridGet s.grid d.i d.j = CellO.Target) →
    ∃ s2, step s a = GameUpdateO.NextState s2 GameChangeType.PlayerMove ∧
      s2.player = d ∧
      (∀ p : Vec2, inBds p → gridGet s2.grid p.i p.j =
        (if p = d then
          (if gridGet s.grid d.i d.j = CellO.Target then CellO.PlayerOnTarget
            else CellO.PlayerOnFloor)
        else if p = s.player then
          (if gridGet s.grid s.player.i s.player.j = CellO.PlayerOnTarget
            then CellO.Target else CellO.Floor)
        else gridGet s.grid p.i p.j))) ∧
  (¬ oobD → ¬ isBoxCell (gridGet s.grid d.i d.j) →
    gridGet s.grid d.i d.j = CellO.Wall →
    step s a = GameUpdateO.Error "Cannot walk into a wall")

/-- Claim C1: the step function of `core/update.rs` follows the
    specified algorithm.  For every well-formed state and move direction
    it errors when the destination is out of bounds; on a push it errors
    iff the beyond cell is off-board, a wall, or another box, and
    otherwise moves the box to the beyond cell and the player to the
    destination returning `PlayerAndBoxMove`; on a free walkable
    destination it moves only the player returning `PlayerMove`; and it
    errors on a wall.  The embedding is a pure function over the cloned
    grid, so the input state is never mutated and the result is fresh by
    construction. -/
theorem c1_step_follows_algorithm (s : GameStateO) (a : UserAction)
    (hwf : wfState s) : stepClaimStatement s a := by
  obtain ⟨hrect, hl0, hl127, hw0, hw127, hpi0, hpih, hpj0, hpjw, hpcell,
    huniq⟩ := hwf
  have hm2 : vecFromDir a.1 = dirOf a := by
    rcases a with ⟨dd⟩; rfl
  have hdir : (dirOf a).i = -1 ∧ (dirOf a).j = 0 ∨
      (dirOf a).i = 1 ∧ (dirOf a).j = 0 ∨
      (dirOf a).i = 0 ∧ (dirOf a).j = -1 ∨
      (dirOf a).i = 0 ∧ (dirOf a).j = 1 := by
    rcases a with ⟨dd⟩
    cases dd <;> simp [dirOf, vecFromDir]
  simp only [stepClaimStatement]
  set dI : Int := (dirOf a).i with hdI
  set dJ : Int := (dirOf a).j with hdJ
  set pI : Int := s.player.i with hpI
  set pJ : Int := s.player.j with hpJ
  set HH : Int := (s.grid.length : Int) with hHH
  set WW : Int := ((s.grid.headD []).length : Int) with hWW
  have hplin : pI.toNat < s.grid.length := by omega
  have hplrow : pJ.toNat < rowLen s.grid pI := by
    rw [rowLen_eq s.grid hrect _ hplin]; omega
  have hstep : step s a =
      (if pI + dI < 0 ∨ pJ + dJ < 0 ∨ pI + dI ≥ HH ∨ pJ + dJ ≥ WW then
        GameUpdateO.Error "Cannot move out of bounds"
      else if gridGet s.grid (pI + dI) (pJ + dJ) = CellO.BoxOnFloor ∨
          gridGet s.grid (pI + dI) (pJ + dJ) = CellO.BoxOnTarget then
        if pI + dI + dI < 0 ∨ pJ + dJ + dJ < 0 ∨ pI + dI + dI ≥ HH ∨
            pJ + dJ + dJ ≥ WW then
          GameUpdateO.Error "Cannot push block out of bounds"
        else if ¬ (gridGet s.grid (pI + dI + dI) (pJ + dJ + dJ) = CellO.Floor ∨
            gridGet s.grid (pI + dI + dI) (pJ + dJ + dJ) = CellO.Target) then
          GameUpdateO.Error "Cannot push block"
        else
          finishMove
            (gridSet
              (gridSet s.grid (pI + dI + dI) (pJ + dJ + dJ)
                (if gridGet s.grid (pI + dI + dI) (pJ + dJ + dJ) = CellO.Target
                  then CellO.BoxOnTarget else CellO.BoxOnFloor))
              (pI + dI) (pJ + dJ)
              (if gridGet s.grid (pI + dI) (pJ + dJ) = CellO.BoxOnTarget
                then CellO.Target else CellO.Floor))
            s.player (pI + dI) (pJ + dJ) GameChangeType.PlayerAndBoxMove
      else if ¬ (gridGet s.grid (pI + dI) (pJ + dJ) = CellO.Floor ∨
          gridGet s.grid (pI + dI) (pJ + dJ) = CellO.Target) then
        GameUpdateO.Error "Cannot walk into a wall"
      else
        finishMove s.grid s.player (pI + dI) (pJ + dJ)
          GameChangeType.PlayerMove) := by
    simp only [step, hm2, hdI, hdJ, hpI, hpJ, hHH, hWW]
  refine ⟨?_, ?_, ?_, ?_⟩
  · intro hoob
    rw [hstep, if_pos hoob]
  · intro hoob hbox
    have hboxOr : gridGet s.grid (pI + dI) (pJ + dJ) = CellO.BoxOnFloor ∨
        gridGet s.grid (pI + dI) (pJ + dJ) = CellO.BoxOnTarget := hbox
    refine ⟨?_, ?_, ?_⟩
    · intro hoobB
      rw [hstep, if_neg hoob, if_pos hboxOr, if_pos hoobB]
    · intro hoobB hbad
      have hnotFT : ¬ (gridGet s.grid (pI + dI + dI) (pJ + dJ + dJ) =
          CellO.Floor ∨ gridGet s.grid (pI + dI + dI) (pJ + dJ + dJ) =
          CellO.Target) := by
        rcases hbad with hb | hb
        · simp [hb]
        · rcases hb with hb | hb <;> simp [hb]
      rw [hstep, if_neg hoob, if_pos hboxOr, if_neg hoobB, if_pos hnotFT]
    · intro hoobB hgoodneg
      have hbnp : ¬ ((pI + dI + dI) = pI ∧ (pJ + dJ + dJ) = pJ) := by
        rcases hdir with ⟨h1, h2⟩ | ⟨h1, h2⟩ | ⟨h1, h2⟩ | ⟨h1, h2⟩ <;> omega
      have hcast1 : (((pI + dI + dI).toNat : Int)) = pI + dI + dI := by omega
      have hcast2 : (((pJ + dJ + dJ).toNat : Int)) = pJ + dJ + dJ := by omega
      have hnpc : ¬ isPlayerCell
          (gridGet s.grid (pI + dI + dI) (pJ + dJ + dJ)) := by
        have hu := huniq (pI + dI + dI).toNat (by omega)
          (pJ + dJ + dJ).toNat (by omega)
          (by rw [hcast1, hcast2]; exact hbnp)
        rw [hcast1, hcast2] at hu
        exact hu
      have hFT : gridGet s.grid (pI + dI + dI) (pJ + dJ + dJ) = CellO.Floor ∨
          gridGet s.grid (pI + dI + dI) (pJ + dJ + dJ) = CellO.Target := by
        cases hc : gridGet s.grid (pI + dI + dI) (pJ + dJ + dJ) with
        | Wall => exact absurd (Or.inl hc) hgoodneg
        | Floor => exact Or.inl rfl
        | Target => exact Or.inr rfl
        | BoxOnFloor => exact absurd (Or.inr (Or.inl hc)) hgoodneg
        | BoxOnTarget => exact absurd (Or.inr (Or.inr hc)) hgoodneg
        | PlayerOnFloor => exact absurd (Or.inl hc) hnpc
        | PlayerOnTarget => exact absurd (Or.inr hc) hnpc
      rw [hstep, if_neg hoob, if_pos hboxOr, if_neg hoobB,
        if_neg (not_not_intro hFT)]
      have hg1len : (gridSet s.grid (pI + dI + dI) (pJ + dJ + dJ)
          (if gridGet s.grid (pI + dI + dI) (pJ + dJ + dJ) = CellO.Target
            then CellO.BoxOnTarget else CellO.BoxOnFloor)).length =
          s.grid.length := length_gridSet _ _ _ _
      obtain ⟨g4, hfm, hcells⟩ := finishMove_spec
        (gridSet
          (gridSet s.grid (pI + dI + dI) (pJ + dJ + dJ)
            (if gridGet s.grid (pI + dI + dI) (pJ + dJ + dJ) = CellO.Target
              then CellO.BoxOnTarget else CellO.BoxOnFloor))
          (pI + dI) (pJ + dJ)
          (if gridGet s.grid (pI + dI) (pJ + dJ) = CellO.BoxOnTarget
            then CellO.Target else CellO.Floor))
        s.player (pI + dI) (pJ + dJ) GameChangeType.PlayerAndBoxMove
        (by omega) (by omega)
        (by rw [length_gridSet, hg1len]; exact hplin)
        (by rw [rowLen_gridSet, rowLen_gridSet]; exact hplrow)
        (by omega) (by omega)
        (by rw [length_gridSet, hg1len]; omega)
        (by rw [rowLen_gridSet, rowLen_gridSet,
              rowLen_eq s.grid hrect _ (by omega)]; omega)
        (by rcases hdir with ⟨h1, h2⟩ | ⟨h1, h2⟩ | ⟨h1, h2⟩ | ⟨h1, h2⟩ <;> omega)
      refine ⟨⟨g4, ⟨pI + dI, pJ + dJ⟩⟩, hfm, rfl, ?_⟩
      intro p hp
      obtain ⟨hp1, hp2, hp3, hp4⟩ := hp
      rw [hcells p hp1 hp3]
      have hg2d : gridGet
          (gridSet
            (gridSet s.grid (pI + dI + dI) (pJ + dJ + dJ)
              (if gridGet s.grid (pI + dI + dI) (pJ + dJ + dJ) = CellO.Target
                then CellO.BoxOnTarget else CellO.BoxOnFloor))
            (pI + dI) (pJ + dJ)
            (if gridGet s.grid (pI + dI) (pJ + dJ) = CellO.BoxOnTarget
              then CellO.Target else CellO.Floor))
          (pI + dI) (pJ + dJ) =
          (if gridGet s.grid (pI + dI) (pJ + dJ) = CellO.BoxOnTarget
            then CellO.Target else CellO.Floor) := by
        refine gridGet_gridSet_self _ _ _ _ ?_ ?_
        · rw [hg1len]; omega
        · rw [rowLen_gridSet, rowLen_eq s.grid hrect _ (by omega)]; omega
      have hg2pl : gridGet
          (gridSet
            (gridSet s.grid (pI + dI + dI) (pJ + dJ + dJ)
              (if gridGet s.grid (pI + dI + dI) (pJ + dJ + dJ) = CellO.Target
                then CellO.BoxOnTarget else CellO.BoxOnFloor))
            (pI + dI) (pJ + dJ)
            (if gridGet s.grid (pI + dI) (pJ + dJ) = CellO.BoxOnTarget
              then CellO.Target else CellO.Floor))
          s.player.i s.player.j = gridGet s.grid s.player.i s.player.j := by
        rw [gridGet_gridSet_ne _ _ _ _ _ _ (by omega) (by omega)
          (by rw [← hpI]; omega) (by rw [← hpJ]; omega)
          (by rw [← hpI, ← hpJ]
              rcases hdir with ⟨h1, h2⟩ | ⟨h1, h2⟩ | ⟨h1, h2⟩ | ⟨h1, h2⟩ <;>
                omega)]
        rw [gridGet_gridSet_ne _ _ _ _ _ _ (by omega) (by omega)
          (by rw [← hpI]; omega) (by rw [← hpJ]; omega)
          (by rw [← hpI, ← hpJ]
              rcases hdir with ⟨h1, h2⟩ | ⟨h1, h2⟩ | ⟨h1, h2⟩ | ⟨h1, h2⟩ <;>
                omega)]
      have hg2b : gridGet
          (gridSet
            (gridSet s.grid (pI + dI + dI) (pJ + dJ + dJ)
              (if gridGet s.grid (pI + dI + dI) (pJ + dJ + dJ) = CellO.Target
                then CellO.BoxOnTarget else CellO.BoxOnFloor))
            (pI + dI) (pJ + dJ)
            (if gridGet s.grid (pI + dI) (pJ + dJ) = CellO.BoxOnTarget
              then CellO.Target else CellO.Floor))
          (pI + dI + dI) (pJ + dJ + dJ) =
          (if gridGet s.grid (pI + dI + dI) (pJ + dJ + dJ) = CellO.Target
            then CellO.BoxOnTarget else CellO.BoxOnFloor) := by
        rw [gridGet_gridSet_ne _ _ _ _ _ _ (by omega) (by omega)
          (by omega) (by omega)
          (by rcases hdir with ⟨h1, h2⟩ | ⟨h1, h2⟩ | ⟨h1, h2⟩ | ⟨h1, h2⟩ <;>
            omega)]
        refine gridGet_gridSet_self _ _ _ _ ?_ ?_
        · omega
        · rw [rowLen_eq s.grid hrect _ (by omega)]; omega
      simp only [Vec2.eq_iff]
      by_cases hpB : p.i = pI + dI + dI ∧ p.j = pJ + dJ + dJ
      · have hBnotD : ¬ (p.i = pI + dI ∧ p.j = pJ + dJ) := by
          rcases hdir with ⟨h1, h2⟩ | ⟨h1, h2⟩ | ⟨h1, h2⟩ | ⟨h1, h2⟩ <;> omega
        have hBnotP : ¬ (p.i = s.player.i ∧ p.j = s.player.j) := by
          rw [← hpI, ← hpJ]
          rcases hdir with ⟨h1, h2⟩ | ⟨h1, h2⟩ | ⟨h1, h2⟩ | ⟨h1, h2⟩ <;> omega
        rw [if_neg hBnotD, if_neg hBnotP, if_pos hpB, hpB.1, hpB.2, hg2b]
      · by_cases hpD : p.i = pI + dI ∧ p.j = pJ + dJ
        · rw [if_pos hpD, if_neg hpB, if_pos hpD, hg2d]
          rcases hboxOr with hb | hb <;> rw [hb] <;> simp
        · by_cases hpP : p.i = s.player.i ∧ p.j = s.player.j
          · rw [if_neg hpD, if_pos hpP, if_neg hpB, if_neg hpD, if_pos hpP,
              hg2pl, ← hpI, ← hpJ]
          · rw [if_neg hpD, if_neg hpP, if_neg hpB, if_neg hpD, if_neg hpP]
            rw [gridGet_gridSet_ne _ _ _ _ _ _ (by omega) (by omega) hp1 hp3
              (fun hc => hpD ⟨hc.1.symm, hc.2.symm⟩)]
            rw [gridGet_gridSet_ne _ _ _ _ _ _ (by omega) (by omega) hp1 hp3
              (fun hc => hpB ⟨hc.1.symm, hc.2.symm⟩)]
  · intro hoob hnbox hFT
    have hnboxOr : ¬ (gridGet s.grid (pI + dI) (pJ + dJ) = CellO.BoxOnFloor ∨
        gridGet s.grid (pI + dI) (pJ + dJ) = CellO.BoxOnTarget) := hnbox
    rw [hstep, if_neg hoob, if_neg hnboxOr, if_neg (not_not_intro hFT)]
    obtain ⟨g4, hfm, hcells⟩ := finishMove_spec s.grid s.player
      (pI + dI) (pJ + dJ) GameChangeType.PlayerMove
      (by omega) (by omega) hplin hplrow (by omega) (by omega)
      (by omega)
      (by rw [rowLen_eq s.grid hrect _ (by omega)]; omega)
      (by rcases hdir with ⟨h1, h2⟩ | ⟨h1, h2⟩ | ⟨h1, h2⟩ | ⟨h1, h2⟩ <;> omega)
    refine ⟨⟨g4, ⟨pI + dI, pJ + dJ⟩⟩, hfm, rfl, ?_⟩
    intro p hp
    obtain ⟨hp1, hp2, hp3, hp4⟩ := hp
    rw [hcells p hp1 hp3]
    simp only [Vec2.eq_iff]
  · intro hoob hnbox hwall
    have hnboxOr : ¬ (gridGet s.grid (pI + dI) (pJ + dJ) = CellO.BoxOnFloor ∨
        gridGet s.grid (pI + dI) (pJ + dJ) = CellO.BoxOnTarget) := hnbox
    have hnotFT : ¬ (gridGet s.grid (pI + dI) (pJ + dJ) = CellO.Floor ∨
        gridGet s.grid (pI + dI) (pJ + dJ) = CellO.Target) := by
      simp [hwall]
    rw [hstep, if_neg hoob, if_neg hnboxOr, if_pos hnotFT]



/-- Concrete 3x5 level used to instantiate the step-function theorem:
    walls all around, player at (1,1), box at (1,2), target at (1,3). -/
def c1ExampleState : GameStateO :=
  ⟨[[CellO.Wall, CellO.Wall, CellO.Wall, CellO.Wall, CellO.Wall],
    [CellO.Wall, CellO.PlayerOnFloor, CellO.BoxOnFloor, CellO.Target,
      CellO.Wall],
    [CellO.Wall, CellO.Wall, CellO.Wall, CellO.Wall, CellO.Wall]], ⟨1, 1⟩⟩

/-- Concrete instantiation of `c1_step_follows_algorithm`: the example
    state is well-formed and the claimed case analysis holds on it for a
    rightward move (a push onto the target). -/
theorem c1_step_follows_algorithm_witness :
    wfState c1ExampleState ∧
    stepClaimStatement c1ExampleState (UserAction.Move Direction.Right) :=
  ⟨by decide, c1_step_follows_algorithm _ _ (by decide)⟩

/-! Shared board and reachability, from `core/models.rs` and
    `core/model_helpers.rs` of the RulesEngine crate. -/

/-- The shared static board `SharedGameState { grid: Vec<Vec<Cell>> }`. -/
structure SharedGameState where
  grid : List (List Cell)
deriving DecidableEq, Repr

/-- `SharedGameState::height`. -/
def SharedGameState.height (s : SharedGameState) : Int := s.grid.length

/-- `SharedGameState::width`. -/
def SharedGameState.width (s : SharedGameState) : Int :=
  if s.grid.isEmpty then 0 else (s.grid.headD []).length

theorem SharedGameState.width_eq (s : SharedGameState) :
    s.width = ((s.grid.headD []).length : Int) := by
  unfold SharedGameState.width
  cases hg : s.grid with
  | nil => simp [List.isEmpty, hg]
  | cons r t => simp [List.isEmpty, hg]

/-- `BoundsOriginRoot::contains` applied to the board bounds: the board
    bounds have extent `(x, y) = (width, height)` and a position converts
    to `IVec2` with `x = j`, `y = i`. -/
def inBounds (s : SharedGameState) (p : Vec2) : Prop :=
  0 ≤ p.j ∧ p.j < s.width ∧ 0 ≤ p.i ∧ p.i < s.height

instance (s : SharedGameState) (p : Vec2) : Decidable (inBounds s p) := by
  unfold inBounds; infer_instance

/-- Board indexing `self.grid[y][x]`; Rust panics on an out-of-range
    index, modelled as `none`. -/
def cellAt? (s : SharedGameState) (p : Vec2) : Option Cell :=
  if p.i < 0 ∨ p.j < 0 then none
  else (s.grid.get? p.i.toNat).bind fun row => row.get? p.j.toNat

/-- `Cell::is_walkable` (not a wall). -/
def Cell.is_walkable (c : Cell) : Bool := decide (c ≠ Cell.Wall)

/-- Indexing followed by the walkability test, for positions whose
    in-bounds status has already been checked (`self[new_pos].is_walkable()`
    guarded by `visited.contains`). -/
def walkableAt (s : SharedGameState) (p : Vec2) : Bool :=
  match cellAt? s p with
  | some c => c.is_walkable
  | none => false

/-- The (new-model) game state: box environment plus player position. -/
structure GameState where
  environment : GameStateEnvironment
  player : Vec2
deriving DecidableEq, Repr

/-- `VisitationState` from `core/model_helpers.rs`. -/
inductive VisitationState where
  | Walkable
  | Blocked
  | Visited
deriving DecidableEq, Repr

/-- Pointwise update of the visitation grid (`visited[&pos] = v`). -/
def updVis (v : Vec2 → VisitationState) (q : Vec2) (x : VisitationState) :
    Vec2 → VisitationState :=
  fun p => if p = q then x else v p

/-- The initial visitation grid of `visit_all_reachable_position`:
    everything `Walkable`, every in-bounds box `Blocked`. -/
def initVis (s : SharedGameState) (gs : GameState) : Vec2 → VisitationState :=
  fun p =>
    if (iterBoxes gs.environment).contains p ∧ inBounds s p then
      VisitationState.Blocked
    else VisitationState.Walkable

/-- One Rust iteration order quirk: the `while let Some(pos) = stack.pop()`
    loop pops from the end of the `Vec`, and neighbours are pushed in the
    order up, down, left, right; the list model keeps the head as the top
    of the stack, so pushed neighbours are reversed onto the front.  The
    result carries the final visitation grid, the visit order (reversed),
    and the remaining stack (empty whenever the fuel suffices). -/
def floodLoop (s : SharedGameState) :
    Nat → (Vec2 → VisitationState) → List Vec2 → List Vec2 →
    ((Vec2 → VisitationState) × List Vec2 × List Vec2)
  | 0, v, stack, acc => (v, acc, stack)
  | fuel + 1, v, stack, acc =>
    match stack with
    | [] => (v, acc, [])
    | pos :: rest =>
      if v pos ≠ VisitationState.Walkable then floodLoop s fuel v rest acc
      else
        let v2 := updVis v pos VisitationState.Visited
        let toPush := pos.neighbors.filter fun np =>
          decide (inBounds s np) &&
          (decide (v2 np = VisitationState.Walkable)) && walkableAt s np
        floodLoop s fuel v2 (toPush.reverse ++ rest) (pos :: acc)

/-- Fuel that always suffices for the flood fill (each visit consumes one
    in-bounds `Walkable` cell and pushes at most four entries). -/
def floodFuel (s : SharedGameState) : Nat :=
  5 * (s.grid.length * (s.grid.headD []).length) + 1

/-- `visit_all_reachable_position`: mark boxes blocked, then flood fill
    from the player.  A player outside the board makes the Rust code index
    the visitation grid out of range (a panic for a negative or
    past-the-end linear index), modelled as `none`; every claim keeps the
    player in bounds. -/
def visitAllReachable (s : SharedGameState) (gs : GameState) :
    Option ((Vec2 → VisitationState) × List Vec2) :=
  if inBounds s gs.player then
    let r := floodLoop s (floodFuel s) (initVis s gs) [gs.player] []
    some (r.1, r.2.1.reverse)
  else none

/-- `reachable_positions`: the visit order of the flood fill. -/
def reachable_positions (s : SharedGameState) (gs : GameState) :
    Option (List Vec2) :=
  (visitAllReachable s gs).map fun r => r.2

/-- The fold of `min_reachable_position` over the visit stream, starting
    from the sentinel `(i8::MAX, i8::MAX)`. -/
def foldMinVec (l : List Vec2) : Vec2 :=
  l.foldl (fun m p => if Vec2.lt p m then p else m) ⟨127, 127⟩

/-- `min_reachable_position`: stream the visited cells through a running
    lexicographic minimum. -/
def min_reachable_position (s : SharedGameState) (gs : GameState) :
    Option Vec2 :=
  (visitAllReachable s gs).map fun r => foldMinVec r.2

/-- `UniqueNode` from `state_graph/unique_node.rs` (the Rust field is an
    `IVec2`; the conversion from `Vec2` is a bijective component swap and
    is dropped here). -/
structure UniqueNode where
  environment : GameStateEnvironment
  minimum_reachable_player_position : Vec2
deriving DecidableEq, Repr

/-- `UniqueNode::from_game_state`. -/
def UniqueNode.from_game_state (game : GameState) (s : SharedGameState) :
    Option UniqueNode :=
  (min_reachable_position s game).map fun m => ⟨game.environment, m⟩

/-- A game state satisfying the documented `GameState` invariant: the
    player is on a walkable in-bounds cell not occupied by a box. -/
def validState (s : SharedGameState) (gs : GameState) : Prop :=
  inBounds s gs.player ∧ walkableAt s gs.player = true ∧
    (iterBoxes gs.environment).contains gs.player = false

instance (s : SharedGameState) (gs : GameState) :
    Decidable (validState s gs) := by
  unfold validState; infer_instance

/-- Boards whose dimensions stay inside the `i8` range, so that every
    in-bounds cell is lexicographically below the `(127, 127)` sentinel. -/
def wfShared (s : SharedGameState) : Prop :=
  s.grid.length ≤ 127 ∧ (s.grid.headD []).length ≤ 127

instance (s : SharedGameState) : Decidable (wfShared s) := by
  unfold wfShared; infer_instance

/-! Correctness of the flood fill: the visited cells are exactly the
    player-reachable component. -/

/-- One exploration step of the flood fill: `q` is a cardinal neighbour of
    `p` that is in bounds, walkable on the board, and initially `Walkable`
    in the visitation grid (that is, not blocked by a box). -/
def reachRel (s : SharedGameState) (v0 : Vec2 → VisitationState)
    (p q : Vec2) : Prop :=
  q ∈ p.neighbors ∧ inBounds s q ∧ walkableAt s q = true ∧
    v0 q = VisitationState.Walkable

/-- Reachability: the reflexive-transitive closure of `reachRel` from the
    start cell. -/
def Reach (s : SharedGameState) (v0 : Vec2 → VisitationState)
    (start p : Vec2) : Prop :=
  Relation.ReflTransGen (reachRel s v0) start p

/-- All in-bounds cells of the board as a finite set. -/
def cellFinset (s : SharedGameState) : Finset Vec2 :=
  (Finset.range s.grid.length ×ˢ Finset.range (s.grid.headD []).length).image
    fun q : Nat × Nat => ⟨(q.1 : Int), (q.2 : Int)⟩

theorem mem_cellFinset {s : SharedGameState} {p : Vec2} :
    p ∈ cellFinset s ↔ inBounds s p := by
  unfold cellFinset inBounds
  rw [SharedGameState.width_eq]
  unfold SharedGameState.height
  simp only [Finset.mem_image, Finset.mem_product, Finset.mem_range]
  constructor
  · rintro ⟨⟨qa, qb⟩, ⟨ha, hb⟩, rfl⟩
    dsimp only
    refine ⟨by omega, by omega, by omega, by omega⟩
  · rintro ⟨h1, h2, h3, h4⟩
    refine ⟨⟨p.i.toNat, p.j.toNat⟩, ⟨by omega, by omega⟩, ?_⟩
    rw [Vec2.eq_iff]
    dsimp only
    constructor
    · omega
    · omega

/-- Number of in-bounds cells still marked `Walkable`. -/
def walkCard (s : SharedGameState) (v : Vec2 → VisitationState) : Nat :=
  ((cellFinset s).filter fun p => v p = VisitationState.Walkable).card

theorem walkCard_updVis (s : SharedGameState) (v : Vec2 → VisitationState)
    (p : Vec2) (hin : inBounds s p) (hw : v p = VisitationState.Walkable) :
    walkCard s (updVis v p VisitationState.Visited) + 1 = walkCard s v := by
  unfold walkCard
  have hmem : p ∈ (cellFinset s).filter
      (fun q => v q = VisitationState.Walkable) := by
    rw [Finset.mem_filter, mem_cellFinset]
    exact ⟨hin, hw⟩
  have hset : (cellFinset s).filter
      (fun q => updVis v p VisitationState.Visited q =
        VisitationState.Walkable) =
      ((cellFinset s).filter fun q => v q = VisitationState.Walkable).erase
        p := by
    ext q
    rw [Finset.mem_erase, Finset.mem_filter, Finset.mem_filter]
    unfold updVis
    by_cases hq : q = p
    · subst hq
      simp
    · simp [hq]
  rw [hset, Finset.card_erase_of_mem hmem]
  have : 0 < ((cellFinset s).filter
      fun q => v q = VisitationState.Walkable).card :=
    Finset.card_pos.mpr ⟨p, hmem⟩
  omega

/-- Master run lemma for the flood-fill loop.  With sufficient fuel the
    stack empties, non-`Walkable` marks are permanent, every stacked cell
    is processed, the visited cells are exactly the accumulator, every
    cell is either visited or untouched, every visited cell satisfies any
    reachability predicate `R` closed under admissible neighbour steps,
    and the final visited set is closed under admissible neighbour
    steps. -/
theorem floodLoop_run (s : SharedGameState) (v0 : Vec2 → VisitationState)
    (R : Vec2 → Prop)
    (hRclose : ∀ p q, R p → q ∈ p.neighbors → inBounds s q →
      walkableAt s q = true → v0 q = VisitationState.Walkable → R q) :
    ∀ (fuel : Nat) (v : Vec2 → VisitationState) (stack acc : List Vec2),
    (∀ p ∈ stack, inBounds s p) →
    (∀ p ∈ stack, R p) →
    (∀ p, v p = VisitationState.Visited → R p) →
    (∀ p, v p = VisitationState.Visited ∨ v p = v0 p) →
    (∀ p, v p = VisitationState.Visited ↔ p ∈ acc) →
    (∀ p, v p = VisitationState.Visited → ∀ q ∈ p.neighbors,
      inBounds s q → walkableAt s q = true →
      v q ≠ VisitationState.Walkable ∨ q ∈ stack) →
    stack.length + 5 * walkCard s v ≤ fuel →
    ((floodLoop s fuel v stack acc).2.2 = [] ∧
     (∀ p, v p ≠ VisitationState.Walkable →
        (floodLoop s fuel v stack acc).1 p = v p) ∧
     (∀ p ∈ stack,
        (floodLoop s fuel v stack acc).1 p ≠ VisitationState.Walkable) ∧
     (∀ p, (floodLoop s fuel v stack acc).1 p = VisitationState.Visited ∨
        (floodLoop s fuel v stack acc).1 p = v0 p) ∧
     (∀ p, (floodLoop s fuel v stack acc).1 p = VisitationState.Visited ↔
        p ∈ (floodLoop s fuel v stack acc).2.1) ∧
     (∀ p, (floodLoop s fuel v stack acc).1 p = VisitationState.Visited →
        R p) ∧
     (∀ p, (floodLoop s fuel v stack acc).1 p = VisitationState.Visited →
        ∀ q ∈ p.neighbors, inBounds s q → walkableAt s q = true →
        (floodLoop s fuel v stack acc).1 q ≠ VisitationState.Walkable)) := by
  intro fuel
  induction fuel with
  | zero =>
    intro v stack acc hin hR hvisR hv0 hacc hclose hfuel
    have hstack : stack = [] := by
      cases stack with
      | nil => rfl
      | cons a t =>
        exact absurd hfuel (by simp only [List.length_cons]; omega)
    subst hstack
    simp only [floodLoop]
    refine ⟨by simp, by simp, by simp, hv0, hacc, hvisR, ?_⟩
    intro p hp q hq hqin hqw
    rcases hclose p hp q hq hqin hqw with h | h
    · exact h
    · cases h
  | succ n ih =>
    intro v stack acc hin hR hvisR hv0 hacc hclose hfuel
    cases stack with
    | nil =>
      simp only [floodLoop]
      refine ⟨by simp, by simp, by simp, hv0, hacc, hvisR, ?_⟩
      intro p hp q hq hqin hqw
      rcases hclose p hp q hq hqin hqw with h | h
      · exact h
      · cases h
    | cons pos rest =>
      by_cases hpos : v pos = VisitationState.Walkable
      · -- visit step
        have hposin : inBounds s pos := hin pos (List.mem_cons_self _ _)
        have hposR : R pos := hR pos (List.mem_cons_self _ _)
        simp only [floodLoop, if_neg (not_not_intro hpos)]
        set v2 := updVis v pos VisitationState.Visited with hv2
        set toPush := pos.neighbors.filter (fun np =>
          decide (inBounds s np) &&
          (decide (v2 np = VisitationState.Walkable)) && walkableAt s np)
          with htoPush
        have hv2pos : v2 pos = VisitationState.Visited := by
          rw [hv2]; unfold updVis; simp
        have hv2ne : ∀ p, p ≠ pos → v2 p = v p := by
          intro p hp
          rw [hv2]; unfold updVis; simp [hp]
        have hv2mono : ∀ p, v p ≠ VisitationState.Walkable →
            v2 p = v p := by
          intro p hp
          by_cases hq : p = pos
          · subst hq; exact absurd hpos hp
          · exact hv2ne p hq
        have htp : ∀ q ∈ toPush, q ∈ pos.neighbors ∧ inBounds s q ∧
            v2 q = VisitationState.Walkable ∧ walkableAt s q = true := by
          intro q hq
          rw [htoPush, List.mem_filter] at hq
          obtain ⟨hm, hcond⟩ := hq
          simp only [Bool.and_eq_true, decide_eq_true_eq] at hcond
          exact ⟨hm, hcond.1.1, hcond.1.2, hcond.2⟩
        have htpv0 : ∀ q ∈ toPush, v0 q = VisitationState.Walkable := by
          intro q hq
          obtain ⟨hm, hbnd, hwk, hwa⟩ := htp q hq
          have hqne : q ≠ pos := by
            intro hcon
            rw [hcon, hv2pos] at hwk
            cases hwk
          rw [hv2ne q hqne] at hwk
          rcases hv0 q with hvq | hvq
          · rw [hvq] at hwk; cases hwk
          · rw [← hvq]; exact hwk
        have hmemnew : ∀ q, q ∈ toPush.reverse ++ rest ↔
            (q ∈ toPush ∨ q ∈ rest) := by
          intro q
          rw [List.mem_append, List.mem_reverse]
        have hin2 : ∀ p ∈ toPush.reverse ++ rest, inBounds s p := by
          intro p hp
          rcases (hmemnew p).mp hp with hp | hp
          · exact (htp p hp).2.1
          · exact hin p (List.mem_cons_of_mem _ hp)
        have hR2 : ∀ p ∈ toPush.reverse ++ rest, R p := by
          intro p hp
          rcases (hmemnew p).mp hp with hp | hp
          · obtain ⟨hm, hbnd, _, hwa⟩ := htp p hp
            exact hRclose pos p hposR hm hbnd hwa (htpv0 p hp)
          · exact hR p (List.mem_cons_of_mem _ hp)
        have hvisR2 : ∀ p, v2 p = VisitationState.Visited → R p := by
          intro p hp
          by_cases hq : p = pos
          · subst hq; exact hposR
          · rw [hv2ne p hq] at hp; exact hvisR p hp
        have hv02 : ∀ p, v2 p = VisitationState.Visited ∨ v2 p = v0 p := by
          intro p
          by_cases hq : p = pos
          · subst hq; exact Or.inl hv2pos
          · rw [hv2ne p hq]; exact hv0 p
        have hacc2 : ∀ p, v2 p = VisitationState.Visited ↔
            p ∈ pos :: acc := by
          intro p
          by_cases hq : p = pos
          · subst hq
            simp [hv2pos]
          · rw [hv2ne p hq, List.mem_cons]
            rw [hacc p]
            constructor
            · exact fun hh => Or.inr hh
            · rintro (hh | hh)
              · exact absurd hh hq
              · exact hh
        have hclose2 : ∀ p, v2 p = VisitationState.Visited →
            ∀ q ∈ p.neighbors, inBounds s q → walkableAt s q = true →
            v2 q ≠ VisitationState.Walkable ∨
              q ∈ toPush.reverse ++ rest := by
          intro p hp q hq hqin hqw
          by_cases hppos : p = pos
          · subst hppos
            by_cases hq2 : v2 q = VisitationState.Walkable
            · refine Or.inr ((hmemnew q).mpr (Or.inl ?_))
              rw [htoPush, List.mem_filter]
              refine ⟨hq, ?_⟩
              simp only [Bool.and_eq_true, decide_eq_true_eq]
              exact ⟨⟨hqin, hq2⟩, hqw⟩
            · exact Or.inl hq2
          · rw [hv2ne p hppos] at hp
            rcases hclose p hp q hq hqin hqw with hh | hh
            · exact Or.inl (fun hcon => hh (by
                by_cases hqpos : q = pos
                · rw [hqpos] at hcon
                  rw [hv2pos] at hcon
                  cases hcon
                · rw [hv2ne q hqpos] at hcon
                  exact hcon))
            · rcases List.mem_cons.mp hh with hh2 | hh2
              · subst hh2
                refine Or.inl ?_
                rw [hv2pos]
                intro hcon
                cases hcon
              · exact Or.inr ((hmemnew q).mpr (Or.inr hh2))
        have hcard : walkCard s v2 + 1 = walkCard s v :=
          walkCard_updVis s v pos hposin hpos
        have hlenpush : toPush.length ≤ 4 := by
          have h1 : toPush.length ≤ pos.neighbors.length := by
            rw [htoPush]
            exact List.length_filter_le _ _
          unfold Vec2.neighbors at h1
          simpa using h1
        have hfuel2 : (toPush.reverse ++ rest).length +
            5 * walkCard s v2 ≤ n := by
          rw [List.length_append, List.length_reverse]
          simp only [List.length_cons] at hfuel
          omega
        obtain ⟨ih1, ih2, ih3, ih4, ih5, ih6, ih7⟩ :=
          ih v2 (toPush.reverse ++ rest) (pos :: acc)
            hin2 hR2 hvisR2 hv02 hacc2 hclose2 hfuel2
        refine ⟨ih1, ?_, ?_, ih4, ih5, ih6, ih7⟩
        · intro p hp
          rw [ih2 p (by rw [hv2mono p hp]; exact hp), hv2mono p hp]
        · intro p hp
          rcases List.mem_cons.mp hp with hh | hh
          · subst hh
            rw [ih2 p (by rw [hv2pos]; intro hcon; cases hcon), hv2pos]
            intro hcon; cases hcon
          · by_cases hppos : p = pos
            · subst hppos
              rw [ih2 p (by rw [hv2pos]; intro hcon; cases hcon), hv2pos]
              intro hcon; cases hcon
            · exact ih3 p ((hmemnew p).mpr (Or.inr hh))
      · -- stale pop: the cell is already blocked or visited
        simp only [floodLoop, if_pos hpos]
        have hin2 : ∀ p ∈ rest, inBounds s p :=
          fun p hp => hin p (List.mem_cons_of_mem _ hp)
        have hR2 : ∀ p ∈ rest, R p :=
          fun p hp => hR p (List.mem_cons_of_mem _ hp)
        have hclose2 : ∀ p, v p = VisitationState.Visited →
            ∀ q ∈ p.neighbors, inBounds s q → walkableAt s q = true →
            v q ≠ VisitationState.Walkable ∨ q ∈ rest := by
          intro p hp q hq hqin hqw
          rcases hclose p hp q hq hqin hqw with hh | hh
          · exact Or.inl hh
          · rcases List.mem_cons.mp hh with hh2 | hh2
            · subst hh2; exact Or.inl hpos
            · exact Or.inr hh2
        have hfuel2 : rest.length + 5 * walkCard s v ≤ n := by
          simp only [List.length_cons] at hfuel
          omega
        obtain ⟨ih1, ih2, ih3, ih4, ih5, ih6, ih7⟩ :=
          ih v rest acc hin2 hR2 hvisR hv0 hacc hclose2 hfuel2
        refine ⟨ih1, ih2, ?_, ih4, ih5, ih6, ih7⟩
        intro p hp
        rcases List.mem_cons.mp hp with hh | hh
        · subst hh
          rw [ih2 p hpos]
          exact hpos
        · exact ih3 p hh

theorem walkCard_le (s : SharedGameState) (v : Vec2 → VisitationState) :
    walkCard s v ≤ s.grid.length * (s.grid.headD []).length := by
  unfold walkCard
  calc ((cellFinset s).filter fun p => v p = VisitationState.Walkable).card
      ≤ (cellFinset s).card := Finset.card_filter_le _ _
    _ ≤ ((Finset.range s.grid.length) ×ˢ
          (Finset.range (s.grid.headD []).length)).card :=
        Finset.card_image_le
    _ = s.grid.length * (s.grid.headD []).length := by
        rw [Finset.card_product, Finset.card_range, Finset.card_range]

theorem initVis_no_visited (s : SharedGameState) (gs : GameState) (p : Vec2) :
    initVis s gs p ≠ VisitationState.Visited := by
  unfold initVis
  by_cases hc : (iterBoxes gs.environment).contains p ∧ inBounds s p
  · rw [if_pos hc]; intro h; cases h
  · rw [if_neg hc]; intro h; cases h

theorem initVis_player (s : SharedGameState) (gs : GameState)
    (hval : validState s gs) :
    initVis s gs gs.player = VisitationState.Walkable := by
  unfold initVis
  rw [if_neg]
  intro hc
  rw [hval.2.2] at hc
  cases hc.1

/-- Characterization of `visit_all_reachable_position`: on a valid state it
    succeeds and the visit stream contains exactly the reachable cells. -/
theorem visitAllReachable_spec (s : SharedGameState) (gs : GameState)
    (hval : validState s gs) :
    ∃ vfin accL, visitAllReachable s gs = some (vfin, accL) ∧
      (∀ p, p ∈ accL ↔ Reach s (initVis s gs) gs.player p) := by
  obtain ⟨hinb, hwalk, hnobox⟩ := hval
  unfold visitAllReachable
  rw [if_pos hinb]
  refine ⟨_, _, rfl, ?_⟩
  have hRclose : ∀ p q, Reach s (initVis s gs) gs.player p →
      q ∈ p.neighbors → inBounds s q → walkableAt s q = true →
      initVis s gs q = VisitationState.Walkable →
      Reach s (initVis s gs) gs.player q := by
    intro p q hp hq hqin hqw hq0
    exact Relation.ReflTransGen.tail hp ⟨hq, hqin, hqw, hq0⟩
  obtain ⟨ih1, ih2, ih3, ih4, ih5, ih6, ih7⟩ :=
    floodLoop_run s (initVis s gs) (Reach s (initVis s gs) gs.player)
      hRclose (floodFuel s) (initVis s gs) [gs.player] []
      (by intro p hp; rcases List.mem_singleton.mp hp with rfl; exact hinb)
      (by intro p hp; rcases List.mem_singleton.mp hp with rfl
          exact Relation.ReflTransGen.refl)
      (fun p hp => absurd hp (initVis_no_visited s gs p))
      (fun p => Or.inr rfl)
      (by intro p
          constructor
          · intro hp; exact absurd hp (initVis_no_visited s gs p)
          · intro hp; cases hp)
      (fun p hp => absurd hp (initVis_no_visited s gs p))
      (by unfold floodFuel
          have := walkCard_le s (initVis s gs)
          simp only [List.length_singleton]
          omega)
  intro p
  rw [List.mem_reverse]
  rw [← ih5 p]
  constructor
  · exact ih6 p
  · intro hreach
    induction hreach with
    | refl =>
      have h1 := ih3 gs.player (List.mem_singleton_self _)
      rcases ih4 gs.player with h2 | h2
      · exact h2
      · rw [initVis_player s gs ⟨hinb, hwalk, hnobox⟩] at h2
        exact absurd h2 h1
    | tail hab hbc ihp =>
      obtain ⟨hmem, hbin, hbw, hb0⟩ := hbc
      have h1 := ih7 _ ihp _ hmem hbin hbw
      rcases ih4 _ with h2 | h2
      · exact h2
      · rw [hb0] at h2
        exact absurd h2 h1

/-- Every cell reachable from a valid player position is in bounds,
    walkable, and not blocked by a box. -/
theorem reach_good (s : SharedGameState) (gs : GameState)
    (hval : validState s gs) (p : Vec2)
    (hp : Reach s (initVis s gs) gs.player p) :
    inBounds s p ∧ walkableAt s p = true ∧
      initVis s gs p = VisitationState.Walkable := by
  induction hp with
  | refl => exact ⟨hval.1, hval.2.1, initVis_player s gs hval⟩
  | tail hab hbc ihp => exact ⟨hbc.2.1, hbc.2.2.1, hbc.2.2.2⟩

theorem mem_neighbors_symm (p q : Vec2) (h : q ∈ p.neighbors) :
    p ∈ q.neighbors := by
  simp only [Vec2.neighbors, List.mem_cons, List.not_mem_nil, or_false,
    Vec2.eq_iff] at h ⊢
  omega

theorem reach_symm (s : SharedGameState) (gs : GameState)
    (hval : validState s gs) (p : Vec2)
    (hp : Reach s (initVis s gs) gs.player p) :
    Relation.ReflTransGen (reachRel s (initVis s gs)) p gs.player := by
  induction hp with
  | refl => exact Relation.ReflTransGen.refl
  | @tail b c hab hbc ihp =>
    have hbgood := reach_good s gs hval b hab
    refine Relation.ReflTransGen.head ?_ ihp
    exact ⟨mem_neighbors_symm b c hbc.1, hbgood.1, hbgood.2.1, hbgood.2.2⟩

theorem vec2_lt_not_le (a b : Vec2) (h : Vec2.lt a b) : ¬ Vec2.le b a := by
  unfold Vec2.lt at h
  unfold Vec2.le
  omega

theorem vec2_not_lt_le (a b : Vec2) (h : ¬ Vec2.lt a b) : Vec2.le b a := by
  unfold Vec2.lt at h
  unfold Vec2.le
  omega

theorem vec2_lt_le (a b : Vec2) (h : Vec2.lt a b) : Vec2.le a b := by
  unfold Vec2.lt at h
  unfold Vec2.le
  omega

theorem foldMin_go (l : List Vec2) :
    ∀ m : Vec2,
    (l.foldl (fun m p => if Vec2.lt p m then p else m) m = m ∨
      l.foldl (fun m p => if Vec2.lt p m then p else m) m ∈ l) ∧
    Vec2.le (l.foldl (fun m p => if Vec2.lt p m then p else m) m) m ∧
    (∀ x ∈ l,
      Vec2.le (l.foldl (fun m p => if Vec2.lt p m then p else m) m) x) := by
  induction l with
  | nil =>
    intro m
    exact ⟨Or.inl rfl, Vec2.le_refl m, by simp⟩
  | cons a t ih =>
    intro m
    simp only [List.foldl_cons]
    by_cases hlt : Vec2.lt a m
    · rw [if_pos hlt]
      obtain ⟨ih1, ih2, ih3⟩ := ih a
      refine ⟨?_, ?_, ?_⟩
      · rcases ih1 with h | h
        · exact Or.inr (by rw [h]; exact List.mem_cons_self _ _)
        · exact Or.inr (List.mem_cons_of_mem _ h)
      · exact Vec2.le_trans ih2 (vec2_lt_le a m hlt)
      · intro x hx
        rcases List.mem_cons.mp hx with hh | hh
        · subst hh; exact ih2
        · exact ih3 x hh
    · rw [if_neg hlt]
      obtain ⟨ih1, ih2, ih3⟩ := ih m
      refine ⟨?_, ih2, ?_⟩
      · rcases ih1 with h | h
        · exact Or.inl h
        · exact Or.inr (List.mem_cons_of_mem _ h)
      · intro x hx
        rcases List.mem_cons.mp hx with hh | hh
        · subst hh
          exact Vec2.le_trans ih2 (vec2_not_lt_le _ m hlt)
        · exact ih3 x hh

theorem foldMinVec_spec (l : List Vec2) :
    (foldMinVec l = ⟨127, 127⟩ ∨ foldMinVec l ∈ l) ∧
    (∀ x ∈ l, Vec2.le (foldMinVec l) x) := by
  obtain ⟨h1, _, h3⟩ := foldMin_go l ⟨127, 127⟩
  exact ⟨h1, h3⟩

theorem foldMinVec_eq_of_set_eq (l₁ l₂ : List Vec2)
    (hset : ∀ x, x ∈ l₁ ↔ x ∈ l₂)
    (hlt : ∃ x ∈ l₁, Vec2.lt x ⟨127, 127⟩) :
    foldMinVec l₁ = foldMinVec l₂ := by
  obtain ⟨x0, hx0, hx0lt⟩ := hlt
  obtain ⟨h11, h12⟩ := foldMinVec_spec l₁
  obtain ⟨h21, h22⟩ := foldMinVec_spec l₂
  have hm1 : foldMinVec l₁ ∈ l₁ := by
    rcases h11 with h | h
    · exact absurd (h ▸ h12 x0 hx0) (vec2_lt_not_le x0 _ hx0lt)
    · exact h
  have hm2 : foldMinVec l₂ ∈ l₂ := by
    rcases h21 with h | h
    · have hx0b : x0 ∈ l₂ := (hset x0).mp hx0
      exact absurd (h ▸ h22 x0 hx0b) (vec2_lt_not_le x0 _ hx0lt)
    · exact h
  exact Vec2.le_antisymm (h12 _ ((hset _).mpr hm2)) (h22 _ ((hset _).mp hm1))

theorem initVis_env_congr (s : SharedGameState) (gs₁ gs₂ : GameState)
    (h : gs₁.environment = gs₂.environment) :
    initVis s gs₁ = initVis s gs₂ := by
  unfold initVis
  rw [h]

theorem from_game_state_some (s : SharedGameState) (gs : GameState)
    (vf : Vec2 → VisitationState) (acc : List Vec2)
    (h : visitAllReachable s gs = some (vf, acc)) :
    UniqueNode.from_game_state gs s =
      some ⟨gs.environment, foldMinVec acc⟩ := by
  unfold UniqueNode.from_game_state min_reachable_position
  rw [h]
  rfl

theorem reachable_positions_some (s : SharedGameState) (gs : GameState)
    (vf : Vec2 → VisitationState) (acc : List Vec2)
    (h : visitAllReachable s gs = some (vf, acc)) :
    reachable_positions s gs = some acc := by
  unfold reachable_positions
  rw [h]
  rfl

theorem notbox_of_walkvis (s : SharedGameState) (gs : GameState) (p : Vec2)
    (hin : inBounds s p)
    (hW : initVis s gs p = VisitationState.Walkable) :
    (iterBoxes gs.environment).contains p = false := by
  unfold initVis at hW
  cases hcc : (iterBoxes gs.environment).contains p
  · rfl
  · rw [if_pos ⟨hcc, hin⟩] at hW
    cases hW

theorem inb_lt_sentinel (s : SharedGameState) (p : Vec2) (hwf : wfShared s)
    (hin : inBounds s p) : Vec2.lt p ⟨127, 127⟩ := by
  obtain ⟨hw1, hw2⟩ := hwf
  obtain ⟨h1, h2, h3, h4⟩ := hin
  rw [SharedGameState.width_eq] at h2
  unfold SharedGameState.height at h4
  unfold Vec2.lt
  dsimp only
  omega

/-- Claim C2: canonicalization is idempotent.  If a valid game state
    canonicalizes to `n`, then any state with the same boxes whose player
    sits anywhere in the player-reachable component of
    `n.minimum_reachable_player_position` (as materialized by the code's
    own `reachable_positions`) canonicalizes to exactly `n` again. -/
theorem c2_canonicalize_idempotent (s : SharedGameState) (gs : GameState)
    (n : UniqueNode) (hwf : wfShared s) (hval : validState s gs)
    (hn : UniqueNode.from_game_state gs s = some n)
    (p : Vec2) (rl : List Vec2)
    (hrl : reachable_positions s
      ⟨n.environment, n.minimum_reachable_player_position⟩ = some rl)
    (hp : p ∈ rl) :
    UniqueNode.from_game_state ⟨n.environment, p⟩ s = some n := by
  obtain ⟨vf0, acc0, hsome0, hchar0⟩ := visitAllReachable_spec s gs hval
  rw [from_game_state_some s gs vf0 acc0 hsome0] at hn
  have hneq : n = ⟨gs.environment, foldMinVec acc0⟩ := (Option.some.inj hn).symm
  have henv : n.environment = gs.environment := by rw [hneq]
  have hmin : n.minimum_reachable_player_position = foldMinVec acc0 := by
    rw [hneq]
  have hplayer_mem : gs.player ∈ acc0 :=
    (hchar0 _).mpr Relation.ReflTransGen.refl
  have hplayer_lt : Vec2.lt gs.player ⟨127, 127⟩ :=
    inb_lt_sentinel s gs.player hwf hval.1
  have hm0mem : foldMinVec acc0 ∈ acc0 := by
    obtain ⟨hs1, hs2⟩ := foldMinVec_spec acc0
    rcases hs1 with h | h
    · exact absurd (h ▸ hs2 gs.player hplayer_mem)
        (vec2_lt_not_le _ _ hplayer_lt)
    · exact h
  have hm0reach : Reach s (initVis s gs) gs.player (foldMinVec acc0) :=
    (hchar0 _).mp hm0mem
  have hm0good := reach_good s gs hval (foldMinVec acc0) hm0reach
  have hv0eq1 : initVis s
      ⟨n.environment, n.minimum_reachable_player_position⟩ = initVis s gs :=
    initVis_env_congr s _ _ henv
  have hval1 : validState s
      ⟨n.environment, n.minimum_reachable_player_position⟩ := by
    unfold validState
    dsimp only
    refine ⟨?_, ?_, ?_⟩
    · rw [hmin]; exact hm0good.1
    · rw [hmin]; exact hm0good.2.1
    · rw [henv, hmin]
      exact notbox_of_walkvis s gs _ hm0good.1 hm0good.2.2
  obtain ⟨vf1, acc1, hsome1, hchar1⟩ := visitAllReachable_spec s
    ⟨n.environment, n.minimum_reachable_player_position⟩ hval1
  rw [reachable_positions_some s _ vf1 acc1 hsome1] at hrl
  have hrleq : rl = acc1 := (Option.some.inj hrl).symm
  subst hrleq
  have hpreach1 : Reach s (initVis s gs) (foldMinVec acc0) p := by
    have h1 := (hchar1 p).mp hp
    rw [hv0eq1] at h1
    rw [← hmin]
    exact h1
  have hpreach0 : Reach s (initVis s gs) gs.player p :=
    hm0reach.trans hpreach1
  have hpgood := reach_good s gs hval p hpreach0
  have hv0eq2 : initVis s ⟨n.environment, p⟩ = initVis s gs :=
    initVis_env_congr s _ _ henv
  have hval2 : validState s ⟨n.environment, p⟩ := by
    unfold validState
    dsimp only
    refine ⟨hpgood.1, hpgood.2.1, ?_⟩
    rw [henv]
    exact notbox_of_walkvis s gs _ hpgood.1 hpgood.2.2
  obtain ⟨vf2, acc2, hsome2, hchar2⟩ := visitAllReachable_spec s
    ⟨n.environment, p⟩ hval2
  have hset : ∀ x, x ∈ acc2 ↔ x ∈ acc0 := by
    intro x
    rw [hchar2 x, hchar0 x, hv0eq2]
    constructor
    · intro hx
      exact hpreach0.trans hx
    · intro hx
      exact (reach_symm s gs hval p hpreach0).trans hx
  have hmineq : foldMinVec acc2 = foldMinVec acc0 := by
    refine foldMinVec_eq_of_set_eq acc2 acc0 hset ?_
    exact ⟨gs.player, (hset gs.player).mpr hplayer_mem, hplayer_lt⟩
  rw [from_game_state_some s ⟨n.environment, p⟩ vf2 acc2 hsome2]
  dsimp only
  rw [hmineq, ← hmin]

/-- Walled 3x4 board with two floor cells and no boxes, used to
    instantiate the canonicalization theorem. -/
def c2Board : SharedGameState :=
  ⟨[[Cell.Wall, Cell.Wall, Cell.Wall, Cell.Wall],
    [Cell.Wall, Cell.Floor, Cell.Floor, Cell.Wall],
    [Cell.Wall, Cell.Wall, Cell.Wall, Cell.Wall]]⟩

/-- The empty box environment (all sentinel slots). -/
def c2Env : GameStateEnvironment := ⟨List.replicate 8 EMPTY_BOX⟩

/-- The canonical node of `c2Board` seeded from player (1,1). -/
def c2Node : UniqueNode := ⟨c2Env, ⟨1, 1⟩⟩

/-- Concrete instantiation of `c2_canonicalize_idempotent` on `c2Board`:
    canonicalizing from the second floor cell of the component reproduces
    the node seeded from the first. -/
theorem c2_canonicalize_idempotent_witness :
    wfShared c2Board ∧
    validState c2Board ⟨c2Env, ⟨1, 1⟩⟩ ∧
    UniqueNode.from_game_state ⟨c2Env, ⟨1, 1⟩⟩ c2Board = some c2Node ∧
    reachable_positions c2Board
      ⟨c2Node.environment, c2Node.minimum_reachable_player_position⟩ =
      some [⟨1, 1⟩, ⟨1, 2⟩] ∧
    UniqueNode.from_game_state ⟨c2Node.environment, ⟨1, 2⟩⟩ c2Board =
      some c2Node :=
  ⟨by decide, by decide, by decide, by decide,
    c2_canonicalize_idempotent c2Board ⟨c2Env, ⟨1, 1⟩⟩ c2Node (by decide)
      (by decide) (by decide) ⟨1, 2⟩ [⟨1, 1⟩, ⟨1, 2⟩] (by decide)
      (by decide)⟩

/-! State graph and win-reachability trimmer, from
    `state_graph/models.rs`, `state_graph/graph.rs` and
    `state_graph/graph_trim.rs`. -/

/-- Node visitation marker (`NodeState` in `state_graph/models.rs`). -/
inductive NodeState where
  | Unvisited
  | Visited
deriving DecidableEq, Repr

/-- A directed edge (the Rust `from`/`to` fields; `models.rs` also carries
    the action and change kind, which `populate.rs` and the trimmer never
    construct or read, so they are dropped here). -/
structure Edge where
  fromId : Nat
  toId : Nat
deriving DecidableEq, Repr

/-- The state graph: the node bimap (as an insertion-ordered association
    list keyed by `UniqueNode`, the key type used by `populate.rs`),
    per-id metadata, the edge set, and the unvisited-id set. -/
structure StateGraph where
  nodes : List (UniqueNode × Nat)
  metadata : List (Nat × NodeState)
  edges : List Edge
  unvisited : List Nat
deriving Repr

/-- `StateGraph::new`. -/
def StateGraph.new : StateGraph := ⟨[], [], [], []⟩

/-- `StateGraph::upsert_state`: reuse the id of a present key, otherwise
    assign `nodes.len()` as the fresh id, record it, and mark it
    unvisited. -/
def StateGraph.upsert_state (g : StateGraph) (state : UniqueNode) :
    Nat × StateGraph :=
  match (g.nodes.find? fun ni => ni.1 = state) with
  | some ni => (ni.2, g)
  | none =>
    let id := g.nodes.length
    (id, ⟨g.nodes ++ [(state, id)], (id, NodeState.Unvisited) :: g.metadata,
      g.edges, id :: g.unvisited⟩)

/-- `StateGraph::get_state`: lookup by id. -/
def StateGraph.get_state (g : StateGraph) (id : Nat) : Option UniqueNode :=
  (g.nodes.find? fun ni => ni.2 = id).map fun ni => ni.1

/-- `StateGraph::add_edge`: set insertion (duplicates absorbed). -/
def StateGraph.add_edge (g : StateGraph) (e : Edge) : StateGraph :=
  if e ∈ g.edges then g else ⟨g.nodes, g.metadata, e :: g.edges, g.unvisited⟩

/-- `StateGraph::mark_visited`. -/
def StateGraph.mark_visited (g : StateGraph) (id : Nat) : StateGraph :=
  ⟨g.nodes,
    g.metadata.map fun m => if m.1 = id then (m.1, NodeState.Visited) else m,
    g.edges, g.unvisited.filter fun x => x ≠ id⟩

/-- `StateGraph::get_unvisited_node` returns `unvisited.iter().next()`:
    an arbitrary member of a `HashSet`, whose iteration order Rust
    randomizes per process.  The embedding therefore takes the selection
    as a parameter constrained only to pick a member when one exists.
    There is no FIFO queue anywhere in `graph.rs`. -/
def StateGraph.get_unvisited_node (g : StateGraph)
    (sel : List Nat → Option Nat) : Option Nat :=
  sel g.unvisited

/-- A selection function behaving like `HashSet::iter().next()`: `none`
    exactly on the empty set, otherwise some member. -/
def validSelector (sel : List Nat → Option Nat) : Prop :=
  ∀ l, (l = [] → sel l = none) ∧ (l ≠ [] → ∃ x ∈ l, sel l = some x)

/-- The sorted target-position list of `WonCheckHelper`
    (`get_won_check_helper` in `core/model_helpers.rs`). -/
def wonCheckTargets (s : SharedGameState) : List Vec2 :=
  sortBoxes ((s.grid.enum).flatMap fun ir =>
    (ir.2.enum).filterMap fun jc =>
      if jc.2 = Cell.Target then
        some ⟨(ir.1 : Int), (jc.1 : Int)⟩
      else none)

/-- `WonCheckHelper::is_won`: every target cell holds a box. -/
def checkerIsWon (s : SharedGameState) (env : GameStateEnvironment) : Bool :=
  (wonCheckTargets s).all fun t => hasBoxAt env t

/-- `TrimStats` from `state_graph/graph_trim.rs`. -/
structure TrimStats where
  nodes_before : Nat
  nodes_after : Nat
  edges_before : Nat
  edges_after : Nat
deriving DecidableEq, Repr

/-- The reverse-adjacency lookup `edge_map_successor_to_predecessors`. -/
def predsOf (edges : List Edge) (id : Nat) : List Nat :=
  (edges.filter fun e => e.toId = id).map fun e => e.fromId

/-- The reverse DFS of `trim_unwinnable` (`while let Some(next) =
    stack.pop()`), fuelled; the traversal order differs from any
    particular `HashSet` iteration order but the computed set does not. -/
def trimLoop (edges : List Edge) :
    Nat → List Nat → Finset Nat → Finset Nat
  | 0, _, winning => winning
  | fuel + 1, stack, winning =>
    match stack with
    | [] => winning
    | next :: rest =>
      if next ∈ winning then trimLoop edges fuel rest winning
      else trimLoop edges fuel (predsOf edges next ++ rest)
        (insert next winning)

/-- Fuel that always suffices for the reverse DFS. -/
def trimFuel (g : StateGraph) : Nat :=
  g.nodes.length +
    (1 + g.edges.length) * (g.nodes.length + g.edges.length) + 1

/-- `trim_unwinnable`: collect the winning ids, saturate the
    reverse-reachability set, and retain exactly the nodes and edges
    inside it, reporting exact before/after counts. -/
def trim_unwinnable (g : StateGraph) (s : SharedGameState) :
    StateGraph × TrimStats :=
  let initial := g.nodes.filterMap fun ni =>
    if checkerIsWon s ni.1.environment then some ni.2 else none
  let winning := trimLoop g.edges (trimFuel g) initial ∅
  let nodes2 := g.nodes.filter fun ni => ni.2 ∈ winning
  let edges2 := g.edges.filter fun e =>
    e.fromId ∈ winning ∧ e.toId ∈ winning
  (⟨nodes2, g.metadata, edges2, g.unvisited⟩,
   ⟨g.nodes.length, nodes2.length, g.edges.length, edges2.length⟩)

/-- A node id can reach a winning node along the (pre-trim) edges. -/
def canWin (g : StateGraph) (s : SharedGameState) (id : Nat) : Prop :=
  ∃ w, Relation.ReflTransGen (fun x y => (Edge.mk x y) ∈ g.edges) id w ∧
    ∃ n, (n, w) ∈ g.nodes ∧ checkerIsWon s n.environment = true

/-- Master run lemma for the reverse DFS: with sufficient fuel the
    result contains the initial set and every stacked id, everything in
    the result satisfies any predicate `R` that holds on the inputs and is
    preserved along reverse edges, and the result is closed under
    predecessors. -/
theorem trimLoop_run (edges : List Edge) (U : Finset Nat)
    (hU : ∀ e ∈ edges, e.fromId ∈ U) (R : Nat → Prop)
    (hRclose : ∀ x y, R y → (Edge.mk x y) ∈ edges → R x) :
    ∀ (fuel : Nat) (stack : List Nat) (winning : Finset Nat),
    (∀ x ∈ stack, x ∈ U) →
    (∀ x ∈ stack, R x) →
    (∀ x ∈ winning, R x) →
    (∀ w ∈ winning, ∀ p ∈ predsOf edges w, p ∈ winning ∨ p ∈ stack) →
    stack.length + (1 + edges.length) * (U \ winning).card ≤ fuel →
    (winning ⊆ trimLoop edges fuel stack winning ∧
     (∀ x ∈ stack, x ∈ trimLoop edges fuel stack winning) ∧
     (∀ x ∈ trimLoop edges fuel stack winning, R x) ∧
     (∀ w ∈ trimLoop edges fuel stack winning, ∀ p ∈ predsOf edges w,
        p ∈ trimLoop edges fuel stack winning)) := by
  intro fuel
  induction fuel with
  | zero =>
    intro stack winning hUst hRst hRw hcl hfuel
    have hstack : stack = [] := by
      cases stack with
      | nil => rfl
      | cons a t =>
        exact absurd hfuel (by simp only [List.length_cons]; omega)
    subst hstack
    simp only [trimLoop]
    refine ⟨fun x hx => hx, by simp, hRw, ?_⟩
    intro w hw p hp
    rcases hcl w hw p hp with h | h
    · exact h
    · cases h
  | succ n ih =>
    intro stack winning hUst hRst hRw hcl hfuel
    cases stack with
    | nil =>
      simp only [trimLoop]
      refine ⟨fun x hx => hx, by simp, hRw, ?_⟩
      intro w hw p hp
      rcases hcl w hw p hp with h | h
      · exact h
      · cases h
    | cons next rest =>
      by_cases hmem : next ∈ winning
      · simp only [trimLoop, if_pos hmem]
        have hcl2 : ∀ w ∈ winning, ∀ p ∈ predsOf edges w,
            p ∈ winning ∨ p ∈ rest := by
          intro w hw p hp
          rcases hcl w hw p hp with h | h
          · exact Or.inl h
          · rcases List.mem_cons.mp h with h2 | h2
            · subst h2; exact Or.inl hmem
            · exact Or.inr h2
        have hfuel2 : rest.length +
            (1 + edges.length) * (U \ winning).card ≤ n := by
          simp only [List.length_cons] at hfuel
          omega
        obtain ⟨c1, c2, c3, c4⟩ := ih rest winning
          (fun x hx => hUst x (List.mem_cons_of_mem _ hx))
          (fun x hx => hRst x (List.mem_cons_of_mem _ hx))
          hRw hcl2 hfuel2
        refine ⟨c1, ?_, c3, c4⟩
        intro x hx
        rcases List.mem_cons.mp hx with h2 | h2
        · subst h2; exact c1 hmem
        · exact c2 x h2
      · simp only [trimLoop, if_neg hmem]
        have hnextU : next ∈ U := hUst next (List.mem_cons_self _ _)
        have hnextR : R next := hRst next (List.mem_cons_self _ _)
        have hpredR : ∀ p ∈ predsOf edges next, R p := by
          intro p hp
          unfold predsOf at hp
          rw [List.mem_map] at hp
          obtain ⟨e, hef, heq⟩ := hp
          rw [List.mem_filter] at hef
          have hedge : Edge.mk p next ∈ edges := by
            have h2 : e = Edge.mk p next := by
              cases e
              simp only [decide_eq_true_eq] at hef
              rw [Edge.mk.injEq]
              exact ⟨heq, hef.2⟩
            rw [← h2]
            exact hef.1
          exact hRclose p next hnextR hedge
        have hpredU : ∀ p ∈ predsOf edges next, p ∈ U := by
          intro p hp
          unfold predsOf at hp
          rw [List.mem_map] at hp
          obtain ⟨e, hef, heq⟩ := hp
          rw [List.mem_filter] at hef
          rw [← heq]
          exact hU e hef.1
        have hRw2 : ∀ x ∈ insert next winning, R x := by
          intro x hx
          rcases Finset.mem_insert.mp hx with h2 | h2
          · subst h2; exact hnextR
          · exact hRw x h2
        have hcl2 : ∀ w ∈ insert next winning, ∀ p ∈ predsOf edges w,
            p ∈ insert next winning ∨
              p ∈ predsOf edges next ++ rest := by
          intro w hw p hp
          rcases Finset.mem_insert.mp hw with h2 | h2
          · subst h2
            exact Or.inr (List.mem_append.mpr (Or.inl hp))
          · rcases hcl w h2 p hp with h3 | h3
            · exact Or.inl (Finset.mem_insert_of_mem h3)
            · rcases List.mem_cons.mp h3 with h4 | h4
              · subst h4; exact Or.inl (Finset.mem_insert_self _ _)
              · exact Or.inr (List.mem_append.mpr (Or.inr h4))
        have hcard : (U \ insert next winning).card + 1 =
            (U \ winning).card := by
          have hset : U \ insert next winning = (U \ winning).erase next := by
            ext q
            simp only [Finset.mem_sdiff, Finset.mem_insert, Finset.mem_erase]
            tauto
          rw [hset, Finset.card_erase_of_mem
            (Finset.mem_sdiff.mpr ⟨hnextU, hmem⟩)]
          have : 0 < (U \ winning).card :=
            Finset.card_pos.mpr ⟨next, Finset.mem_sdiff.mpr ⟨hnextU, hmem⟩⟩
          omega
        have hpredlen : (predsOf edges next).length ≤ edges.length := by
          unfold predsOf
          rw [List.length_map]
          exact List.length_filter_le _ _
        have hfuel2 : (predsOf edges next ++ rest).length +
            (1 + edges.length) * (U \ insert next winning).card ≤ n := by
          rw [List.length_append]
          simp only [List.length_cons] at hfuel
          have hexp : (1 + edges.length) * (U \ winning).card =
              (1 + edges.length) * (U \ insert next winning).card +
                (1 + edges.length) := by
            rw [← hcard]
            ring
          omega
        obtain ⟨c1, c2, c3, c4⟩ := ih (predsOf edges next ++ rest)
          (insert next winning)
          (by intro x hx
              rcases List.mem_append.mp hx with h2 | h2
              · exact hpredU x h2
              · exact hUst x (List.mem_cons_of_mem _ h2))
          (by intro x hx
              rcases List.mem_append.mp hx with h2 | h2
              · exact hpredR x h2
              · exact hRst x (List.mem_cons_of_mem _ h2))
          hRw2 hcl2 hfuel2
        refine ⟨fun x hx => c1 (Finset.mem_insert_of_mem hx), ?_, c3, c4⟩
        intro x hx
        rcases List.mem_cons.mp hx with h2 | h2
        · subst h2; exact c1 (Finset.mem_insert_self _ _)
        · exact c2 x (List.mem_append.mpr (Or.inr h2))

/-- Full statement of claim C4 for a graph and board: nodes survive the
    trim iff they reach a winning node over the pre-trim edges (keeping
    their original ids), edges survive iff both endpoints do, and the
    statistics give the exact counts. -/
def trimClaimStatement (g : StateGraph) (s : SharedGameState) : Prop :=
    (∀ n id, (n, id) ∈ (trim_unwinnable g s).1.nodes ↔
      ((n, id) ∈ g.nodes ∧ canWin g s id)) ∧
    (∀ e, e ∈ (trim_unwinnable g s).1.edges ↔
      (e ∈ g.edges ∧ canWin g s e.fromId ∧ canWin g s e.toId)) ∧
    (trim_unwinnable g s).2.nodes_before = g.nodes.length ∧
    (trim_unwinnable g s).2.nodes_after =
      (trim_unwinnable g s).1.nodes.length ∧
    (trim_unwinnable g s).2.edges_before = g.edges.length ∧
    (trim_unwinnable g s).2.edges_after =
      (trim_unwinnable g s).1.edges.length

/-- Claim C4: the win-reachability trimmer is correct.  A node survives
    iff it has a directed path (length ≥ 0) over the pre-trim edges to a
    winning node; an edge survives iff both endpoints survive; surviving
    nodes keep their original ids (the `(node, id)` pairs are retained
    verbatim, never re-sequenced); and the returned statistics are the
    exact pre- and post-trim node and edge counts.  The board-size bound
    keeps every target position away from the `EMPTY_BOX` sentinel whose
    `has_box_at` assert would otherwise abort. -/
theorem c4_trim_unwinnable_correct (g : StateGraph) (s : SharedGameState)
    (hwf : wfShared s) : trimClaimStatement g s := by
  unfold trimClaimStatement
  have hU : ∀ e ∈ g.edges, e.fromId ∈
      ((g.nodes.map fun ni => ni.2).toFinset ∪
        (g.edges.map fun e => e.fromId).toFinset) := by
    intro e he
    refine Finset.mem_union_right _ ?_
    rw [List.mem_toFinset, List.mem_map]
    exact ⟨e, he, rfl⟩
  have hRclose : ∀ x y, canWin g s y → (Edge.mk x y) ∈ g.edges →
      canWin g s x := by
    intro x y hy he
    obtain ⟨w, hpath, n, hn, hwon⟩ := hy
    exact ⟨w, Relation.ReflTransGen.head he hpath, n, hn, hwon⟩
  have hinitmem : ∀ x ∈ (g.nodes.filterMap fun ni =>
      if checkerIsWon s ni.1.environment then some ni.2 else none),
      ∃ ni ∈ g.nodes, checkerIsWon s ni.1.environment = true ∧
        x = ni.2 := by
    intro x hx
    rw [List.mem_filterMap] at hx
    obtain ⟨ni, hni, hcond⟩ := hx
    by_cases hwon : checkerIsWon s ni.1.environment
    · rw [if_pos hwon] at hcond
      exact ⟨ni, hni, hwon, (Option.some.inj hcond).symm⟩
    · rw [if_neg hwon] at hcond
      cases hcond
  obtain ⟨c1, c2, c3, c4⟩ := trimLoop_run g.edges
    ((g.nodes.map fun ni => ni.2).toFinset ∪
      (g.edges.map fun e => e.fromId).toFinset) hU (canWin g s) hRclose
    (trimFuel g)
    (g.nodes.filterMap fun ni =>
      if checkerIsWon s ni.1.environment then some ni.2 else none) ∅
    (by intro x hx
        obtain ⟨ni, hni, _, hx2⟩ := hinitmem x hx
        refine Finset.mem_union_left _ ?_
        rw [List.mem_toFinset, List.mem_map]
        exact ⟨ni, hni, hx2.symm⟩)
    (by intro x hx
        obtain ⟨ni, hni, hwon, hx2⟩ := hinitmem x hx
        exact ⟨x, Relation.ReflTransGen.refl, ni.1,
          by rw [hx2]; exact hni, hwon⟩)
    (by intro x hx; cases hx)
    (by intro w hw; cases hw)
    (by have h1 : (g.nodes.filterMap fun ni =>
          if checkerIsWon s ni.1.environment then some ni.2 else none).length
          ≤ g.nodes.length := List.length_filterMap_le _ _
        have h2 : (((g.nodes.map fun ni => ni.2).toFinset ∪
            (g.edges.map fun e => e.fromId).toFinset) \ ∅).card ≤
            g.nodes.length + g.edges.length := by
          rw [Finset.sdiff_empty]
          calc ((g.nodes.map fun ni => ni.2).toFinset ∪
              (g.edges.map fun e => e.fromId).toFinset).card
              ≤ (g.nodes.map fun ni => ni.2).toFinset.card +
                (g.edges.map fun e => e.fromId).toFinset.card :=
                Finset.card_union_le _ _
            _ ≤ g.nodes.length + g.edges.length := by
                have ha := List.toFinset_card_le (g.nodes.map fun ni => ni.2)
                have hb := List.toFinset_card_le
                  (g.edges.map fun e => e.fromId)
                rw [List.length_map] at ha hb
                omega
        have h3 : (1 + g.edges.length) *
            ((((g.nodes.map fun ni => ni.2).toFinset ∪
              (g.edges.map fun e => e.fromId).toFinset) \ ∅).card) ≤
            (1 + g.edges.length) * (g.nodes.length + g.edges.length) :=
          Nat.mul_le_mul_left _ h2
        unfold trimFuel
        omega)
  have hWiff : ∀ x, x ∈ trimLoop g.edges (trimFuel g)
      (g.nodes.filterMap fun ni =>
        if checkerIsWon s ni.1.environment then some ni.2 else none) ∅ ↔
      canWin g s x := by
    intro x
    constructor
    · exact c3 x
    · rintro ⟨w, hpath, n, hn, hwon⟩
      have hwinit : w ∈ (g.nodes.filterMap fun ni =>
          if checkerIsWon s ni.1.environment then some ni.2 else none) := by
        rw [List.mem_filterMap]
        exact ⟨(n, w), hn, by rw [if_pos hwon]⟩
      have hwW := c2 w hwinit
      induction hpath using Relation.ReflTransGen.head_induction_on with
      | refl => exact hwW
      | @head a c hac hcb ihc =>
        refine c4 _ ihc _ ?_
        unfold predsOf
        rw [List.mem_map]
        refine ⟨Edge.mk a c, ?_, rfl⟩
        rw [List.mem_filter]
        exact ⟨hac, by simp⟩
  simp only [trim_unwinnable]
  refine ⟨?_, ?_, trivial, trivial, trivial, trivial⟩
  · intro n id
    rw [List.mem_filter]
    constructor
    · rintro ⟨h1, h2⟩
      simp only [decide_eq_true_eq] at h2
      exact ⟨h1, (hWiff id).mp h2⟩
    · rintro ⟨h1, h2⟩
      refine ⟨h1, ?_⟩
      simp only [decide_eq_true_eq]
      exact (hWiff id).mpr h2
  · intro e
    rw [List.mem_filter]
    constructor
    · rintro ⟨h1, h2⟩
      simp only [decide_eq_true_eq] at h2
      exact ⟨h1, (hWiff e.fromId).mp h2.1, (hWiff e.toId).mp h2.2⟩
    · rintro ⟨h1, h2, h3⟩
      refine ⟨h1, ?_⟩
      simp only [decide_eq_true_eq]
      exact ⟨(hWiff e.fromId).mpr h2, (hWiff e.toId).mpr h3⟩

/-- Tiny walled board with a single target cell. -/
def c4Board : SharedGameState :=
  ⟨[[Cell.Wall, Cell.Wall, Cell.Wall],
    [Cell.Wall, Cell.Target, Cell.Wall],
    [Cell.Wall, Cell.Wall, Cell.Wall]]⟩

/-- Concrete instantiation of `c4_trim_unwinnable_correct` on a two-node
    graph whose node 0 is winning and node 1 reaches it. -/
theorem c4_trim_unwinnable_correct_witness :
    wfShared c4Board ∧
    trimClaimStatement
      ⟨[(⟨⟨⟨1, 1⟩ :: List.replicate 7 EMPTY_BOX⟩, ⟨1, 1⟩⟩, 0),
        (⟨⟨List.replicate 8 EMPTY_BOX⟩, ⟨1, 1⟩⟩, 1)],
       [], [Edge.mk 1 0], []⟩ c4Board :=
  ⟨by decide,
    c4_trim_unwinnable_correct _ c4Board (by decide)⟩

/-! Expansion engine, from `state_graph/populate.rs`.  The three-argument
    `step(shared, state, action)` that `populate.rs`, the tests and the
    navigation code call is not present in the source snapshot
    (`core/update.rs` still holds the earlier fused-grid version), so it
    is modelled from the spec below. -/

/-- Step results for the shared-board step function. -/
inductive GameUpdateS where
  | NextState (s : GameState) (k : GameChangeType)
  | Error (msg : String)
deriving DecidableEq, Repr

/-- Replace the first occurrence of `d` (the pushed box) by `b`, as
    `set_box(index_of_box_at(d), b)` does on the box array. -/
def replaceFirst : List Vec2 → Vec2 → Vec2 → List Vec2
  | [], _, _ => []
  | x :: t, d, b => if x = d then b :: t else x :: replaceFirst t d b

/-- Move the box at `d` to `b` and restore the canonical sorted order
    (`complete_moves`). -/
def moveBox (env : GameStateEnvironment) (d b : Vec2) :
    GameStateEnvironment :=
  ⟨sortBoxes (replaceFirst env.boxes d b)⟩

/-- Modelled from the spec: the step function over the shared-board model
    (`step(shared, state, action)`, spec §4.2).  Compute the destination;
    fail if it is off-board; push the box at the destination when there is
    one, failing if the beyond cell is off-board, a wall, or another box;
    otherwise walk onto a walkable destination; otherwise report walking
    into a wall. -/
def step3 (shared : SharedGameState) (game : GameState)
    (action : UserAction) : GameUpdateS :=
  let dir := dirOf action
  let d : Vec2 := ⟨game.player.i + dir.i, game.player.j + dir.j⟩
  if ¬ inBounds shared d then GameUpdateS.Error "OutOfBounds"
  else if hasBoxAt game.environment d then
    let b : Vec2 := ⟨d.i + dir.i, d.j + dir.j⟩
    if ¬ inBounds shared b then GameUpdateS.Error "OutOfBounds"
    else if ¬ walkableAt shared b then GameUpdateS.Error "Blocked"
    else if hasBoxAt game.environment b then GameUpdateS.Error "Blocked"
    else GameUpdateS.NextState ⟨moveBox game.environment d b, d⟩
      GameChangeType.PlayerAndBoxMove
  else if walkableAt shared d then
    GameUpdateS.NextState ⟨game.environment, d⟩ GameChangeType.PlayerMove
  else GameUpdateS.Error "walks into wall"

/-- Modelled from the spec: `UserAction::all_actions()` (called by
    `populate.rs` but absent from the snapshot): one `Move` per direction
    in a fixed declaration order (spec §4.6, "directions in a fixed
    order"). -/
def allActions : List UserAction :=
  [UserAction.Move Direction.Up, UserAction.Move Direction.Down,
   UserAction.Move Direction.Left, UserAction.Move Direction.Right]

/-- First-occurrence deduplication: the contents of the
    `HashSet<Vec2>` that `get_all_adjacent_nodes` collects, in first-seen
    order (the set's own iteration order is modelled by the separate
    `order` parameter). -/
def dedupFirst (l : List Vec2) : List Vec2 :=
  l.foldl (fun acc a => if a ∈ acc then acc else acc ++ [a]) []

/-- Minimum of a list of positions (`Iterator::min`). -/
def minVec? (l : List Vec2) : Option Vec2 :=
  l.foldl (fun acc p =>
    match acc with
    | none => some p
    | some m => if Vec2.lt p m then some p else some m) none

/-- One candidate `(pusher position, action)` of the expansion: `some none`
    when the candidate is filtered out (step error or no box moved),
    `some (some node)` for a successor, `none` for a Rust panic inside the
    closure (an unreachable player or an empty reachable set). -/
def adjacentOfCandidate (shared : SharedGameState)
    (env : GameStateEnvironment) (pos : Vec2) (a : UserAction) :
    Option (Option UniqueNode) :=
  match step3 shared ⟨env, pos⟩ a with
  | GameUpdateS.Error _ => some none
  | GameUpdateS.NextState ns ct =>
    if ct = GameChangeType.PlayerAndBoxMove then
      match reachable_positions shared ns with
      | none => none
      | some rp =>
        match minVec? rp with
        | none => none
        | some m => some (some ⟨ns.environment, m⟩)
    else some none

/-- `get_all_adjacent_nodes`: collect the reachable neighbours of the
    boxes into a set, enumerate it in the (arbitrary) order `order`, try
    all four actions for each, and keep the canonicalized box-moving
    successors.  Rust enumerates the `HashSet` in a process-random order;
    `order` realizes one such order. -/
def get_all_adjacent_nodes (from_node : UniqueNode)
    (shared : SharedGameState) (order : List Vec2 → List Vec2) :
    Option (List UniqueNode) :=
  match reachable_positions shared
      ⟨from_node.environment,
        from_node.minimum_reachable_player_position⟩ with
  | none => none
  | some reachable =>
    let actionable := order (dedupFirst
      (((iterBoxes from_node.environment).flatMap Vec2.neighbors).filter
        fun pos => pos ∈ reachable))
    let candidates := actionable.flatMap fun pos =>
      allActions.map fun a => (pos, a)
    candidates.foldl (fun acc c =>
      acc.bind fun lst =>
        (adjacentOfCandidate shared from_node.environment c.1 c.2).map
          fun r =>
            match r with
            | some nd => lst ++ [nd]
            | none => lst) (some [])

/-- `PopulateResult` from `state_graph/models.rs`. -/
inductive PopulateResult where
  | AllVisited
  | Populated
deriving DecidableEq, Repr

/-- `populate_node`: clone the source node, enumerate its successors,
    upsert each and connect an edge, then mark the source visited. -/
def populate_node (graph : StateGraph) (from_id : Nat)
    (shared : SharedGameState) (order : List Vec2 → List Vec2) :
    Option StateGraph :=
  match graph.get_state from_id with
  | none => some graph
  | some source_node =>
    (get_all_adjacent_nodes source_node shared order).map fun adj =>
      (adj.foldl (fun g node =>
        let r := g.upsert_state node
        r.2.add_edge ⟨from_id, r.1⟩) graph).mark_visited from_id

/-- `populate_step`: pop an unvisited id (an arbitrary set member) and
    expand it; report `AllVisited` when the set is empty (the Rust debug
    assertion `assert_all_visited` holds on every run that reaches this
    point and is not modelled). -/
def populate_step (graph : StateGraph) (shared : SharedGameState)
    (sel : List Nat → Option Nat) (order : List Vec2 → List Vec2) :
    Option (PopulateResult × StateGraph) :=
  match graph.get_unvisited_node sel with
  | none => some (PopulateResult.AllVisited, graph)
  | some id =>
    (populate_node graph id shared order).map fun g =>
      (PopulateResult.Populated, g)

/-- Run `populate_step` until `AllVisited` (fuelled driver loop). -/
def populateLoop (shared : SharedGameState) (sel : List Nat → Option Nat)
    (order : List Vec2 → List Vec2) : Nat → StateGraph →
    Option StateGraph
  | 0, g => some g
  | n + 1, g =>
    match populate_step g shared sel order with
    | none => none
    | some (PopulateResult.AllVisited, g2) => some g2
    | some (PopulateResult.Populated, g2) =>
      populateLoop shared sel order n g2

/-- Seed the graph with the initial canonical node and explore. -/
def explore (shared : SharedGameState) (initial : UniqueNode)
    (sel : List Nat → Option Nat) (order : List Vec2 → List Vec2)
    (fuel : Nat) : Option StateGraph :=
  populateLoop shared sel order fuel (StateGraph.new.upsert_state initial).2

/-- Corridor board used for the order-dependence counterexample: a 4x6
    walled box with two open rows, one box at (1,2). -/
def c3Board : SharedGameState :=
  ⟨[[Cell.Wall, Cell.Wall, Cell.Wall, Cell.Wall, Cell.Wall, Cell.Wall],
    [Cell.Wall, Cell.Floor, Cell.Floor, Cell.Floor, Cell.Floor, Cell.Wall],
    [Cell.Wall, Cell.Floor, Cell.Floor, Cell.Floor, Cell.Floor, Cell.Wall],
    [Cell.Wall, Cell.Wall, Cell.Wall, Cell.Wall, Cell.Wall, Cell.Wall]]⟩

/-- The canonical seed node of `c3Board` (box at (1,2), minimum reachable
    player cell (1,1)). -/
def c3Init : UniqueNode :=
  ⟨⟨⟨1, 2⟩ :: List.replicate 7 EMPTY_BOX⟩, ⟨1, 1⟩⟩

/-- Counterexample to claim C3 as stated: two complete explorations of the
    same board from the same initial state, differing only in the
    iteration order of the successor `HashSet` (both orders are legitimate
    behaviours of Rust's randomized `HashSet`), produce different id
    assignments, so exploration is not deterministic across runs and in
    particular pop order cannot be a FIFO discipline (there is no queue in
    `graph.rs` at all). -/
theorem c3_exploration_order_dependent :
    (explore c3Board c3Init (fun l => l.head?) (fun l => l) 10).map
      (fun g => g.nodes) ≠
    (explore c3Board c3Init (fun l => l.head?) (fun l => l.reverse)
      10).map (fun g => g.nodes) := by
  decide

/-- Fold a node list through `upsert_state` starting from the empty
    graph. -/
def upsertAll (l : List UniqueNode) : StateGraph :=
  l.foldl (fun g n => (g.upsert_state n).2) StateGraph.new

/-- Deduplication keeping first occurrences: the discovery order of a
    sequence of upserted nodes. -/
def dedupKeep (l : List UniqueNode) : List UniqueNode :=
  l.foldl (fun acc a => if a ∈ acc then acc else acc ++ [a]) []

theorem nodes_keys (D : List UniqueNode) :
    (D.enum.map fun p => (p.2, p.1)).map (fun x => x.1) = D := by
  rw [List.map_map]
  have hcomp : ((fun x : UniqueNode × Nat => x.1) ∘
      fun p : Nat × UniqueNode => (p.2, p.1)) = Prod.snd := rfl
  rw [hcomp, List.enum_map_snd]

theorem find_none_iff (D : List UniqueNode) (a : UniqueNode) :
    ((D.enum.map fun p => (p.2, p.1)).find? fun ni =>
      decide (ni.1 = a)) = none ↔ a ∉ D := by
  rw [List.find?_eq_none]
  constructor
  · intro h ha
    have hmm : a ∈ (D.enum.map fun p => (p.2, p.1)).map
        (fun x => x.1) := by
      rw [nodes_keys]; exact ha
    rw [List.mem_map] at hmm
    obtain ⟨x, hx, hxa⟩ := hmm
    exact h x hx (by rw [hxa]; simp)
  · intro ha x hx hcon
    rw [List.mem_map] at hx
    obtain ⟨p, hp, hxp⟩ := hx
    simp only [decide_eq_true_eq] at hcon
    have hkey : p.2 = a := by rw [← hxp] at hcon; exact hcon
    have : a ∈ D := by
      rw [← List.enum_map_snd D, List.mem_map]
      exact ⟨p, hp, hkey⟩
    exact ha this

theorem upsert_fold_nodes :
    ∀ (l : List UniqueNode) (D : List UniqueNode) (g : StateGraph),
    g.nodes = D.enum.map (fun p => (p.2, p.1)) →
    (l.foldl (fun g n => (g.upsert_state n).2) g).nodes =
      (l.foldl (fun acc a => if a ∈ acc then acc else acc ++ [a]) D).enum.map
        (fun p => (p.2, p.1)) := by
  intro l
  induction l with
  | nil =>
    intro D g hg
    simpa using hg
  | cons a t ih =>
    intro D g hg
    simp only [List.foldl_cons]
    by_cases hmem : a ∈ D
    · rw [if_pos hmem]
      have hfind : (g.nodes.find? fun ni => decide (ni.1 = a)) ≠ none := by
        rw [hg]
        intro hcon
        exact absurd hmem ((find_none_iff D a).mp hcon)
      have hup : (g.upsert_state a).2 = g := by
        unfold StateGraph.upsert_state
        cases hf : g.nodes.find? fun ni => decide (ni.1 = a) with
        | none => exact absurd hf hfind
        | some ni => rfl
      rw [hup]
      exact ih D g hg
    · rw [if_neg hmem]
      have hfind : (g.nodes.find? fun ni => decide (ni.1 = a)) = none := by
        rw [hg]
        exact (find_none_iff D a).mpr hmem
      have hlen : g.nodes.length = D.length := by
        rw [hg, List.length_map, List.enum_length]
      have hup : (g.upsert_state a).2.nodes =
          g.nodes ++ [(a, g.nodes.length)] := by
        unfold StateGraph.upsert_state
        rw [hfind]
      refine ih (D ++ [a]) _ ?_
      rw [hup, hlen, hg, List.enum_append]
      rw [List.map_append]
      rfl

/-- Claim C3 as amended: node ids are assigned densely and strictly
    monotonically in discovery order (after any sequence of upserts from
    the empty graph the bimap pairs the distinct keys, in first-discovery
    order, with the ids 0, 1, 2, ...), and the worklist pop returns `none`
    exactly on an empty unvisited set and otherwise some member of it —
    there is no FIFO queue, so no ordering stronger than membership
    holds. -/
theorem c3_ids_monotone_pop_member (l : List UniqueNode)
    (sel : List Nat → Option Nat) (hsel : validSelector sel)
    (g : StateGraph) :
    ((upsertAll l).nodes = (dedupKeep l).enum.map (fun p => (p.2, p.1))) ∧
    (g.get_unvisited_node sel = none ↔ g.unvisited = []) ∧
    (∀ x, g.get_unvisited_node sel = some x → x ∈ g.unvisited) := by
  refine ⟨upsert_fold_nodes l [] StateGraph.new rfl, ?_, ?_⟩
  · constructor
    · intro hnone
      by_contra hne
      obtain ⟨x, _, hx⟩ := (hsel g.unvisited).2 hne
      rw [StateGraph.get_unvisited_node] at hnone
      rw [hnone] at hx
      cases hx
    · intro hemp
      rw [StateGraph.get_unvisited_node]
      exact (hsel g.unvisited).1 hemp
  · intro x hx
    by_cases hemp : g.unvisited = []
    · rw [StateGraph.get_unvisited_node, (hsel g.unvisited).1 hemp] at hx
      cases hx
    · obtain ⟨y, hy, hsely⟩ := (hsel g.unvisited).2 hemp
      rw [StateGraph.get_unvisited_node, hsely] at hx
      rw [← Option.some.inj hx]
      exact hy

theorem headSel_valid : validSelector (fun l => l.head?) := by
  intro l
  constructor
  · intro h
    rw [h]
    rfl
  · intro h
    cases l with
    | nil => exact absurd rfl h
    | cons a t => exact ⟨a, List.mem_cons_self _ _, rfl⟩

/-- Concrete instantiation of `c3_ids_monotone_pop_member` with the
    head-of-list selector, a repeated-node upsert sequence, and a graph
    with two unvisited ids. -/
theorem c3_ids_monotone_pop_member_witness :
    validSelector (fun l => l.head?) ∧
    (((upsertAll [c3Init, c3Init]).nodes =
      (dedupKeep [c3Init, c3Init]).enum.map (fun p => (p.2, p.1))) ∧
    ((StateGraph.mk [] [] [] [2, 5]).get_unvisited_node
        (fun l => l.head?) = none ↔
      (StateGraph.mk [] [] [] [2, 5]).unvisited = []) ∧
    (∀ x, (StateGraph.mk [] [] [] [2, 5]).get_unvisited_node
        (fun l => l.head?) = some x →
      x ∈ (StateGraph.mk [] [] [] [2, 5]).unvisited)) :=
  ⟨headSel_valid,
    c3_ids_monotone_pop_member [c3Init, c3Init] (fun l => l.head?)
      headSel_valid (StateGraph.mk [] [] [] [2, 5])⟩

/-! Dead-state heuristic, from `core/heuristics.rs`. -/

/-- `WinnableState` from `core/heuristics.rs`. -/
inductive WinnableState where
  | WinMaybePossible
  | WinImpossible
deriving DecidableEq, Repr

/-- `DIRECTIONS_AROUND` in its source order: down, right, up, left. -/
def DIRECTIONS_AROUND : List Vec2 := [⟨1, 0⟩, ⟨0, 1⟩, ⟨-1, 0⟩, ⟨0, -1⟩]

/-- The corner test of `is_box_trapped`: some pair of consecutive entries
    (cyclically) is blocked. -/
def consecutiveBlocked (blocked : List Bool) : Bool :=
  (List.range 4).any fun i =>
    blocked.getD i false && blocked.getD ((i + 1) % 4) false

/-- `is_box_trapped`: a box not on a target with two consecutive
    non-walkable cardinal neighbours.  Every board access
    `shared[game_box + dir]` is unchecked in Rust and panics out of
    range, hence the `Option`. -/
def is_box_trapped (shared : SharedGameState) (game_box : Vec2) :
    Option Bool :=
  match cellAt? shared game_box with
  | none => none
  | some c =>
    if c = Cell.Target then some false
    else
      match DIRECTIONS_AROUND.mapM (fun dir =>
        (cellAt? shared ⟨game_box.i + dir.i, game_box.j + dir.j⟩).map
          fun c2 => !c2.is_walkable) with
      | none => none
      | some blocked => some (consecutiveBlocked blocked)

/-- `SharedGameState::total_targets`. -/
def SharedGameState.total_targets (s : SharedGameState) : Nat :=
  (s.grid.join.filter fun c => c = Cell.Target).length

/-- `is_winnable`: count the trapped boxes; the state is declared
    unwinnable exactly when the remaining free boxes cannot cover all
    targets. -/
def is_winnable (shared : SharedGameState) (game : GameState) :
    Option WinnableState :=
  match (iterBoxes game.environment).mapM
      (fun b => is_box_trapped shared b) with
  | none => none
  | some flags =>
    let total_trapped := (flags.filter fun f => f).length
    let total_free := (iterBoxes game.environment).length - total_trapped
    if total_free ≥ shared.total_targets then
      some WinnableState.WinMaybePossible
    else some WinnableState.WinImpossible

/-- `SharedGameState::is_won`: every target cell holds a box. -/
def SharedGameState.is_won (s : SharedGameState) (gs : GameState) : Bool :=
  (s.grid.enum).all fun ir =>
    (ir.2.enum).all fun jc =>
      if jc.2 = Cell.Target then
        hasBoxAt gs.environment ⟨(ir.1 : Int), (jc.1 : Int)⟩
      else true

/-- One successful application of the (spec-modelled) step function. -/
def stepRel (shared : SharedGameState) (g1 g2 : GameState) : Prop :=
  ∃ a k, step3 shared g1 a = GameUpdateS.NextState g2 k

/-- A state from which some finite sequence of steps reaches a won
    state. -/
def winnable (shared : SharedGameState) (gs : GameState) : Prop :=
  ∃ gs2, Relation.ReflTransGen (stepRel shared) gs gs2 ∧
    shared.is_won gs2 = true

/-! Invariants of the box container used by the conservativity proof. -/

/-- The multiplicity of a position among the live boxes. -/
def boxCount (e : GameStateEnvironment) (p : Vec2) : Nat :=
  (iterBoxes e).count p

/-- The structural invariant of the canonical box container on a given
    board: a full 8-slot array, every slot an in-bounds position or the
    sentinel, stored in ascending order (`complete_moves` restores this
    after every mutation). -/
def envOK (s : SharedGameState) (e : GameStateEnvironment) : Prop :=
  e.boxes.length = BOX_COUNT ∧
  (∀ x ∈ e.boxes, inBounds s x ∨ x = EMPTY_BOX) ∧
  List.Sorted Vec2.le e.boxes

instance (s : SharedGameState) (e : GameStateEnvironment) :
    Decidable (envOK s e) := by
  unfold envOK; infer_instance

/-- The documented full game-state invariant: the player invariant of
    `validState`, the canonical container shape, pairwise-distinct live
    boxes, and every live box on a walkable in-bounds cell. -/
def validFull (s : SharedGameState) (gs : GameState) : Prop :=
  validState s gs ∧ envOK s gs.environment ∧
  (iterBoxes gs.environment).Nodup ∧
  ∀ b ∈ iterBoxes gs.environment, inBounds s b ∧ walkableAt s b = true

instance (s : SharedGameState) (gs : GameState) :
    Decidable (validFull s gs) := by
  unfold validFull; infer_instance

theorem inBounds_ne_empty {s : SharedGameState} {p : Vec2}
    (hwf : wfShared s) (hp : inBounds s p) : p ≠ EMPTY_BOX := by
  intro h
  have := inb_lt_sentinel s p hwf hp
  subst h
  unfold EMPTY_BOX Vec2.lt at this
  omega

theorem sorted_bounded_dropWhile (l : List Vec2)
    (hs : List.Sorted Vec2.le l)
    (hel : ∀ x ∈ l, x = EMPTY_BOX ∨ Vec2.lt x EMPTY_BOX) :
    ∀ x ∈ l.dropWhile (fun b => b ≠ EMPTY_BOX), x = EMPTY_BOX := by
  induction l with
  | nil => simp
  | cons a t ih =>
    intro x hx
    by_cases ha : a = EMPTY_BOX
    · rw [List.dropWhile_cons_of_neg (by simp [ha])] at hx
      rcases List.mem_cons.mp hx with h | h
      · exact h.trans ha
      · have hle : Vec2.le a x := (List.sorted_cons.mp hs).1 x h
        rcases hel x (List.mem_cons_of_mem a h) with he | he
        · exact he
        · exact absurd (ha ▸ hle) (vec2_lt_not_le x EMPTY_BOX he)
    · rw [List.dropWhile_cons_of_pos (by simp [ha])] at hx
      exact ih (List.sorted_cons.mp hs).2
        (fun y hy => hel y (List.mem_cons_of_mem a hy)) x hx

/-- Under the container invariant the dead slots after the live prefix are
    all sentinels. -/
theorem envOK_dropWhile_empty {s : SharedGameState}
    {e : GameStateEnvironment} (hwf : wfShared s) (hok : envOK s e) :
    ∀ x ∈ e.boxes.dropWhile (fun b => b ≠ EMPTY_BOX), x = EMPTY_BOX := by
  refine sorted_bounded_dropWhile e.boxes hok.2.2 fun x hx => ?_
  rcases hok.2.1 x hx with h | h
  · exact Or.inr (inb_lt_sentinel s x hwf h)
  · exact Or.inl h

/-- For in-bounds positions, counting over the live prefix agrees with
    counting over the whole 8-slot array. -/
theorem boxCount_eq_full {s : SharedGameState} {e : GameStateEnvironment}
    (hwf : wfShared s) (hok : envOK s e) {p : Vec2} (hp : inBounds s p) :
    boxCount e p = e.boxes.count p := by
  unfold boxCount iterBoxes
  conv_rhs => rw [← List.takeWhile_append_dropWhile
    (fun b => decide (b ≠ EMPTY_BOX)) e.boxes]
  rw [List.count_append]
  have h0 : (e.boxes.dropWhile (fun b => decide (b ≠ EMPTY_BOX))).count p
      = 0 := by
    rw [List.count_eq_zero]
    intro hmem
    exact inBounds_ne_empty hwf hp
      (envOK_dropWhile_empty hwf hok p hmem)
  omega

/-- All live boxes are in the full array. -/
theorem mem_of_mem_iterBoxes {e : GameStateEnvironment} {x : Vec2}
    (h : x ∈ iterBoxes e) : x ∈ e.boxes :=
  (List.takeWhile_sublist _).subset h

/-- Under the invariant an in-bounds member of the array is a live box. -/
theorem mem_iterBoxes_of_mem {s : SharedGameState}
    {e : GameStateEnvironment} (hwf : wfShared s) (hok : envOK s e)
    {x : Vec2} (hx : x ∈ e.boxes) (hb : inBounds s x) :
    x ∈ iterBoxes e := by
  rw [← List.takeWhile_append_dropWhile
    (fun b => decide (b ≠ EMPTY_BOX)) e.boxes] at hx
  rcases List.mem_append.mp hx with h | h
  · exact h
  · exact absurd (envOK_dropWhile_empty hwf hok x h)
      (inBounds_ne_empty hwf hb)

/-- The live prefix holds no sentinels, so its length is the array length
    minus the sentinel multiplicity. -/
theorem iterBoxes_length {s : SharedGameState} {e : GameStateEnvironment}
    (hwf : wfShared s) (hok : envOK s e) :
    (iterBoxes e).length + e.boxes.count EMPTY_BOX = e.boxes.length := by
  unfold iterBoxes
  conv_rhs => rw [← List.takeWhile_append_dropWhile
    (fun b => decide (b ≠ EMPTY_BOX)) e.boxes]
  rw [List.length_append]
  have h1 : e.boxes.count EMPTY_BOX
      = (e.boxes.dropWhile (fun b => decide (b ≠ EMPTY_BOX))).length := by
    have hall : ∀ x ∈ e.boxes.dropWhile (fun b => decide (b ≠ EMPTY_BOX)),
        x = EMPTY_BOX := fun x hx =>
      envOK_dropWhile_empty hwf hok x hx
    conv_lhs => rw [← List.takeWhile_append_dropWhile
      (fun b => decide (b ≠ EMPTY_BOX)) e.boxes]
    rw [List.count_append]
    have h2 : (e.boxes.takeWhile
        (fun b => decide (b ≠ EMPTY_BOX))).count EMPTY_BOX = 0 := by
      rw [List.count_eq_zero]
      intro hmem
      have := List.mem_takeWhile_imp hmem
      simp at this
    rw [h2, Nat.zero_add, List.count_eq_length.mpr fun y hy =>
      (hall y hy).symm]
  omega

theorem hasBoxAt_iff_mem (e : GameStateEnvironment) (p : Vec2) :
    hasBoxAt e p = true ↔ p ∈ iterBoxes e := by
  simp [hasBoxAt]

theorem replaceFirst_length (l : List Vec2) (d b : Vec2) :
    (replaceFirst l d b).length = l.length := by
  induction l with
  | nil => rfl
  | cons x t ih =>
    unfold replaceFirst
    by_cases h : x = d
    · simp [h]
    · simp [h, ih]

theorem count_cons_ite (a y : Vec2) (l : List Vec2) :
    List.count a (y :: l) = List.count a l + (if a = y then 1 else 0) := by
  rw [List.count_cons]
  by_cases h : a = y
  · simp [h]
  · simp only [beq_iff_eq]
    rw [if_neg (fun hh => h hh.symm), if_neg h]

theorem replaceFirst_count (l : List Vec2) (d b : Vec2) (hd : d ∈ l)
    (a : Vec2) :
    (replaceFirst l d b).count a + (if a = d then 1 else 0)
      = l.count a + (if a = b then 1 else 0) := by
  induction l with
  | nil => cases hd
  | cons x t ih =>
    by_cases h : x = d
    · subst h
      unfold replaceFirst
      rw [if_pos rfl, count_cons_ite, count_cons_ite]
      split_ifs <;> omega
    · have hdt : d ∈ t := by
        rcases List.mem_cons.mp hd with h1 | h1
        · exact absurd h1.symm h
        · exact h1
      have ihh := ih hdt
      unfold replaceFirst
      rw [if_neg h, count_cons_ite, count_cons_ite]
      split_ifs at ihh ⊢ <;> omega

theorem replaceFirst_mem (l : List Vec2) (d b : Vec2) :
    ∀ x ∈ replaceFirst l d b, x ∈ l ∨ x = b := by
  induction l with
  | nil => simp [replaceFirst]
  | cons y t ih =>
    intro x hx
    unfold replaceFirst at hx
    by_cases h : y = d
    · rw [if_pos h] at hx
      rcases List.mem_cons.mp hx with h1 | h1
      · exact Or.inr h1
      · exact Or.inl (List.mem_cons_of_mem y h1)
    · rw [if_neg h] at hx
      rcases List.mem_cons.mp hx with h1 | h1
      · exact Or.inl (h1 ▸ List.mem_cons_self y t)
      · rcases ih x h1 with h2 | h2
        · exact Or.inl (List.mem_cons_of_mem y h2)
        · exact Or.inr h2

theorem moveBox_boxes_count (e : GameStateEnvironment) (d b a : Vec2) :
    (moveBox e d b).boxes.count a = (replaceFirst e.boxes d b).count a :=
  (sortBoxes_perm _).count_eq a

/-- `moveBox` preserves the container invariant when the target cell is in
    bounds. -/
theorem moveBox_envOK {s : SharedGameState} {e : GameStateEnvironment}
    (hok : envOK s e) (d : Vec2) {b : Vec2} (hb : inBounds s b) :
    envOK s (moveBox e d b) := by
  refine ⟨?_, ?_, ?_⟩
  · show (sortBoxes (replaceFirst e.boxes d b)).length = BOX_COUNT
    rw [(sortBoxes_perm _).length_eq, replaceFirst_length]
    exact hok.1
  · intro x hx
    have hx2 : x ∈ replaceFirst e.boxes d b := (sortBoxes_perm _).mem_iff.mp hx
    rcases replaceFirst_mem e.boxes d b x hx2 with h | h
    · exact hok.2.1 x h
    · exact Or.inl (h ▸ hb)
  · exact sortBoxes_sorted _

/-- The multiplicity bookkeeping of a push: the pushed-from cell loses one
    box and the pushed-to cell gains one. -/
theorem moveBox_count {s : SharedGameState} {e : GameStateEnvironment}
    (hwf : wfShared s) (hok : envOK s e) {d b : Vec2}
    (hbin : inBounds s b) (hd : d ∈ iterBoxes e) (a : Vec2)
    (ha : inBounds s a) :
    boxCount (moveBox e d b) a + (if a = d then 1 else 0)
      = boxCount e a + (if a = b then 1 else 0) := by
  rw [boxCount_eq_full hwf (moveBox_envOK hok d hbin) ha,
    boxCount_eq_full hwf hok ha, moveBox_boxes_count]
  exact replaceFirst_count _ _ _ (mem_of_mem_iterBoxes hd) a

theorem moveBox_count_empty {s : SharedGameState} {e : GameStateEnvironment}
    (hwf : wfShared s) {d b : Vec2}
    (hdin : inBounds s d) (hbin : inBounds s b) (hd : d ∈ iterBoxes e) :
    (moveBox e d b).boxes.count EMPTY_BOX = e.boxes.count EMPTY_BOX := by
  rw [moveBox_boxes_count]
  have heq := replaceFirst_count e.boxes d b (mem_of_mem_iterBoxes hd)
    EMPTY_BOX
  have h1 : ¬ EMPTY_BOX = d := fun h => inBounds_ne_empty hwf hdin h.symm
  have h2 : ¬ EMPTY_BOX = b := fun h => inBounds_ne_empty hwf hbin h.symm
  rw [if_neg h1, if_neg h2] at heq
  omega

/-- A push never changes the live-box population size. -/
theorem moveBox_iter_length {s : SharedGameState}
    {e : GameStateEnvironment} (hwf : wfShared s) (hok : envOK s e)
    {d b : Vec2} (hdin : inBounds s d) (hbin : inBounds s b)
    (hd : d ∈ iterBoxes e) :
    (iterBoxes (moveBox e d b)).length = (iterBoxes e).length := by
  have l1 := iterBoxes_length hwf (moveBox_envOK hok d hbin)
  have l2 := iterBoxes_length hwf hok
  have l3 : (moveBox e d b).boxes.length = e.boxes.length := by
    show (sortBoxes (replaceFirst e.boxes d b)).length = e.boxes.length
    rw [(sortBoxes_perm _).length_eq, replaceFirst_length]
  have l4 := moveBox_count_empty hwf hdin hbin hd
  omega

theorem count_eq_zero_of_not_inBounds {s : SharedGameState}
    {e : GameStateEnvironment} (hok : envOK s e) {a : Vec2}
    (ha : ¬ inBounds s a) : boxCount e a = 0 := by
  unfold boxCount
  rw [List.count_eq_zero]
  intro hmem
  rcases hok.2.1 a (mem_of_mem_iterBoxes hmem) with h | h
  · exact ha h
  · have := List.mem_takeWhile_imp hmem
    simp [h] at this

/-- A push preserves distinctness of the live boxes when the target cell
    was free. -/
theorem moveBox_nodup {s : SharedGameState} {e : GameStateEnvironment}
    (hwf : wfShared s) (hok : envOK s e)
    (hnd : (iterBoxes e).Nodup) {d b : Vec2}
    (hbin : inBounds s b) (hd : d ∈ iterBoxes e)
    (hbno : hasBoxAt e b = false) :
    (iterBoxes (moveBox e d b)).Nodup := by
  rw [List.nodup_iff_count_le_one]
  intro a
  by_cases ha : inBounds s a
  · have hcnt := moveBox_count hwf hok hbin hd a ha
    have hold : (iterBoxes e).count a ≤ 1 :=
      List.nodup_iff_count_le_one.mp hnd a
    have hbzero : boxCount e b = 0 := by
      unfold boxCount
      rw [List.count_eq_zero]
      intro hmem
      rw [← hasBoxAt_iff_mem] at hmem
      rw [hmem] at hbno
      cases hbno
    unfold boxCount at hcnt hbzero
    by_cases hab : a = b
    · subst hab
      rw [if_pos rfl, hbzero] at hcnt
      split_ifs at hcnt <;> omega
    · rw [if_neg hab] at hcnt
      split_ifs at hcnt <;> omega
  · have hz := count_eq_zero_of_not_inBounds
      (moveBox_envOK hok d hbin) ha
    unfold boxCount at hz
    omega

theorem consecutiveBlocked_spec (b0 b1 b2 b3 : Bool)
    (h : consecutiveBlocked [b0, b1, b2, b3] = true) :
    (b0 = true ∧ b1 = true) ∨ (b1 = true ∧ b2 = true) ∨
    (b2 = true ∧ b3 = true) ∨ (b3 = true ∧ b0 = true) := by
  cases b0 <;> cases b1 <;> cases b2 <;> cases b3 <;> revert h <;> decide

/-- The neighbourhood scan of `is_box_trapped` either hits the border (a
    panic) or reads the four neighbour cells in source order. -/
theorem blockedList_cases (s : SharedGameState) (p : Vec2) :
    DIRECTIONS_AROUND.mapM (fun dir =>
      (cellAt? s ⟨p.i + dir.i, p.j + dir.j⟩).map fun c2 => !c2.is_walkable)
      = none ∨
    ∃ c0 c1 c2 c3,
      cellAt? s ⟨p.i + 1, p.j⟩ = some c0 ∧
      cellAt? s ⟨p.i, p.j + 1⟩ = some c1 ∧
      cellAt? s ⟨p.i + -1, p.j⟩ = some c2 ∧
      cellAt? s ⟨p.i, p.j + -1⟩ = some c3 ∧
      DIRECTIONS_AROUND.mapM (fun dir =>
        (cellAt? s ⟨p.i + dir.i, p.j + dir.j⟩).map fun c2 => !c2.is_walkable)
      = some [!c0.is_walkable, !c1.is_walkable, !c2.is_walkable,
              !c3.is_walkable] := by
  cases h0 : cellAt? s ⟨p.i + 1, p.j⟩ with
  | none =>
    left
    simp only [DIRECTIONS_AROUND, List.mapM_cons, List.mapM_nil]
    simp [h0]
  | some c0 =>
  cases h1 : cellAt? s ⟨p.i, p.j + 1⟩ with
  | none =>
    left
    simp only [DIRECTIONS_AROUND, List.mapM_cons, List.mapM_nil]
    simp [h0, h1]
  | some c1 =>
  cases h2 : cellAt? s ⟨p.i + -1, p.j⟩ with
  | none =>
    left
    simp only [DIRECTIONS_AROUND, List.mapM_cons, List.mapM_nil]
    simp [h0, h1, h2]
  | some c2 =>
  cases h3 : cellAt? s ⟨p.i, p.j + -1⟩ with
  | none =>
    left
    simp only [DIRECTIONS_AROUND, List.mapM_cons, List.mapM_nil]
    simp [h0, h1, h2, h3]
  | some c3 =>
    right
    refine ⟨c0, c1, c2, c3, rfl, rfl, rfl, rfl, ?_⟩
    simp only [DIRECTIONS_AROUND, List.mapM_cons, List.mapM_nil]
    simp [h0, h1, h2, h3]

/-- A trapped box has a blocked pair among its four neighbours: one of the
    four cyclically consecutive pairs of cells (down-right, right-up,
    up-left, left-down) is entirely non-walkable. -/
theorem trapped_spec (s : SharedGameState) (p : Vec2)
    (h : is_box_trapped s p = some true) :
    (walkableAt s ⟨p.i + 1, p.j⟩ = false ∧
      walkableAt s ⟨p.i, p.j + 1⟩ = false) ∨
    (walkableAt s ⟨p.i, p.j + 1⟩ = false ∧
      walkableAt s ⟨p.i + -1, p.j⟩ = false) ∨
    (walkableAt s ⟨p.i + -1, p.j⟩ = false ∧
      walkableAt s ⟨p.i, p.j + -1⟩ = false) ∨
    (walkableAt s ⟨p.i, p.j + -1⟩ = false ∧
      walkableAt s ⟨p.i + 1, p.j⟩ = false) := by
  unfold is_box_trapped at h
  cases hc : cellAt? s p with
  | none => rw [hc] at h; cases h
  | some c =>
    rw [hc] at h
    dsimp only at h
    by_cases ht : c = Cell.Target
    · rw [if_pos ht] at h
      simp at h
    · rw [if_neg ht] at h
      rcases blockedList_cases s p with hm |
        ⟨c0, c1, c2, c3, h0, h1, h2, h3, hm⟩
      · rw [hm] at h
        cases h
      · rw [hm] at h
        have hcb : consecutiveBlocked [!c0.is_walkable, !c1.is_walkable,
            !c2.is_walkable, !c3.is_walkable] = true := by
          injection h
        have w0 : walkableAt s ⟨p.i + 1, p.j⟩ = c0.is_walkable := by
          unfold walkableAt; rw [h0]
        have w1 : walkableAt s ⟨p.i, p.j + 1⟩ = c1.is_walkable := by
          unfold walkableAt; rw [h1]
        have w2 : walkableAt s ⟨p.i + -1, p.j⟩ = c2.is_walkable := by
          unfold walkableAt; rw [h2]
        have w3 : walkableAt s ⟨p.i, p.j + -1⟩ = c3.is_walkable := by
          unfold walkableAt; rw [h3]
        rw [w0, w1, w2, w3]
        rcases consecutiveBlocked_spec _ _ _ _ hcb with
          ⟨ha, hb⟩ | ⟨ha, hb⟩ | ⟨ha, hb⟩ | ⟨ha, hb⟩ <;>
          simp only [Bool.not_eq_true'] at ha hb
        · exact Or.inl ⟨ha, hb⟩
        · exact Or.inr (Or.inl ⟨ha, hb⟩)
        · exact Or.inr (Or.inr (Or.inl ⟨ha, hb⟩))
        · exact Or.inr (Or.inr (Or.inr ⟨ha, hb⟩))

/-- A trapped box is not on a target. -/
theorem trapped_not_target (s : SharedGameState) (p : Vec2)
    (h : is_box_trapped s p = some true) :
    ∀ c, cellAt? s p = some c → c ≠ Cell.Target := by
  intro c hc hT
  unfold is_box_trapped at h
  rw [hc] at h
  dsimp only at h
  rw [if_pos hT] at h
  simp at h

theorem walk_contra {s : SharedGameState} {q q' : Vec2}
    (ht : walkableAt s q = true) (hf : walkableAt s q' = false)
    (hi : q.i = q'.i) (hj : q.j = q'.j) : False := by
  have heq : q = q' := (Vec2.eq_iff q q').mpr ⟨hi, hj⟩
  rw [heq, hf] at ht
  cases ht

/-- A trapped box can never be pushed: pushing it in direction `dir`
    requires both the pusher cell (behind the box) and the destination
    cell (beyond the box) to be walkable, but one of them is in every
    blocked consecutive pair. -/
theorem trapped_not_pushable (s : SharedGameState) (p1 dir : Vec2)
    (hdir : dir = ⟨1, 0⟩ ∨ dir = ⟨-1, 0⟩ ∨ dir = ⟨0, 1⟩ ∨ dir = ⟨0, -1⟩)
    (htr : is_box_trapped s ⟨p1.i + dir.i, p1.j + dir.j⟩ = some true)
    (hb : walkableAt s
      ⟨p1.i + dir.i + dir.i, p1.j + dir.j + dir.j⟩ = true)
    (hp : walkableAt s p1 = true) : False := by
  have hspec := trapped_spec s ⟨p1.i + dir.i, p1.j + dir.j⟩ htr
  have wcl : ∀ q q' : Vec2, walkableAt s q = true → walkableAt s q' = false →
      q.i = q'.i → q.j = q'.j → False := fun q q' ht hf hi hj =>
    walk_contra ht hf hi hj
  rcases hdir with h | h | h | h
  · subst h
    rcases hspec with ⟨hx, hy⟩ | ⟨hx, hy⟩ | ⟨hx, hy⟩ | ⟨hx, hy⟩
    · exact wcl _ _ hb hx (by dsimp only; try omega) (by dsimp only; try omega)
    · exact wcl _ _ hp hy (by dsimp only; try omega) (by dsimp only; try omega)
    · exact wcl _ _ hp hx (by dsimp only; try omega) (by dsimp only; try omega)
    · exact wcl _ _ hb hy (by dsimp only; try omega) (by dsimp only; try omega)
  · subst h
    rcases hspec with ⟨hx, hy⟩ | ⟨hx, hy⟩ | ⟨hx, hy⟩ | ⟨hx, hy⟩
    · exact wcl _ _ hp hx (by dsimp only; try omega) (by dsimp only; try omega)
    · exact wcl _ _ hb hy (by dsimp only; try omega) (by dsimp only; try omega)
    · exact wcl _ _ hb hx (by dsimp only; try omega) (by dsimp only; try omega)
    · exact wcl _ _ hp hy (by dsimp only; try omega) (by dsimp only; try omega)
  · subst h
    rcases hspec with ⟨hx, hy⟩ | ⟨hx, hy⟩ | ⟨hx, hy⟩ | ⟨hx, hy⟩
    · exact wcl _ _ hb hy (by dsimp only; try omega) (by dsimp only; try omega)
    · exact wcl _ _ hb hx (by dsimp only; try omega) (by dsimp only; try omega)
    · exact wcl _ _ hp hy (by dsimp only; try omega) (by dsimp only; try omega)
    · exact wcl _ _ hp hx (by dsimp only; try omega) (by dsimp only; try omega)
  · subst h
    rcases hspec with ⟨hx, hy⟩ | ⟨hx, hy⟩ | ⟨hx, hy⟩ | ⟨hx, hy⟩
    · exact wcl _ _ hp hy (by dsimp only; try omega) (by dsimp only; try omega)
    · exact wcl _ _ hp hx (by dsimp only; try omega) (by dsimp only; try omega)
    · exact wcl _ _ hb hy (by dsimp only; try omega) (by dsimp only; try omega)
    · exact wcl _ _ hb hx (by dsimp only; try omega) (by dsimp only; try omega)

/-- Inversion of a successful step: it is either a plain walk or a push,
    with every guard of the source function recorded. -/
theorem step3_next_cases (s : SharedGameState) (g1 : GameState)
    (a : UserAction) (g2 : GameState) (k : GameChangeType)
    (h : step3 s g1 a = GameUpdateS.NextState g2 k) :
    (inBounds s ⟨g1.player.i + (dirOf a).i, g1.player.j + (dirOf a).j⟩ ∧
     hasBoxAt g1.environment
       ⟨g1.player.i + (dirOf a).i, g1.player.j + (dirOf a).j⟩ = false ∧
     walkableAt s
       ⟨g1.player.i + (dirOf a).i, g1.player.j + (dirOf a).j⟩ = true ∧
     g2 = ⟨g1.environment,
       ⟨g1.player.i + (dirOf a).i, g1.player.j + (dirOf a).j⟩⟩ ∧
     k = GameChangeType.PlayerMove) ∨
    (inBounds s ⟨g1.player.i + (dirOf a).i, g1.player.j + (dirOf a).j⟩ ∧
     hasBoxAt g1.environment
       ⟨g1.player.i + (dirOf a).i, g1.player.j + (dirOf a).j⟩ = true ∧
     inBounds s ⟨g1.player.i + (dirOf a).i + (dirOf a).i,
       g1.player.j + (dirOf a).j + (dirOf a).j⟩ ∧
     walkableAt s ⟨g1.player.i + (dirOf a).i + (dirOf a).i,
       g1.player.j + (dirOf a).j + (dirOf a).j⟩ = true ∧
     hasBoxAt g1.environment ⟨g1.player.i + (dirOf a).i + (dirOf a).i,
       g1.player.j + (dirOf a).j + (dirOf a).j⟩ = false ∧
     g2 = ⟨moveBox g1.environment
       ⟨g1.player.i + (dirOf a).i, g1.player.j + (dirOf a).j⟩
       ⟨g1.player.i + (dirOf a).i + (dirOf a).i,
         g1.player.j + (dirOf a).j + (dirOf a).j⟩,
       ⟨g1.player.i + (dirOf a).i, g1.player.j + (dirOf a).j⟩⟩ ∧
     k = GameChangeType.PlayerAndBoxMove) := by
  unfold step3 at h
  simp only [] at h
  by_cases h1 : inBounds s
    ⟨g1.player.i + (dirOf a).i, g1.player.j + (dirOf a).j⟩
  · rw [if_neg (not_not_intro h1)] at h
    by_cases h2 : hasBoxAt g1.environment
      ⟨g1.player.i + (dirOf a).i, g1.player.j + (dirOf a).j⟩ = true
    · rw [if_pos h2] at h
      by_cases h3 : inBounds s ⟨g1.player.i + (dirOf a).i + (dirOf a).i,
        g1.player.j + (dirOf a).j + (dirOf a).j⟩
      · rw [if_neg (not_not_intro h3)] at h
        by_cases h4 : walkableAt s
          ⟨g1.player.i + (dirOf a).i + (dirOf a).i,
            g1.player.j + (dirOf a).j + (dirOf a).j⟩ = true
        · rw [if_neg (not_not_intro h4)] at h
          by_cases h5 : hasBoxAt g1.environment
            ⟨g1.player.i + (dirOf a).i + (dirOf a).i,
              g1.player.j + (dirOf a).j + (dirOf a).j⟩ = true
          · rw [if_pos h5] at h
            cases h
          · rw [if_neg h5] at h
            injection h with he hk
            exact Or.inr ⟨h1, h2, h3, h4, Bool.eq_false_iff.mpr h5,
              he.symm, hk.symm⟩
        · rw [if_pos h4] at h
          cases h
      · rw [if_pos h3] at h
        cases h
    · rw [if_neg h2] at h
      by_cases h6 : walkableAt s
        ⟨g1.player.i + (dirOf a).i, g1.player.j + (dirOf a).j⟩ = true
      · rw [if_pos h6] at h
        injection h with he hk
        exact Or.inl ⟨h1, Bool.eq_false_iff.mpr h2, h6, he.symm, hk.symm⟩
      · rw [if_neg h6] at h
        cases h
  · rw [if_pos h1] at h
    cases h

/-- One successful step preserves the full state invariant, preserves the
    number of live boxes, and never decreases the box multiplicity at any
    trapped position. -/
theorem step3_preserves (s : SharedGameState) (g1 g2 : GameState)
    (hwf : wfShared s) (hval : validFull s g1)
    (hstep : stepRel s g1 g2) :
    validFull s g2 ∧
    (iterBoxes g2.environment).length
      = (iterBoxes g1.environment).length ∧
    ∀ p, is_box_trapped s p = some true →
      boxCount g1.environment p ≤ boxCount g2.environment p := by
  obtain ⟨a, k, h⟩ := hstep
  obtain ⟨⟨hpin, hpwalk, hpnb⟩, hok, hnd, hboxes⟩ := hval
  rcases step3_next_cases s g1 a g2 k h with
    ⟨hin, hnobox, hwalk, hg2, hk⟩ |
    ⟨hin, hbox, hbin, hbwalk, hbno, hg2, hk⟩
  · subst hg2
    exact ⟨⟨⟨hin, hwalk, hnobox⟩, hok, hnd, hboxes⟩, rfl,
      fun p _ => le_refl _⟩
  · subst hg2
    dsimp only
    have hdmem : (⟨g1.player.i + (dirOf a).i, g1.player.j + (dirOf a).j⟩
        : Vec2) ∈ iterBoxes g1.environment :=
      (hasBoxAt_iff_mem _ _).mp hbox
    have hdin : inBounds s
        (⟨g1.player.i + (dirOf a).i, g1.player.j + (dirOf a).j⟩ : Vec2) :=
      hin
    have hdwalk := (hboxes _ hdmem).2
    have hdb : (⟨g1.player.i + (dirOf a).i, g1.player.j + (dirOf a).j⟩
        : Vec2) ≠ ⟨g1.player.i + (dirOf a).i + (dirOf a).i,
          g1.player.j + (dirOf a).j + (dirOf a).j⟩ := by
      intro hdb
      rw [← hdb] at hbno
      rw [hbox] at hbno
      cases hbno
    have hok2 := moveBox_envOK hok
      ⟨g1.player.i + (dirOf a).i, g1.player.j + (dirOf a).j⟩ hbin
    have hcnt_d := moveBox_count hwf hok hbin hdmem
      ⟨g1.player.i + (dirOf a).i, g1.player.j + (dirOf a).j⟩ hdin
    have hdcount1 : boxCount g1.environment
        ⟨g1.player.i + (dirOf a).i, g1.player.j + (dirOf a).j⟩ = 1 := by
      have hle := List.nodup_iff_count_le_one.mp hnd
        (⟨g1.player.i + (dirOf a).i, g1.player.j + (dirOf a).j⟩ : Vec2)
      have hge := List.count_pos_iff.mpr hdmem
      unfold boxCount
      omega
    have hdcount2 : boxCount (moveBox g1.environment
        ⟨g1.player.i + (dirOf a).i, g1.player.j + (dirOf a).j⟩
        ⟨g1.player.i + (dirOf a).i + (dirOf a).i,
          g1.player.j + (dirOf a).j + (dirOf a).j⟩)
        ⟨g1.player.i + (dirOf a).i, g1.player.j + (dirOf a).j⟩ = 0 := by
      rw [if_pos rfl, if_neg hdb] at hcnt_d
      omega
    have hnobox2 : hasBoxAt (moveBox g1.environment
        ⟨g1.player.i + (dirOf a).i, g1.player.j + (dirOf a).j⟩
        ⟨g1.player.i + (dirOf a).i + (dirOf a).i,
          g1.player.j + (dirOf a).j + (dirOf a).j⟩)
        ⟨g1.player.i + (dirOf a).i, g1.player.j + (dirOf a).j⟩ = false := by
      rw [← Bool.not_eq_true, hasBoxAt_iff_mem]
      intro hmem
      have := List.count_pos_iff.mpr hmem
      unfold boxCount at hdcount2
      omega
    have hmem_new : ∀ x ∈ iterBoxes (moveBox g1.environment
        ⟨g1.player.i + (dirOf a).i, g1.player.j + (dirOf a).j⟩
        ⟨g1.player.i + (dirOf a).i + (dirOf a).i,
          g1.player.j + (dirOf a).j + (dirOf a).j⟩),
        inBounds s x ∧ walkableAt s x = true := by
      intro x hx
      have hxfull := mem_of_mem_iterBoxes hx
      have hxne : x ≠ EMPTY_BOX := by
        have := List.mem_takeWhile_imp hx
        simpa using this
      have hx2 : x ∈ replaceFirst g1.environment.boxes
          ⟨g1.player.i + (dirOf a).i, g1.player.j + (dirOf a).j⟩
          ⟨g1.player.i + (dirOf a).i + (dirOf a).i,
            g1.player.j + (dirOf a).j + (dirOf a).j⟩ :=
        (sortBoxes_perm _).mem_iff.mp hxfull
      rcases replaceFirst_mem _ _ _ x hx2 with hxo | hxb
      · have hxin : inBounds s x := by
          rcases hok.2.1 x hxo with hh | hh
          · exact hh
          · exact absurd hh hxne
        exact hboxes x (mem_iterBoxes_of_mem hwf hok hxo hxin)
      · subst hxb
        exact ⟨hbin, hbwalk⟩
    refine ⟨⟨⟨hdin, hdwalk, ?_⟩, hok2, ?_, hmem_new⟩, ?_, ?_⟩
    · exact hnobox2
    · exact moveBox_nodup hwf hok hnd hbin hdmem hbno
    · exact moveBox_iter_length hwf hok hdin hbin hdmem
    · intro p htr
      by_cases hpin2 : inBounds s p
      · have hcnt_p := moveBox_count hwf hok hbin hdmem p hpin2
        by_cases hpd : p = ⟨g1.player.i + (dirOf a).i,
            g1.player.j + (dirOf a).j⟩
        · exfalso
          obtain ⟨dd⟩ := a
          have hdir4 : vecFromDir dd = (⟨1, 0⟩ : Vec2) ∨
              vecFromDir dd = (⟨-1, 0⟩ : Vec2) ∨
              vecFromDir dd = (⟨0, 1⟩ : Vec2) ∨
              vecFromDir dd = (⟨0, -1⟩ : Vec2) := by
            cases dd <;> simp [vecFromDir]
          refine trapped_not_pushable s g1.player (vecFromDir dd) hdir4
            ?_ ?_ hpwalk
          · exact hpd ▸ htr
          · exact hbwalk
        · rw [if_neg hpd] at hcnt_p
          split_ifs at hcnt_p <;> omega
      · have := count_eq_zero_of_not_inBounds hok hpin2
        omega

/-- Every finite play preserves the invariant and never decreases the box
    multiplicity at any trapped position. -/
theorem rtg_preserves (s : SharedGameState) {g1 g2 : GameState}
    (hwf : wfShared s) (hval : validFull s g1)
    (h : Relation.ReflTransGen (stepRel s) g1 g2) :
    validFull s g2 ∧
    (iterBoxes g2.environment).length
      = (iterBoxes g1.environment).length ∧
    ∀ p, is_box_trapped s p = some true →
      boxCount g1.environment p ≤ boxCount g2.environment p := by
  induction h with
  | refl => exact ⟨hval, rfl, fun p _ => le_refl _⟩
  | tail hab hbc ih =>
    obtain ⟨ihv, ihl, ihc⟩ := ih
    obtain ⟨hv2, hl2, hc2⟩ := step3_preserves s _ _ hwf ihv hbc
    exact ⟨hv2, hl2.trans ihl,
      fun p htr => le_trans (ihc p htr) (hc2 p htr)⟩

/-- The target positions of a row, row index `i`, starting column `j`. -/
def targetRowAux (i : Int) (j : Int) : List Cell → List Vec2
  | [] => []
  | c :: t =>
    if c = Cell.Target then ⟨i, j⟩ :: targetRowAux i (j + 1) t
    else targetRowAux i (j + 1) t

/-- The target positions of a grid, starting row index `i`. -/
def targetPosAux (i : Int) : List (List Cell) → List Vec2
  | [] => []
  | r :: t => targetRowAux i 0 r ++ targetPosAux (i + 1) t

/-- All target cell positions of the board. -/
def targetPosList (s : SharedGameState) : List Vec2 :=
  targetPosAux 0 s.grid

theorem targetRowAux_length (i : Int) (r : List Cell) : ∀ j : Int,
    (targetRowAux i j r).length
      = (r.filter fun c => c = Cell.Target).length := by
  induction r with
  | nil => intro j; rfl
  | cons c t ih =>
    intro j
    unfold targetRowAux
    by_cases h : c = Cell.Target
    · simp [h, List.filter_cons, ih]
    · simp [h, List.filter_cons, ih]

theorem targetRowAux_bounds (i : Int) (r : List Cell) : ∀ j : Int,
    ∀ x ∈ targetRowAux i j r, x.i = i ∧ j ≤ x.j := by
  induction r with
  | nil => intro j x hx; cases hx
  | cons c t ih =>
    intro j x hx
    unfold targetRowAux at hx
    by_cases h : c = Cell.Target
    · rw [if_pos h] at hx
      rcases List.mem_cons.mp hx with h1 | h1
      · subst h1; exact ⟨rfl, le_refl _⟩
      · obtain ⟨hi, hj⟩ := ih (j + 1) x h1
        exact ⟨hi, by omega⟩
    · rw [if_neg h] at hx
      obtain ⟨hi, hj⟩ := ih (j + 1) x hx
      exact ⟨hi, by omega⟩

theorem targetRowAux_nodup (i : Int) (r : List Cell) : ∀ j : Int,
    (targetRowAux i j r).Nodup := by
  induction r with
  | nil => intro j; exact List.nodup_nil
  | cons c t ih =>
    intro j
    unfold targetRowAux
    by_cases h : c = Cell.Target
    · rw [if_pos h]
      refine List.Nodup.cons ?_ (ih (j + 1))
      intro hmem
      have := (targetRowAux_bounds i t (j + 1) _ hmem).2
      dsimp only at this
      omega
    · rw [if_neg h]
      exact ih (j + 1)

theorem targetRowAux_mem (i : Int) (r : List Cell) : ∀ j : Int,
    ∀ x ∈ targetRowAux i j r,
      ∃ k : Nat, r.get? k = some Cell.Target ∧ x = ⟨i, j + k⟩ := by
  induction r with
  | nil => intro j x hx; cases hx
  | cons c t ih =>
    intro j x hx
    unfold targetRowAux at hx
    by_cases h : c = Cell.Target
    · rw [if_pos h] at hx
      rcases List.mem_cons.mp hx with h1 | h1
      · exact ⟨0, by simp [h], by simpa using h1⟩
      · obtain ⟨k, hk, hx2⟩ := ih (j + 1) x h1
        refine ⟨k + 1, by simpa using hk, ?_⟩
        rw [hx2]
        rw [Vec2.eq_iff]
        constructor <;> dsimp only <;> push_cast <;> omega
    · rw [if_neg h] at hx
      obtain ⟨k, hk, hx2⟩ := ih (j + 1) x hx
      refine ⟨k + 1, by simpa using hk, ?_⟩
      rw [hx2]
      rw [Vec2.eq_iff]
      constructor <;> dsimp only <;> push_cast <;> omega

theorem targetPosAux_length (g : List (List Cell)) : ∀ i : Int,
    (targetPosAux i g).length
      = (g.join.filter fun c => c = Cell.Target).length := by
  induction g with
  | nil => intro i; rfl
  | cons r t ih =>
    intro i
    unfold targetPosAux
    rw [List.length_append, targetRowAux_length, ih (i + 1)]
    simp [List.filter_append]

theorem targetPosAux_bounds (g : List (List Cell)) : ∀ i : Int,
    ∀ x ∈ targetPosAux i g, i ≤ x.i := by
  induction g with
  | nil => intro i x hx; cases hx
  | cons r t ih =>
    intro i x hx
    unfold targetPosAux at hx
    rcases List.mem_append.mp hx with h | h
    · exact (targetRowAux_bounds i r 0 x h).1.ge
    · have := ih (i + 1) x h
      omega

theorem targetPosAux_nodup (g : List (List Cell)) : ∀ i : Int,
    (targetPosAux i g).Nodup := by
  induction g with
  | nil => intro i; exact List.nodup_nil
  | cons r t ih =>
    intro i
    unfold targetPosAux
    refine List.Nodup.append (targetRowAux_nodup i r 0) (ih (i + 1)) ?_
    rw [List.disjoint_left]
    intro x hx1 hx2
    have h1 := (targetRowAux_bounds i r 0 x hx1).1
    have h2 := targetPosAux_bounds t (i + 1) x hx2
    omega

theorem targetPosAux_mem (g : List (List Cell)) : ∀ i : Int,
    ∀ x ∈ targetPosAux i g,
      ∃ a : Nat, ∃ r, g.get? a = some r ∧
        ∃ k : Nat, r.get? k = some Cell.Target ∧ x = ⟨i + a, k⟩ := by
  induction g with
  | nil => intro i x hx; cases hx
  | cons r t ih =>
    intro i x hx
    unfold targetPosAux at hx
    rcases List.mem_append.mp hx with h | h
    · obtain ⟨k, hk, hx2⟩ := targetRowAux_mem i r 0 x h
      refine ⟨0, r, rfl, k, hk, ?_⟩
      rw [hx2, Vec2.eq_iff]
      constructor <;> dsimp only <;> omega
    · obtain ⟨a, r2, ha, k, hk, hx2⟩ := ih (i + 1) x h
      refine ⟨a + 1, r2, by simpa using ha, k, hk, ?_⟩
      rw [hx2, Vec2.eq_iff]
      constructor <;> dsimp only <;> push_cast <;> omega

theorem targetPosList_length (s : SharedGameState) :
    (targetPosList s).length = s.total_targets := by
  unfold targetPosList SharedGameState.total_targets
  exact targetPosAux_length s.grid 0

theorem targetPosList_nodup (s : SharedGameState) :
    (targetPosList s).Nodup :=
  targetPosAux_nodup s.grid 0

/-- Every listed target position indexes a `Target` cell. -/
theorem targetPosList_cell (s : SharedGameState) :
    ∀ x ∈ targetPosList s, cellAt? s x = some Cell.Target := by
  intro x hx
  obtain ⟨a, r, ha, k, hk, hx2⟩ := targetPosAux_mem s.grid 0 x hx
  subst hx2
  unfold cellAt?
  dsimp only
  rw [if_neg (by push_cast; omega)]
  have h1 : ((0 + (a : Int)).toNat) = a := by omega
  have h2 : ((k : Int).toNat) = k := by omega
  rw [h1, h2, ha]
  exact hk

/-- In a won state every listed target position holds a box. -/
theorem is_won_covers (s : SharedGameState) (gs : GameState)
    (hwon : s.is_won gs = true) :
    ∀ t ∈ targetPosList s, hasBoxAt gs.environment t = true := by
  intro t ht
  obtain ⟨a, r, ha, k, hk, ht2⟩ := targetPosAux_mem s.grid 0 t ht
  unfold SharedGameState.is_won at hwon
  rw [List.all_eq_true] at hwon
  have hrow := hwon (a, r) (List.mem_enum_iff_get?.mpr ha)
  rw [List.all_eq_true] at hrow
  have hcell := hrow (k, Cell.Target) (List.mem_enum_iff_get?.mpr hk)
  rw [if_pos rfl] at hcell
  have heq : t = (⟨(a : Int), (k : Int)⟩ : Vec2) := by
    rw [ht2, Vec2.eq_iff]
    constructor <;> dsimp only <;> omega
  rw [heq]
  exact hcell

/-- In a valid won state the targets and the trapped boxes are disjoint
    subsets of the live boxes, so their sizes add up below the box
    count. -/
theorem win_counting (s : SharedGameState) (gw : GameState)
    (hwf : wfShared s) (hvalw : validFull s gw)
    (hwon : s.is_won gw = true) :
    s.total_targets
      + ((iterBoxes gw.environment).filter
          (fun b => is_box_trapped s b = some true)).length
      ≤ (iterBoxes gw.environment).length := by
  obtain ⟨_, _, hndw, _⟩ := hvalw
  have hTnd := targetPosList_nodup s
  have hFnd := List.Nodup.filter
    (fun b => decide (is_box_trapped s b = some true)) hndw
  have hTsub : (targetPosList s).toFinset ⊆
      (iterBoxes gw.environment).toFinset := by
    intro t ht
    rw [List.mem_toFinset] at ht ⊢
    exact (hasBoxAt_iff_mem _ _).mp (is_won_covers s gw hwon t ht)
  have hFsub : ((iterBoxes gw.environment).filter
      (fun b => is_box_trapped s b = some true)).toFinset ⊆
      (iterBoxes gw.environment).toFinset := by
    intro x hx
    rw [List.mem_toFinset] at hx ⊢
    exact (List.mem_filter.mp hx).1
  have hdisj : Disjoint (targetPosList s).toFinset
      ((iterBoxes gw.environment).filter
        (fun b => is_box_trapped s b = some true)).toFinset := by
    rw [Finset.disjoint_left]
    intro t ht hf
    rw [List.mem_toFinset] at ht hf
    have htr : is_box_trapped s t = some true := by
      have := (List.mem_filter.mp hf).2
      simpa using this
    exact trapped_not_target s t htr Cell.Target
      (targetPosList_cell s t ht) rfl
  have hcard := Finset.card_le_card
    (Finset.union_subset hTsub hFsub)
  rw [Finset.card_union_of_disjoint hdisj] at hcard
  rw [List.toFinset_card_of_nodup hTnd,
    List.toFinset_card_of_nodup hFnd,
    List.toFinset_card_of_nodup hndw] at hcard
  rw [← targetPosList_length s]
  exact hcard

/-- Trapped-box multiplicity monotonicity transfers to the filtered
    counts. -/
theorem trapped_filter_mono (s : SharedGameState)
    {L0 Lw : List Vec2} (hnd0 : L0.Nodup) (hndw : Lw.Nodup)
    (hmono : ∀ p, is_box_trapped s p = some true →
      L0.count p ≤ Lw.count p) :
    (L0.filter (fun b => is_box_trapped s b = some true)).length
      ≤ (Lw.filter (fun b => is_box_trapped s b = some true)).length := by
  have hF0 := List.Nodup.filter
    (fun b => decide (is_box_trapped s b = some true)) hnd0
  have hFw := List.Nodup.filter
    (fun b => decide (is_box_trapped s b = some true)) hndw
  rw [← List.toFinset_card_of_nodup hF0,
    ← List.toFinset_card_of_nodup hFw]
  refine Finset.card_le_card ?_
  intro x hx
  rw [List.mem_toFinset] at hx ⊢
  rw [List.mem_filter] at hx ⊢
  obtain ⟨hxm, hxtr⟩ := hx
  have htr : is_box_trapped s x = some true := by simpa using hxtr
  refine ⟨?_, hxtr⟩
  have h0 := List.count_pos_iff.mpr hxm
  have hw := hmono x htr
  exact List.count_pos_iff.mp (by omega)

/-- A successful trapped scan over the boxes yields flags matching the
    per-box trapped predicate. -/
theorem mapM_trapped_flags (s : SharedGameState) (L : List Vec2) :
    ∀ flags : List Bool,
      L.mapM (fun b => is_box_trapped s b) = some flags →
      (flags.filter fun f => f).length
        = (L.filter (fun b => is_box_trapped s b = some true)).length := by
  induction L with
  | nil =>
    intro flags h
    have : flags = [] := by
      rw [List.mapM_nil] at h
      exact (Option.some_inj.mp h).symm
    subst this
    rfl
  | cons x t ih =>
    intro flags h
    rw [List.mapM_cons] at h
    cases hx : is_box_trapped s x with
    | none => rw [hx] at h; cases h
    | some fl =>
      rw [hx] at h
      cases hrest : t.mapM (fun b => is_box_trapped s b) with
      | none => rw [hrest] at h; simp at h
      | some ft =>
        rw [hrest] at h
        simp only [Option.bind_some, Option.bind_eq_bind] at h
        have hflags : flags = fl :: ft := by
          simpa using h.symm
        subst hflags
        rw [List.filter_cons, List.filter_cons]
        have hi := ih ft hrest
        cases fl with
        | true =>
          have : decide (is_box_trapped s x = some true) = true := by
            simp [hx]
          simp only [this, hx]
          simp [hi]
        | false =>
          have : decide (is_box_trapped s x = some true) = false := by
            simp [hx]
          simp only [this, hx]
          simp [hi]

/-- C7 (amended): the dead-state heuristic is conservative on valid game
    states: on an i8-sized board, for every state satisfying the full
    state invariant (player on a walkable in-bounds cell not on a box;
    canonical sorted 8-slot box array; distinct live boxes on walkable
    in-bounds cells) from which some finite sequence of successful steps
    reaches a won state, `is_winnable` never returns `WinImpossible` —
    it either returns `WinMaybePossible` or panics on an out-of-bounds
    neighbour read (`none`). -/
theorem c7_heuristic_conservative (s : SharedGameState) (gs : GameState)
    (hwf : wfShared s) (hval : validFull s gs) (hwin : winnable s gs) :
    is_winnable s gs ≠ some WinnableState.WinImpossible := by
  obtain ⟨gw, hpath, hwon⟩ := hwin
  obtain ⟨hvalw, hlen, hcnt⟩ := rtg_preserves s hwf hval hpath
  unfold is_winnable
  cases hm : (iterBoxes gs.environment).mapM
      (fun b => is_box_trapped s b) with
  | none => simp
  | some flags =>
    dsimp only
    have trapped0 := mapM_trapped_flags s (iterBoxes gs.environment)
      flags hm
    have hwcount := win_counting s gw hwf hvalw hwon
    have hnd0 := hval.2.2.1
    have hndw := hvalw.2.2.1
    have hmono := trapped_filter_mono s hnd0 hndw
      (fun p htr => hcnt p htr)
    have hfle : ((iterBoxes gs.environment).filter
        (fun b => is_box_trapped s b = some true)).length
        ≤ (iterBoxes gs.environment).length :=
      List.length_filter_le _ _
    have hcond : (iterBoxes gs.environment).length
        - (flags.filter fun f => f).length ≥ s.total_targets := by
      rw [trapped0]
      omega
    rw [if_pos hcond]
    simp

/-- The board `[[Floor, Floor, Target]]` of the panic counterexample. -/
def c7PanicBoard : SharedGameState :=
  ⟨[[Cell.Floor, Cell.Floor, Cell.Target]]⟩

/-- Player at the left edge, box in the middle: one push right wins. -/
def c7PanicState : GameState :=
  ⟨⟨⟨0, 1⟩ :: List.replicate 7 EMPTY_BOX⟩, ⟨0, 0⟩⟩

/-- The state after the winning push. -/
def c7PanicWin : GameState :=
  ⟨⟨⟨0, 2⟩ :: List.replicate 7 EMPTY_BOX⟩, ⟨0, 1⟩⟩

/-- A walled board whose single box is trapped by wall neighbours yet
    pushable by a player standing on a wall (an invalid state). -/
def c7TrapBoard : SharedGameState :=
  ⟨[[Cell.Wall, Cell.Wall, Cell.Wall],
    [Cell.Wall, Cell.Floor, Cell.Wall],
    [Cell.Wall, Cell.Target, Cell.Wall],
    [Cell.Wall, Cell.Wall, Cell.Wall]]⟩

/-- The invalid state: the player stands on the wall above the box. -/
def c7TrapState : GameState :=
  ⟨⟨⟨1, 1⟩ :: List.replicate 7 EMPTY_BOX⟩, ⟨0, 1⟩⟩

/-- The state after pushing the box down onto the target. -/
def c7TrapWin : GameState :=
  ⟨⟨⟨2, 1⟩ :: List.replicate 7 EMPTY_BOX⟩, ⟨1, 1⟩⟩

/-- C7: counterexample to the unconditional claim.  On
    `[[Floor, Floor, Target]]` the winnable start (player left, box
    middle) makes `is_winnable` panic (out-of-bounds neighbour read in
    `is_box_trapped`) instead of returning `WinMaybePossible`; and on a
    walled board a winnable (invalid) state with the player standing on a
    wall is declared `WinImpossible`. -/
theorem c7_winnable_state_rejected :
    (winnable c7PanicBoard c7PanicState ∧
      is_winnable c7PanicBoard c7PanicState = none) ∧
    (winnable c7TrapBoard c7TrapState ∧
      is_winnable c7TrapBoard c7TrapState
        = some WinnableState.WinImpossible) := by
  refine ⟨⟨⟨c7PanicWin, Relation.ReflTransGen.single
      ⟨UserAction.Move Direction.Right,
        GameChangeType.PlayerAndBoxMove, by decide⟩, by decide⟩,
      by decide⟩,
    ⟨⟨c7TrapWin, Relation.ReflTransGen.single
      ⟨UserAction.Move Direction.Down,
        GameChangeType.PlayerAndBoxMove, by decide⟩, by decide⟩,
      by decide⟩⟩

/-- A 3-by-3 open board: the conservativity theorem applied to a concrete
    valid winnable state. -/
def c7WitBoard : SharedGameState :=
  ⟨[[Cell.Floor, Cell.Floor, Cell.Floor],
    [Cell.Floor, Cell.Floor, Cell.Target],
    [Cell.Floor, Cell.Floor, Cell.Floor]]⟩

/-- Player left of the box, target to the right of it. -/
def c7WitState : GameState :=
  ⟨⟨⟨1, 1⟩ :: List.replicate 7 EMPTY_BOX⟩, ⟨1, 0⟩⟩

/-- The state after the winning push right. -/
def c7WitWin : GameState :=
  ⟨⟨⟨1, 2⟩ :: List.replicate 7 EMPTY_BOX⟩, ⟨1, 1⟩⟩

theorem c7_heuristic_conservative_witness :
    is_winnable c7WitBoard c7WitState
      ≠ some WinnableState.WinImpossible :=
  c7_heuristic_conservative c7WitBoard c7WitState (by decide) (by decide)
    ⟨c7WitWin, Relation.ReflTransGen.single
      ⟨UserAction.Move Direction.Right,
        GameChangeType.PlayerAndBoxMove, by decide⟩, by decide⟩

/-! The octree of `bevy_interface/octree.rs`.  The `f32` coordinate
    arithmetic is modelled by exact rational arithmetic: a fraction is an
    unnormalised `num/den` pair (den kept positive by construction), so
    every operation the octree performs (`+`, `-`, `*`, division by a
    positive mass or count, comparisons) is computed exactly and
    kernel-evaluably.  Comparisons and equalities of fraction values go
    through the value embedding `Q.val : Q → ℚ`. -/

/-- An exact unnormalised fraction standing for one `f32` value. -/
structure Q where
  num : Int
  den : Nat
deriving DecidableEq, Repr

/-- The rational value of a fraction. -/
def Q.val (a : Q) : ℚ := (a.num : ℚ) / (a.den : ℚ)

def Q.ofInt (n : Int) : Q := ⟨n, 1⟩

def Q.add (a b : Q) : Q :=
  ⟨a.num * b.den + b.num * a.den, a.den * b.den⟩

def Q.sub (a b : Q) : Q :=
  ⟨a.num * b.den - b.num * a.den, a.den * b.den⟩

def Q.mul (a b : Q) : Q := ⟨a.num * b.num, a.den * b.den⟩

/-- Division, moving the divisor's sign into the numerator so the
    denominator stays nonnegative.  (The octree only ever divides by
    positive masses and counts.) -/
def Q.div (a b : Q) : Q :=
  if 0 ≤ b.num then ⟨a.num * b.den, a.den * b.num.toNat⟩
  else ⟨-(a.num * b.den), a.den * (-b.num).toNat⟩

/-- `a <= b` on values (denominators positive by construction). -/
def Q.le (a b : Q) : Prop := a.num * b.den ≤ b.num * a.den

def Q.lt (a b : Q) : Prop := a.num * b.den < b.num * a.den

instance (a b : Q) : Decidable (Q.le a b) := by unfold Q.le; infer_instance

instance (a b : Q) : Decidable (Q.lt a b) := by unfold Q.lt; infer_instance

/-- Value equality of fractions. -/
def Q.qeq (a b : Q) : Prop := a.num * b.den = b.num * a.den

instance (a b : Q) : Decidable (Q.qeq a b) := by
  unfold Q.qeq; infer_instance

def Q.zero : Q := ⟨0, 1⟩

def Q.half : Q := ⟨1, 2⟩

def Q.tenth : Q := ⟨1, 10⟩

/-- Positive denominator: the well-formedness every constructed fraction
    satisfies. -/
def Q.pos (a : Q) : Prop := 0 < a.den

instance (a : Q) : Decidable (Q.pos a) := by unfold Q.pos; infer_instance

theorem Q.pos_add {a b : Q} (ha : a.pos) (hb : b.pos) : (a.add b).pos :=
  Nat.mul_pos ha hb

theorem Q.pos_sub {a b : Q} (ha : a.pos) (hb : b.pos) : (a.sub b).pos :=
  Nat.mul_pos ha hb

theorem Q.pos_mul {a b : Q} (ha : a.pos) (hb : b.pos) : (a.mul b).pos :=
  Nat.mul_pos ha hb

theorem Q.val_add {a b : Q} (ha : a.pos) (hb : b.pos) :
    (a.add b).val = a.val + b.val := by
  unfold Q.val Q.add Q.pos at *
  have ha2 : ((a.den : ℚ)) ≠ 0 := by positivity
  have hb2 : ((b.den : ℚ)) ≠ 0 := by positivity
  field_simp
  try push_cast
  try ring

theorem Q.val_sub {a b : Q} (ha : a.pos) (hb : b.pos) :
    (a.sub b).val = a.val - b.val := by
  unfold Q.val Q.sub Q.pos at *
  have ha2 : ((a.den : ℚ)) ≠ 0 := by positivity
  have hb2 : ((b.den : ℚ)) ≠ 0 := by positivity
  field_simp
  try push_cast
  try ring

theorem Q.val_mul {a b : Q} (ha : a.pos) (hb : b.pos) :
    (a.mul b).val = a.val * b.val := by
  unfold Q.val Q.mul Q.pos at *
  have ha2 : ((a.den : ℚ)) ≠ 0 := by positivity
  have hb2 : ((b.den : ℚ)) ≠ 0 := by positivity
  field_simp
  try push_cast
  try ring

theorem Q.le_iff_val {a b : Q} (ha : a.pos) (hb : b.pos) :
    Q.le a b ↔ a.val ≤ b.val := by
  unfold Q.val Q.le Q.pos at *
  have ha2 : (0 : ℚ) < (a.den : ℚ) := by positivity
  have hb2 : (0 : ℚ) < (b.den : ℚ) := by positivity
  rw [div_le_div_iff ha2 hb2]
  constructor
  · intro h
    exact_mod_cast h
  · intro h
    exact_mod_cast h

/-- An exact `Vec3` of fractions. -/
structure Vec3Q where
  x : Q
  y : Q
  z : Q
deriving DecidableEq, Repr

def Vec3Q.add (a b : Vec3Q) : Vec3Q :=
  ⟨a.x.add b.x, a.y.add b.y, a.z.add b.z⟩

def Vec3Q.sub (a b : Vec3Q) : Vec3Q :=
  ⟨a.x.sub b.x, a.y.sub b.y, a.z.sub b.z⟩

/-- Scalar multiplication `v * s`. -/
def Vec3Q.smul (a : Vec3Q) (s : Q) : Vec3Q :=
  ⟨a.x.mul s, a.y.mul s, a.z.mul s⟩

/-- Scalar division `v / s`. -/
def Vec3Q.sdiv (a : Vec3Q) (s : Q) : Vec3Q :=
  ⟨a.x.div s, a.y.div s, a.z.div s⟩

/-- Componentwise `Vec3::min`. -/
def Vec3Q.minv (a b : Vec3Q) : Vec3Q :=
  ⟨if Q.le a.x b.x then a.x else b.x,
   if Q.le a.y b.y then a.y else b.y,
   if Q.le a.z b.z then a.z else b.z⟩

/-- Componentwise `Vec3::max`. -/
def Vec3Q.maxv (a b : Vec3Q) : Vec3Q :=
  ⟨if Q.le a.x b.x then b.x else a.x,
   if Q.le a.y b.y then b.y else a.y,
   if Q.le a.z b.z then b.z else a.z⟩

def Vec3Q.zero : Vec3Q := ⟨Q.zero, Q.zero, Q.zero⟩

/-- `Vec3::splat`. -/
def Vec3Q.splat (s : Q) : Vec3Q := ⟨s, s, s⟩

def Vec3Q.posP (v : Vec3Q) : Prop := v.x.pos ∧ v.y.pos ∧ v.z.pos

instance (v : Vec3Q) : Decidable (Vec3Q.posP v) := by
  unfold Vec3Q.posP; infer_instance

/-- `Bounds` from `bevy_interface/bounds.rs`. -/
structure Bounds where
  min : Vec3Q
  max : Vec3Q
deriving DecidableEq, Repr

def Bounds.center (b : Bounds) : Vec3Q :=
  (b.min.add b.max).smul Q.half

def Bounds.size (b : Bounds) : Vec3Q := b.max.sub b.min

/-- `Bounds::contains` (inclusive on all six faces). -/
def Bounds.containsQ (b : Bounds) (p : Vec3Q) : Prop :=
  Q.le b.min.x p.x ∧ Q.le p.x b.max.x ∧
  Q.le b.min.y p.y ∧ Q.le p.y b.max.y ∧
  Q.le b.min.z p.z ∧ Q.le p.z b.max.z

instance (b : Bounds) (p : Vec3Q) : Decidable (Bounds.containsQ b p) := by
  unfold Bounds.containsQ; infer_instance

/-- `Bounds::octant`: the `index`-th child box (bit 1 = +x, bit 2 = +y,
    bit 4 = +z). -/
def Bounds.octant (b : Bounds) (index : Nat) : Bounds :=
  let center := b.center
  let half_size := b.size.smul Q.half
  let offset0 := half_size.smul Q.half
  let offset : Vec3Q :=
    ⟨if index &&& 1 ≠ 0 then offset0.x else offset0.x.mul (Q.ofInt (-1)),
     if index &&& 2 ≠ 0 then offset0.y else offset0.y.mul (Q.ofInt (-1)),
     if index &&& 4 ≠ 0 then offset0.z else offset0.z.mul (Q.ofInt (-1))⟩
  let octant_center := center.add offset
  ⟨octant_center.sub (half_size.smul Q.half),
   octant_center.add (half_size.smul Q.half)⟩

/-- `Bounds::octant_index` (strict `>` against the center on each
    axis). -/
def Bounds.octant_index (b : Bounds) (p : Vec3Q) : Nat :=
  let center := b.center
  (if Q.lt center.x p.x then 1 else 0) |||
  (if Q.lt center.y p.y then 2 else 0) |||
  (if Q.lt center.z p.z then 4 else 0)

theorem octant_index_lt_8 (b : Bounds) (p : Vec3Q) :
    b.octant_index p < 8 := by
  simp only [Bounds.octant_index]
  split_ifs <;> decide

/-- `NODE_MASS = 1.0`. -/
def NODE_MASS : Q := ⟨1, 1⟩

/-- `OctreeNode`: aggregates plus either leaf points
    (`OctreeChildren::Points`) or exactly eight subnodes
    (`OctreeChildren::SubNodes`). -/
inductive ONode where
  | leaf (bounds : Bounds) (center_of_mass : Vec3Q) (total_mass : Q)
      (node_count : Nat) (points : List (Nat × Vec3Q))
  | branch (bounds : Bounds) (center_of_mass : Vec3Q) (total_mass : Q)
      (node_count : Nat) (c0 c1 c2 c3 c4 c5 c6 c7 : ONode)
deriving DecidableEq, Repr

def ONode.bounds : ONode → Bounds
  | .leaf b _ _ _ _ => b
  | .branch b _ _ _ _ _ _ _ _ _ _ _ => b

def ONode.node_count : ONode → Nat
  | .leaf _ _ _ n _ => n
  | .branch _ _ _ n _ _ _ _ _ _ _ _ => n

def ONode.total_mass : ONode → Q
  | .leaf _ _ m _ _ => m
  | .branch _ _ m _ _ _ _ _ _ _ _ _ => m

def ONode.center_of_mass : ONode → Vec3Q
  | .leaf _ c _ _ _ => c
  | .branch _ c _ _ _ _ _ _ _ _ _ _ => c

/-- The children in index order (empty for a leaf). -/
def ONode.childrenL : ONode → List ONode
  | .leaf _ _ _ _ _ => []
  | .branch _ _ _ _ a b c d e f g h => [a, b, c, d, e, f, g, h]

/-- `OctreeNode::new`: an empty leaf. -/
def ONode.newNode (b : Bounds) : ONode :=
  .leaf b Vec3Q.zero Q.zero 0 []

/-- `collect_all_points`, children visited in index order. -/
def ONode.collect : ONode → List (Nat × Vec3Q)
  | .leaf _ _ _ _ pts => pts
  | .branch _ _ _ _ a b c d e f g h =>
    a.collect ++ b.collect ++ c.collect ++ d.collect ++ e.collect
      ++ f.collect ++ g.collect ++ h.collect

/-- Rebuild a branch from a list of exactly eight children; `none`
    models the `try_into().unwrap()` panic on any other length. -/
def mkBranch (bb : Bounds) (com : Vec3Q) (m : Q) (cnt : Nat) :
    List ONode → Option ONode
  | [a, b, c, d, e, f, g, h] => some (.branch bb com m cnt a b c d e f g h)
  | _ => none

/-- `OctreeNode::insert` together with `subdivide`, structured by the
    `max_depth` counter.  The counter is the structural fuel: a branch hit
    with counter `0` corresponds to the `max_depth - 1` usize underflow
    (a debug-mode panic), modelled as `none`; it is unreachable for trees
    built by this API with a constant `max_depth`.  Leaf aggregates are
    updated incrementally; a leaf splits when it exceeds
    `max_points_per_leaf` and depth allows, redistributing its points into
    eight fresh octant children with `NODE_MASS` each. -/
def insertGo : Nat → ONode → Nat → Vec3Q → Q → Nat → Option ONode
  | fuel, ONode.leaf b com m cnt pts, node_id, position, mass, maxl =>
    let m2 := m.add mass
    let com2 := if Q.lt Q.zero m2 then
        ((com.smul m).add (position.smul mass)).sdiv m2
      else position
    let cnt2 := cnt + 1
    let pts2 := pts ++ [(node_id, position)]
    match fuel with
    | 0 => some (ONode.leaf b com2 m2 cnt2 pts2)
    | k + 1 =>
      if pts2.length > maxl then
        -- subdivide (remaining_depth := fuel - 1)
        let c := fun i => ONode.newNode (b.octant i)
        pts2.foldlM
          (fun acc ip =>
            match acc with
            | ONode.leaf _ _ _ _ _ => none
            | ONode.branch bb bcom bm bcnt a0 a1 a2 a3 a4 a5 a6 a7 =>
              (insertGo k ([a0, a1, a2, a3, a4, a5, a6,
                  a7].getD (bb.octant_index ip.2) a0)
                ip.1 ip.2 NODE_MASS maxl).bind fun cnew =>
                mkBranch bb bcom bm bcnt
                  ([a0, a1, a2, a3, a4, a5, a6, a7].set
                    (bb.octant_index ip.2) cnew))
          (ONode.branch b com2 m2 cnt2 (c 0) (c 1) (c 2) (c 3) (c 4)
            (c 5) (c 6) (c 7))
      else some (ONode.leaf b com2 m2 cnt2 pts2)
  | fuel, ONode.branch b com m cnt a0 a1 a2 a3 a4 a5 a6 a7, node_id,
      position, mass, maxl =>
    let m2 := m.add mass
    let com2 := if Q.lt Q.zero m2 then
        ((com.smul m).add (position.smul mass)).sdiv m2
      else position
    let cnt2 := cnt + 1
    match fuel with
    | 0 => none
    | k + 1 =>
      (insertGo k ([a0, a1, a2, a3, a4, a5, a6, a7].getD
          (b.octant_index position) a0)
        node_id position mass maxl).bind fun cnew =>
        mkBranch b com2 m2 cnt2
          ([a0, a1, a2, a3, a4, a5, a6, a7].set
            (b.octant_index position) cnew)

/-- Overwrite the aggregate fields, keeping bounds and children. -/
def setAgg : ONode → Vec3Q → Q → Nat → ONode
  | .leaf b _ _ _ pts, com, m, cnt => .leaf b com m cnt pts
  | .branch b _ _ _ a0 a1 a2 a3 a4 a5 a6 a7, com, m, cnt =>
    .branch b com m cnt a0 a1 a2 a3 a4 a5 a6 a7

/-- `OctreeNode::remove`.  Faithful to the source, including the prune
    decision reading the STALE pre-update `self.node_count` and the prune
    arm replacing the children with the re-collected points WITHOUT
    recomputing `node_count`, `total_mass` or `center_of_mass`. -/
def ONode.remove : ONode → Nat → Vec3Q → Nat → Option (Bool × ONode)
  | ONode.leaf b com m cnt pts, node_id, position, _ =>
    if ¬ b.containsQ position then some (false, ONode.leaf b com m cnt pts)
    else
      let pts2 := pts.filter fun ip => ip.1 ≠ node_id
      if pts2.length = pts.length then
        some (false, ONode.leaf b com m cnt pts)
      else
        let cnt2 := pts2.length
        let m2 := (Q.ofInt cnt2).mul NODE_MASS
        let com2 := if cnt2 > 0 then
            (pts2.foldl (fun acc ip => acc.add ip.2) Vec3Q.zero).sdiv
              (Q.ofInt cnt2)
          else Vec3Q.zero
        some (true, ONode.leaf b com2 m2 cnt2 pts2)
  | ONode.branch b com m cnt a0 a1 a2 a3 a4 a5 a6 a7, node_id, position,
      minp =>
    if ¬ b.containsQ position then
      some (false, ONode.branch b com m cnt a0 a1 a2 a3 a4 a5 a6 a7)
    else
      let res : Option (Bool × ONode) :=
        match b.octant_index position with
        | 0 => (ONode.remove a0 node_id position minp).map fun rc =>
            (rc.1, ONode.branch b com m cnt rc.2 a1 a2 a3 a4 a5 a6 a7)
        | 1 => (ONode.remove a1 node_id position minp).map fun rc =>
            (rc.1, ONode.branch b com m cnt a0 rc.2 a2 a3 a4 a5 a6 a7)
        | 2 => (ONode.remove a2 node_id position minp).map fun rc =>
            (rc.1, ONode.branch b com m cnt a0 a1 rc.2 a3 a4 a5 a6 a7)
        | 3 => (ONode.remove a3 node_id position minp).map fun rc =>
            (rc.1, ONode.branch b com m cnt a0 a1 a2 rc.2 a4 a5 a6 a7)
        | 4 => (ONode.remove a4 node_id position minp).map fun rc =>
            (rc.1, ONode.branch b com m cnt a0 a1 a2 a3 rc.2 a5 a6 a7)
        | 5 => (ONode.remove a5 node_id position minp).map fun rc =>
            (rc.1, ONode.branch b com m cnt a0 a1 a2 a3 a4 rc.2 a6 a7)
        | 6 => (ONode.remove a6 node_id position minp).map fun rc =>
            (rc.1, ONode.branch b com m cnt a0 a1 a2 a3 a4 a5 rc.2 a7)
        | 7 => (ONode.remove a7 node_id position minp).map fun rc =>
            (rc.1, ONode.branch b com m cnt a0 a1 a2 a3 a4 a5 a6 rc.2)
        | _ => none
      res.bind fun rn =>
        if ¬ rn.1 then some (false, rn.2)
        else if cnt < minp then
          some (true, ONode.leaf b com m cnt rn.2.collect)
        else
          let cs := rn.2.childrenL
          let cnt2 : Nat := (cs.map ONode.node_count).foldl (· + ·) 0
          let m2 := cs.foldl (fun acc c => acc.add c.total_mass) Q.zero
          let com2 := if cnt2 > 0 ∧ Q.lt Q.zero m2 then
              (cs.foldl (fun acc c =>
                acc.add (c.center_of_mass.smul c.total_mass))
                Vec3Q.zero).sdiv m2
            else Vec3Q.zero
          some (true, setAgg rn.2 com2 m2 cnt2)

/-- The `Octree` wrapper with its configuration. -/
structure Octree where
  root : ONode
  max_depth : Nat
  max_points_per_leaf : Nat
  min_points_per_node : Nat
deriving DecidableEq, Repr

/-- `Octree::new`; the failed `min_points_per_node` assert is `none`. -/
def Octree.new (bounds : Bounds) (maxd maxl minp : Nat) : Option Octree :=
  if minp > maxl then none
  else some ⟨ONode.newNode bounds, maxd, maxl, minp⟩

/-- `Octree::insert`: panics (`none`) when the point is outside the root
    bounds, otherwise inserts into the root. -/
def Octree.insert (o : Octree) (node_id : Nat) (pos : Vec3Q) (mass : Q) :
    Option Octree :=
  if ¬ o.root.bounds.containsQ pos then none
  else (insertGo o.max_depth o.root node_id pos mass
    o.max_points_per_leaf).map fun r =>
      ⟨r, o.max_depth, o.max_points_per_leaf, o.min_points_per_node⟩

/-- `Octree::remove`. -/
def Octree.remove (o : Octree) (node_id : Nat) (pos : Vec3Q) :
    Option (Bool × Octree) :=
  (o.root.remove node_id pos o.min_points_per_node).map fun rc =>
    (rc.1, ⟨rc.2, o.max_depth, o.max_points_per_leaf,
      o.min_points_per_node⟩)

/-- `Octree::update`: remove at the old position, then insert the new
    position DIRECTLY into the root, without the bounds check that
    `Octree::insert` performs. -/
def Octree.update (o : Octree) (node_id : Nat)
    (old_pos new_pos : Vec3Q) : Option (Bool × Octree) :=
  (o.root.remove node_id old_pos o.min_points_per_node).bind fun rc =>
    if ¬ rc.1 then
      some (false, ⟨rc.2, o.max_depth, o.max_points_per_leaf,
        o.min_points_per_node⟩)
    else
      (insertGo o.max_depth rc.2 node_id new_pos NODE_MASS
        o.max_points_per_leaf).map fun r2 =>
        (true, ⟨r2, o.max_depth, o.max_points_per_leaf,
          o.min_points_per_node⟩)

/-- `Octree::from_points`: bounds from the min/max corner of the points
    padded by 10 percent, then one checked insert per point. -/
def Octree.from_points (points : List (Nat × Vec3Q))
    (maxd maxl minp : Nat) : Option Octree :=
  if minp > maxl then none
  else match points with
  | [] => some ⟨ONode.newNode ⟨Vec3Q.splat (Q.ofInt (-1)),
      Vec3Q.splat (Q.ofInt 1)⟩, maxd, maxl, minp⟩
  | p0 :: _ =>
    let minv := points.foldl (fun acc ip => acc.minv ip.2) p0.2
    let maxv := points.foldl (fun acc ip => acc.maxv ip.2) p0.2
    let padding := (maxv.sub minv).smul Q.tenth
    let bmin := minv.sub padding
    let bmax := maxv.add padding
    points.foldlM (fun o ip => Octree.insert o ip.1 ip.2 NODE_MASS)
      ⟨ONode.newNode ⟨bmin, bmax⟩, maxd, maxl, minp⟩

/-- `Octree::resize_bounds`: re-insert every point into a fresh root with
    the new bounds (no per-point bounds check). -/
def Octree.resize_bounds (o : Octree) (new_bounds : Bounds) :
    Option Octree :=
  ((o.root.collect).foldlM
    (fun r ip => insertGo o.max_depth r ip.1 ip.2 NODE_MASS
      o.max_points_per_leaf)
    (ONode.newNode new_bounds)).map fun r =>
      ⟨r, o.max_depth, o.max_points_per_leaf, o.min_points_per_node⟩

/-- Value equality of exact vectors. -/
def Vec3Q.vqeq (a b : Vec3Q) : Bool :=
  decide (Q.qeq a.x b.x) && decide (Q.qeq a.y b.y) &&
    decide (Q.qeq a.z b.z)

/-- The documented aggregate invariant, checked on every node of the
    subtree: `node_count` equals the number of entries below, `total_mass`
    equals `node_count × NODE_MASS`, and `center_of_mass` weighted by the
    total mass equals the sum of the descendant positions times
    `NODE_MASS` (the exact-arithmetic form of the weighted mean). -/
def ONode.aggOKb : ONode → Bool
  | ONode.leaf _ com m cnt pts =>
    decide (cnt = pts.length) &&
    decide (Q.qeq m ((Q.ofInt cnt).mul NODE_MASS)) &&
    Vec3Q.vqeq (com.smul m)
      ((pts.foldl (fun acc ip => acc.add ip.2) Vec3Q.zero).smul NODE_MASS)
  | ONode.branch _ com m cnt a0 a1 a2 a3 a4 a5 a6 a7 =>
    let entries := (ONode.branch ⟨Vec3Q.zero, Vec3Q.zero⟩ com m cnt
      a0 a1 a2 a3 a4 a5 a6 a7).collect
    decide (cnt = entries.length) &&
    decide (Q.qeq m ((Q.ofInt cnt).mul NODE_MASS)) &&
    Vec3Q.vqeq (com.smul m)
      ((entries.foldl (fun acc ip => acc.add ip.2) Vec3Q.zero).smul
        NODE_MASS) &&
    a0.aggOKb && a1.aggOKb && a2.aggOKb && a3.aggOKb &&
    a4.aggOKb && a5.aggOKb && a6.aggOKb && a7.aggOKb

def c5P0 : Vec3Q := Vec3Q.splat (Q.ofInt 0)
def c5P1 : Vec3Q := ⟨Q.ofInt 4, Q.ofInt 0, Q.ofInt 0⟩
def c5P2 : Vec3Q := ⟨Q.ofInt 8, Q.ofInt 0, Q.ofInt 0⟩

/-- Three collinear unit-mass points. -/
def c5Points : List (Nat × Vec3Q) := [(0, c5P0), (1, c5P1), (2, c5P2)]

/-- C5: the aggregate invariant is NOT preserved by removal when an
    internal node collapses.  Building the tree from three points
    (`max_depth 3`, `max_points_per_leaf 2`, `min_points_per_node 2`)
    subdivides the root; removing all three points in turn triggers the
    collapse path on the last removal (the root's stale pre-update
    `node_count` 1 is below `min_points_per_node`), which rebuilds the
    leaf WITHOUT recomputing any aggregate: the resulting root is a leaf
    holding 0 entries but has `node_count = 1` and `total_mass = 1`, so
    the invariant checker rejects it. -/
def c5Result : Option (Bool × Nat × Nat × Bool × Bool) :=
  (Octree.from_points c5Points 3 2 2).bind fun o =>
    (o.remove 2 c5P2).bind fun r1 =>
      (r1.2.remove 1 c5P1).bind fun r2 =>
        (r2.2.remove 0 c5P0).map fun r3 =>
          (r1.1 && r2.1 && r3.1, r3.2.root.node_count,
            r3.2.root.collect.length,
            decide (Q.qeq r3.2.root.total_mass
              ((Q.ofInt (r3.2.root.collect.length : Int)).mul NODE_MASS)),
            r3.2.root.aggOKb)

theorem c5_collapse_keeps_stale_aggregates :
    c5Result = some (true, 1, 0, false, false) := by decide

/-- A failed removal leaves the node exactly unchanged: every `NotFound`
    path of `OctreeNode::remove` returns before mutating anything. -/
theorem remove_false_eq (n : ONode) (node_id : Nat) (pos : Vec3Q)
    (minp : Nat) :
    ∀ r, ONode.remove n node_id pos minp = some r → r.1 = false →
      r.2 = n := by
  induction n with
  | leaf b com m cnt pts =>
    intro r h hr
    unfold ONode.remove at h
    by_cases hc : ¬ b.containsQ pos
    · rw [if_pos hc] at h
      injection h with h2
      rw [← h2]
    · rw [if_neg hc] at h
      dsimp only at h
      by_cases hl : (pts.filter fun ip => ip.1 ≠ node_id).length
          = pts.length
      · rw [if_pos hl] at h
        injection h with h2
        rw [← h2]
      · rw [if_neg hl] at h
        injection h with h2
        rw [← h2] at hr
        simp at hr
  | branch b com m cnt a0 a1 a2 a3 a4 a5 a6 a7
      ih0 ih1 ih2 ih3 ih4 ih5 ih6 ih7 =>
    intro r h hr
    unfold ONode.remove at h
    by_cases hc : ¬ b.containsQ pos
    · rw [if_pos hc] at h
      injection h with h2
      rw [← h2]
    · rw [if_neg hc] at h
      dsimp only at h
      have h8 := octant_index_lt_8 b pos
      set i := b.octant_index pos with hi
      interval_cases i
      · dsimp only at h
        cases hrm : a0.remove node_id pos minp with
        | none =>
          rw [hrm] at h
          simp at h
        | some rc =>
          rw [hrm] at h
          rw [Option.map_some', Option.some_bind] at h
          by_cases hb1 : rc.1 = true
          · rw [if_neg (by simp [hb1])] at h
            split_ifs at h <;>
              (injection h with h2; rw [← h2] at hr; simp at hr)
          · have hb0 : rc.1 = false := by simpa using hb1
            rw [if_pos (by simp [hb0])] at h
            injection h with h2
            have hch := ih0 rc hrm hb0
            rw [← h2]
            dsimp only
            rw [hch]
      · dsimp only at h
        cases hrm : a1.remove node_id pos minp with
        | none =>
          rw [hrm] at h
          simp at h
        | some rc =>
          rw [hrm] at h
          rw [Option.map_some', Option.some_bind] at h
          by_cases hb1 : rc.1 = true
          · rw [if_neg (by simp [hb1])] at h
            split_ifs at h <;>
              (injection h with h2; rw [← h2] at hr; simp at hr)
          · have hb0 : rc.1 = false := by simpa using hb1
            rw [if_pos (by simp [hb0])] at h
            injection h with h2
            have hch := ih1 rc hrm hb0
            rw [← h2]
            dsimp only
            rw [hch]
      · dsimp only at h
        cases hrm : a2.remove node_id pos minp with
        | none =>
          rw [hrm] at h
          simp at h
        | some rc =>
          rw [hrm] at h
          rw [Option.map_some', Option.some_bind] at h
          by_cases hb1 : rc.1 = true
          · rw [if_neg (by simp [hb1])] at h
            split_ifs at h <;>
              (injection h with h2; rw [← h2] at hr; simp at hr)
          · have hb0 : rc.1 = false := by simpa using hb1
            rw [if_pos (by simp [hb0])] at h
            injection h with h2
            have hch := ih2 rc hrm hb0
            rw [← h2]
            dsimp only
            rw [hch]
      · dsimp only at h
        cases hrm : a3.remove node_id pos minp with
        | none =>
          rw [hrm] at h
          simp at h
        | some rc =>
          rw [hrm] at h
          rw [Option.map_some', Option.some_bind] at h
          by_cases hb1 : rc.1 = true
          · rw [if_neg (by simp [hb1])] at h
            split_ifs at h <;>
              (injection h with h2; rw [← h2] at hr; simp at hr)
          · have hb0 : rc.1 = false := by simpa using hb1
            rw [if_pos (by simp [hb0])] at h
            injection h with h2
            have hch := ih3 rc hrm hb0
            rw [← h2]
            dsimp only
            rw [hch]
      · dsimp only at h
        cases hrm : a4.remove node_id pos minp with
        | none =>
          rw [hrm] at h
          simp at h
        | some rc =>
          rw [hrm] at h
          rw [Option.map_some', Option.some_bind] at h
          by_cases hb1 : rc.1 = true
          · rw [if_neg (by simp [hb1])] at h
            split_ifs at h <;>
              (injection h with h2; rw [← h2] at hr; simp at hr)
          · have hb0 : rc.1 = false := by simpa using hb1
            rw [if_pos (by simp [hb0])] at h
            injection h with h2
            have hch := ih4 rc hrm hb0
            rw [← h2]
            dsimp only
            rw [hch]
      · dsimp only at h
        cases hrm : a5.remove node_id pos minp with
        | none =>
          rw [hrm] at h
          simp at h
        | some rc =>
          rw [hrm] at h
          rw [Option.map_some', Option.some_bind] at h
          by_cases hb1 : rc.1 = true
          · rw [if_neg (by simp [hb1])] at h
            split_ifs at h <;>
              (injection h with h2; rw [← h2] at hr; simp at hr)
          · have hb0 : rc.1 = false := by simpa using hb1
            rw [if_pos (by simp [hb0])] at h
            injection h with h2
            have hch := ih5 rc hrm hb0
            rw [← h2]
            dsimp only
            rw [hch]
      · dsimp only at h
        cases hrm : a6.remove node_id pos minp with
        | none =>
          rw [hrm] at h
          simp at h
        | some rc =>
          rw [hrm] at h
          rw [Option.map_some', Option.some_bind] at h
          by_cases hb1 : rc.1 = true
          · rw [if_neg (by simp [hb1])] at h
            split_ifs at h <;>
              (injection h with h2; rw [← h2] at hr; simp at hr)
          · have hb0 : rc.1 = false := by simpa using hb1
            rw [if_pos (by simp [hb0])] at h
            injection h with h2
            have hch := ih6 rc hrm hb0
            rw [← h2]
            dsimp only
            rw [hch]
      · dsimp only at h
        cases hrm : a7.remove node_id pos minp with
        | none =>
          rw [hrm] at h
          simp at h
        | some rc =>
          rw [hrm] at h
          rw [Option.map_some', Option.some_bind] at h
          by_cases hb1 : rc.1 = true
          · rw [if_neg (by simp [hb1])] at h
            split_ifs at h <;>
              (injection h with h2; rw [← h2] at hr; simp at hr)
          · have hb0 : rc.1 = false := by simpa using hb1
            rw [if_pos (by simp [hb0])] at h
            injection h with h2
            have hch := ih7 rc hrm hb0
            rw [← h2]
            dsimp only
            rw [hch]


/-- C6: remove and update are atomic on failure.  When `Octree::remove`
    reports `false` (no matching id in the leaf reached by the position,
    or the position outside the tree), the returned tree is exactly the
    input tree, and an `Octree::update` whose remove phase fails likewise
    returns `false` with the tree unchanged. -/
theorem c6_remove_update_atomic (o : Octree) (node_id : Nat)
    (old_pos new_pos : Vec3Q) (ores : Bool × Octree)
    (hrm : o.remove node_id old_pos = some ores)
    (hfail : ores.1 = false) :
    ores.2 = o ∧ o.update node_id old_pos new_pos = some (false, o) := by
  unfold Octree.remove at hrm
  cases hr : o.root.remove node_id old_pos o.min_points_per_node with
  | none =>
    rw [hr] at hrm
    cases hrm
  | some rc =>
    rw [hr, Option.map_some'] at hrm
    injection hrm with h2
    have hrc1 : rc.1 = false := by
      rw [← h2] at hfail
      exact hfail
    have hroot : rc.2 = o.root :=
      remove_false_eq o.root node_id old_pos o.min_points_per_node rc hr
        hrc1
    have hoeq : (⟨rc.2, o.max_depth, o.max_points_per_leaf,
        o.min_points_per_node⟩ : Octree) = o := by
      rw [hroot]
    constructor
    · rw [← h2]
      exact hoeq
    · unfold Octree.update
      rw [hr, Option.some_bind, if_pos (by simp [hrc1]), hoeq]

/-- A concrete two-point octree (`max_points_per_leaf 1`, so the root is
    subdivided). -/
def c6o : Octree :=
  (Octree.from_points [(1, c5P0), (2, c5P1)] 3 1 1).getD
    ⟨ONode.newNode ⟨Vec3Q.splat (Q.ofInt (-1)),
      Vec3Q.splat (Q.ofInt 1)⟩, 3, 1, 1⟩

theorem c6_remove_update_atomic_witness :
    ((false, c6o) : Bool × Octree).2 = c6o ∧
      c6o.update 5 c5P0 c5P1 = some (false, c6o) :=
  c6_remove_update_atomic c6o 5 c5P0 c5P1 (false, c6o) (by decide)
    (by decide)

/-- Well-formed bounds: positive-denominator components and `min ≤ max`
    on every axis. -/
def wfBb (b : Bounds) : Bool :=
  decide b.min.posP && decide b.max.posP &&
  decide (Q.le b.min.x b.max.x) && decide (Q.le b.min.y b.max.y) &&
  decide (Q.le b.min.z b.max.z)

/-- The geometric invariant of trees built by this API: every node has
    well-formed bounds and every child's bounds is exactly the parent's
    octant (children bounds are computed once, by `subdivide`, and never
    rewritten). -/
def ONode.boundsOKb : ONode → Bool
  | .leaf b _ _ _ _ => wfBb b
  | .branch b _ _ _ a0 a1 a2 a3 a4 a5 a6 a7 =>
    wfBb b &&
    decide (a0.bounds = b.octant 0) && decide (a1.bounds = b.octant 1) &&
    decide (a2.bounds = b.octant 2) && decide (a3.bounds = b.octant 3) &&
    decide (a4.bounds = b.octant 4) && decide (a5.bounds = b.octant 5) &&
    decide (a6.bounds = b.octant 6) && decide (a7.bounds = b.octant 7) &&
    a0.boundsOKb && a1.boundsOKb && a2.boundsOKb && a3.boundsOKb &&
    a4.boundsOKb && a5.boundsOKb && a6.boundsOKb && a7.boundsOKb

/-- Depth accounting: a branch survives only below the depth counter, so
    the `max_depth - 1` underflow is unreachable. -/
def ONode.depthOKb : Nat → ONode → Bool
  | _, .leaf _ _ _ _ _ => true
  | 0, .branch _ _ _ _ _ _ _ _ _ _ _ _ => false
  | k + 1, .branch _ _ _ _ a0 a1 a2 a3 a4 a5 a6 a7 =>
    a0.depthOKb k && a1.depthOKb k && a2.depthOKb k && a3.depthOKb k &&
    a4.depthOKb k && a5.depthOKb k && a6.depthOKb k && a7.depthOKb k

/-- Some leaf of the tree holds a point outside that leaf's own
    bounds. -/
def ONode.escapedB : ONode → Bool
  | .leaf b _ _ _ pts => pts.any fun ip => decide (¬ b.containsQ ip.2)
  | .branch _ _ _ _ a0 a1 a2 a3 a4 a5 a6 a7 =>
    a0.escapedB || a1.escapedB || a2.escapedB || a3.escapedB ||
    a4.escapedB || a5.escapedB || a6.escapedB || a7.escapedB

/-- One axis of an octant's low corner. -/
def axOff (m M : Q) (s : Bool) : Q :=
  if s then ((M.sub m).mul Q.half).mul Q.half
  else (((M.sub m).mul Q.half).mul Q.half).mul (Q.ofInt (-1))

def axMin (m M : Q) (s : Bool) : Q :=
  (((m.add M).mul Q.half).add (axOff m M s)).sub
    (((M.sub m).mul Q.half).mul Q.half)

def axMax (m M : Q) (s : Bool) : Q :=
  (((m.add M).mul Q.half).add (axOff m M s)).add
    (((M.sub m).mul Q.half).mul Q.half)

theorem octant_min_x (b : Bounds) (i : Nat) :
    (b.octant i).min.x = axMin b.min.x b.max.x (decide (i &&& 1 ≠ 0)) := by
  simp only [Bounds.octant, Bounds.center, Bounds.size, Vec3Q.add,
    Vec3Q.sub, Vec3Q.smul, axMin, axOff]
  by_cases h : i &&& 1 ≠ 0 <;> simp [h]

theorem octant_min_y (b : Bounds) (i : Nat) :
    (b.octant i).min.y = axMin b.min.y b.max.y (decide (i &&& 2 ≠ 0)) := by
  simp only [Bounds.octant, Bounds.center, Bounds.size, Vec3Q.add,
    Vec3Q.sub, Vec3Q.smul, axMin, axOff]
  by_cases h : i &&& 2 ≠ 0 <;> simp [h]

theorem octant_min_z (b : Bounds) (i : Nat) :
    (b.octant i).min.z = axMin b.min.z b.max.z (decide (i &&& 4 ≠ 0)) := by
  simp only [Bounds.octant, Bounds.center, Bounds.size, Vec3Q.add,
    Vec3Q.sub, Vec3Q.smul, axMin, axOff]
  by_cases h : i &&& 4 ≠ 0 <;> simp [h]

theorem octant_max_x (b : Bounds) (i : Nat) :
    (b.octant i).max.x = axMax b.min.x b.max.x (decide (i &&& 1 ≠ 0)) := by
  simp only [Bounds.octant, Bounds.center, Bounds.size, Vec3Q.add,
    Vec3Q.sub, Vec3Q.smul, axMax, axOff]
  by_cases h : i &&& 1 ≠ 0 <;> simp [h]

theorem octant_max_y (b : Bounds) (i : Nat) :
    (b.octant i).max.y = axMax b.min.y b.max.y (decide (i &&& 2 ≠ 0)) := by
  simp only [Bounds.octant, Bounds.center, Bounds.size, Vec3Q.add,
    Vec3Q.sub, Vec3Q.smul, axMax, axOff]
  by_cases h : i &&& 2 ≠ 0 <;> simp [h]

theorem octant_max_z (b : Bounds) (i : Nat) :
    (b.octant i).max.z = axMax b.min.z b.max.z (decide (i &&& 4 ≠ 0)) := by
  simp only [Bounds.octant, Bounds.center, Bounds.size, Vec3Q.add,
    Vec3Q.sub, Vec3Q.smul, axMax, axOff]
  by_cases h : i &&& 4 ≠ 0 <;> simp [h]

/-- The one-axis geometry of an octant: the interval `[axMin, axMax]` is
    well formed and contained in `[m, M]`. -/
theorem axis_lemma (m M p : Q) (hm : m.pos) (hM : M.pos) (hp : p.pos)
    (hle : Q.le m M) (s : Bool) :
    (axMin m M s).pos ∧ (axMax m M s).pos ∧
    Q.le (axMin m M s) (axMax m M s) ∧
    (Q.le (axMin m M s) p → Q.le m p) ∧
    (Q.le p (axMax m M s) → Q.le p M) := by
  have hhalf : Q.half.pos := by decide
  have hneg : (Q.ofInt (-1)).pos := by decide
  have hcp : ((m.add M).mul Q.half).pos := Q.pos_mul (Q.pos_add hm hM) hhalf
  have hhs : ((M.sub m).mul Q.half).pos := Q.pos_mul (Q.pos_sub hM hm) hhalf
  have hq : (((M.sub m).mul Q.half).mul Q.half).pos := Q.pos_mul hhs hhalf
  have hoff : (axOff m M s).pos := by
    unfold axOff
    cases s
    · exact Q.pos_mul hq hneg
    · exact hq
  have hmin : (axMin m M s).pos := Q.pos_sub (Q.pos_add hcp hoff) hq
  have hmax : (axMax m M s).pos := Q.pos_add (Q.pos_add hcp hoff) hq
  have vhalf : Q.half.val = 1 / 2 := by norm_num [Q.val, Q.half]
  have vneg : (Q.ofInt (-1)).val = -1 := by norm_num [Q.val, Q.ofInt]
  have vc : ((m.add M).mul Q.half).val = (m.val + M.val) / 2 := by
    rw [Q.val_mul (Q.pos_add hm hM) hhalf, Q.val_add hm hM, vhalf]; ring
  have vhs : ((M.sub m).mul Q.half).val = (M.val - m.val) / 2 := by
    rw [Q.val_mul (Q.pos_sub hM hm) hhalf, Q.val_sub hM hm, vhalf]; ring
  have vq : (((M.sub m).mul Q.half).mul Q.half).val
      = (M.val - m.val) / 4 := by
    rw [Q.val_mul hhs hhalf, vhs, vhalf]; ring
  have voff : (axOff m M s).val = (M.val - m.val) / 4 ∨
      (axOff m M s).val = -((M.val - m.val) / 4) := by
    unfold axOff
    cases s
    · right
      show ((((M.sub m).mul Q.half).mul Q.half).mul (Q.ofInt (-1))).val = _
      rw [Q.val_mul hq hneg, vq, vneg]; ring
    · left
      exact vq
  have vmin : (axMin m M s).val
      = ((m.val + M.val) / 2 + (axOff m M s).val) - (M.val - m.val) / 4 := by
    unfold axMin
    rw [Q.val_sub (Q.pos_add hcp hoff) hq, Q.val_add hcp hoff, vc, vq]
  have vmax : (axMax m M s).val
      = ((m.val + M.val) / 2 + (axOff m M s).val) + (M.val - m.val) / 4 := by
    unfold axMax
    rw [Q.val_add (Q.pos_add hcp hoff) hq, Q.val_add hcp hoff, vc, vq]
  have hlev : m.val ≤ M.val := (Q.le_iff_val hm hM).mp hle
  refine ⟨hmin, hmax, ?_, ?_, ?_⟩
  · apply (Q.le_iff_val hmin hmax).mpr
    rw [vmin, vmax]
    linarith
  · intro h
    have hv := (Q.le_iff_val hmin hp).mp h
    apply (Q.le_iff_val hm hp).mpr
    rw [vmin] at hv
    rcases voff with hv2 | hv2 <;> rw [hv2] at hv <;> linarith
  · intro h
    have hv := (Q.le_iff_val hp hmax).mp h
    apply (Q.le_iff_val hp hM).mpr
    rw [vmax] at hv
    rcases voff with hv2 | hv2 <;> rw [hv2] at hv <;> linarith

/-- An octant of well-formed bounds is well formed. -/
theorem wfBb_octant (b : Bounds) (i : Nat) (hwf : wfBb b = true) :
    wfBb (b.octant i) = true := by
  unfold wfBb at hwf ⊢
  simp only [Bool.and_eq_true, decide_eq_true_eq] at hwf
  obtain ⟨⟨⟨⟨hminP, hmaxP⟩, hx⟩, hy⟩, hz⟩ := hwf
  obtain ⟨hx1, hx2, hx3⟩ := hminP
  obtain ⟨hy1, hy2, hy3⟩ := hmaxP
  have ax := axis_lemma b.min.x b.max.x b.min.x hx1 hy1 hx1 hx
    (decide (i &&& 1 ≠ 0))
  have ay := axis_lemma b.min.y b.max.y b.min.y hx2 hy2 hx2 hy
    (decide (i &&& 2 ≠ 0))
  have az := axis_lemma b.min.z b.max.z b.min.z hx3 hy3 hx3 hz
    (decide (i &&& 4 ≠ 0))
  simp only [Bool.and_eq_true, decide_eq_true_eq]
  refine ⟨⟨⟨⟨⟨?_, ?_, ?_⟩, ?_, ?_, ?_⟩, ?_⟩, ?_⟩, ?_⟩
  · rw [octant_min_x]; exact ax.1
  · rw [octant_min_y]; exact ay.1
  · rw [octant_min_z]; exact az.1
  · rw [octant_max_x]; exact ax.2.1
  · rw [octant_max_y]; exact ay.2.1
  · rw [octant_max_z]; exact az.2.1
  · rw [octant_min_x, octant_max_x]; exact ax.2.2.1
  · rw [octant_min_y, octant_max_y]; exact ay.2.2.1
  · rw [octant_min_z, octant_max_z]; exact az.2.2.1

/-- A point inside an octant of well-formed bounds is inside the
    bounds. -/
theorem octant_contains_sub (b : Bounds) (i : Nat) (p : Vec3Q)
    (hwf : wfBb b = true) (hp : p.posP)
    (hc : (b.octant i).containsQ p) : b.containsQ p := by
  unfold wfBb at hwf
  simp only [Bool.and_eq_true, decide_eq_true_eq] at hwf
  obtain ⟨⟨⟨⟨hminP, hmaxP⟩, hx⟩, hy⟩, hz⟩ := hwf
  obtain ⟨hx1, hx2, hx3⟩ := hminP
  obtain ⟨hy1, hy2, hy3⟩ := hmaxP
  obtain ⟨hp1, hp2, hp3⟩ := hp
  obtain ⟨c1, c2, c3, c4, c5, c6⟩ := hc
  rw [octant_min_x] at c1
  rw [octant_max_x] at c2
  rw [octant_min_y] at c3
  rw [octant_max_y] at c4
  rw [octant_min_z] at c5
  rw [octant_max_z] at c6
  have ax := axis_lemma b.min.x b.max.x p.x hx1 hy1 hp1 hx
    (decide (i &&& 1 ≠ 0))
  have ay := axis_lemma b.min.y b.max.y p.y hx2 hy2 hp2 hy
    (decide (i &&& 2 ≠ 0))
  have az := axis_lemma b.min.z b.max.z p.z hx3 hy3 hp3 hz
    (decide (i &&& 4 ≠ 0))
  exact ⟨ax.2.2.2.1 c1, ax.2.2.2.2 c2, ay.2.2.2.1 c3, ay.2.2.2.2 c4,
    az.2.2.2.1 c5, az.2.2.2.2 c6⟩

/-- Removal preserves the bounds, the geometric invariant and the depth
    accounting of the tree. -/
theorem remove_preserves (n : ONode) (node_id : Nat) (pos : Vec3Q)
    (minp : Nat) :
    ∀ r, ONode.remove n node_id pos minp = some r →
      r.2.bounds = n.bounds ∧
      (n.boundsOKb = true → r.2.boundsOKb = true) ∧
      (∀ f, n.depthOKb f = true → r.2.depthOKb f = true) := by
  induction n with
  | leaf b com m cnt pts =>
    intro r h
    unfold ONode.remove at h
    by_cases hc : ¬ b.containsQ pos
    · rw [if_pos hc] at h
      injection h with h2
      rw [← h2]
      exact ⟨rfl, fun hh => hh, fun f hh => hh⟩
    · rw [if_neg hc] at h
      dsimp only at h
      by_cases hl : (pts.filter fun ip => ip.1 ≠ node_id).length
          = pts.length
      · rw [if_pos hl] at h
        injection h with h2
        rw [← h2]
        exact ⟨rfl, fun hh => hh, fun f hh => hh⟩
      · rw [if_neg hl] at h
        injection h with h2
        rw [← h2]
        refine ⟨rfl, ?_, ?_⟩
        · intro hbo
          simpa only [ONode.boundsOKb] using hbo
        · intro f hdo
          cases f <;> simp [ONode.depthOKb]
  | branch b com m cnt a0 a1 a2 a3 a4 a5 a6 a7
      ih0 ih1 ih2 ih3 ih4 ih5 ih6 ih7 =>
    intro r h
    unfold ONode.remove at h
    by_cases hc : ¬ b.containsQ pos
    · rw [if_pos hc] at h
      injection h with h2
      rw [← h2]
      exact ⟨rfl, fun hh => hh, fun f hh => hh⟩
    · rw [if_neg hc] at h
      dsimp only at h
      have h8 := octant_index_lt_8 b pos
      set i := b.octant_index pos with hi
      interval_cases i
      · dsimp only at h
        cases hrm : a0.remove node_id pos minp with
        | none =>
          rw [hrm] at h
          simp at h
        | some rc =>
          rw [hrm] at h
          rw [Option.map_some', Option.some_bind] at h
          have ihh := ih0 rc hrm
          have hkeep : ∀ com2 m2 cnt2,
              ((ONode.branch b com2 m2 cnt2 rc.2 a1 a2 a3 a4 a5 a6 a7).bounds
                  = (ONode.branch b com m cnt a0 a1 a2 a3 a4 a5 a6 a7).bounds) ∧
              ((ONode.branch b com m cnt a0 a1 a2 a3 a4 a5 a6
                  a7).boundsOKb = true →
                (ONode.branch b com2 m2 cnt2 rc.2 a1 a2 a3 a4 a5 a6 a7).boundsOKb = true) ∧
              (∀ f2, (ONode.branch b com m cnt a0 a1 a2 a3 a4 a5 a6
                  a7).depthOKb f2 = true →
                (ONode.branch b com2 m2 cnt2 rc.2 a1 a2 a3 a4 a5 a6 a7).depthOKb f2 = true) := by
            intro com2 m2 cnt2
            refine ⟨rfl, ?_, ?_⟩
            · intro hbo
              simp only [ONode.boundsOKb, Bool.and_eq_true,
                decide_eq_true_eq] at hbo ⊢
              obtain ⟨⟨⟨⟨⟨⟨⟨⟨⟨⟨⟨⟨⟨⟨⟨⟨hwf, hc0⟩, hc1⟩, hc2⟩, hc3⟩, hc4⟩, hc5⟩, hc6⟩, hc7⟩, hq0⟩, hq1⟩, hq2⟩, hq3⟩, hq4⟩, hq5⟩, hq6⟩, hq7⟩ := hbo
              exact ⟨⟨⟨⟨⟨⟨⟨⟨⟨⟨⟨⟨⟨⟨⟨⟨hwf, (by rw [ihh.1]; exact hc0)⟩, hc1⟩, hc2⟩, hc3⟩, hc4⟩, hc5⟩, hc6⟩, hc7⟩, (ihh.2.1 hq0)⟩, hq1⟩, hq2⟩, hq3⟩, hq4⟩, hq5⟩, hq6⟩, hq7⟩
            · intro f2 hdo
              cases f2 with
              | zero => simp [ONode.depthOKb] at hdo
              | succ k2 =>
                simp only [ONode.depthOKb, Bool.and_eq_true] at hdo ⊢
                obtain ⟨⟨⟨⟨⟨⟨⟨hd0, hd1⟩, hd2⟩, hd3⟩, hd4⟩, hd5⟩, hd6⟩, hd7⟩ := hdo
                exact ⟨⟨⟨⟨⟨⟨⟨(ihh.2.2 k2 hd0), hd1⟩, hd2⟩, hd3⟩, hd4⟩, hd5⟩, hd6⟩, hd7⟩
          by_cases hbb : rc.1 = true
          · rw [if_neg (by simp [hbb])] at h
            by_cases hcnt : cnt < minp
            · rw [if_pos hcnt] at h
              injection h with h2
              rw [← h2]
              refine ⟨rfl, ?_, ?_⟩
              · intro hbo
                simp only [ONode.boundsOKb, Bool.and_eq_true,
                  decide_eq_true_eq] at hbo
                obtain ⟨⟨⟨⟨⟨⟨⟨⟨⟨⟨⟨⟨⟨⟨⟨⟨hwf, hc0⟩, hc1⟩, hc2⟩, hc3⟩, hc4⟩, hc5⟩, hc6⟩, hc7⟩, hq0⟩, hq1⟩, hq2⟩, hq3⟩, hq4⟩, hq5⟩, hq6⟩, hq7⟩ := hbo
                simp only [ONode.boundsOKb]
                exact hwf
              · intro f2 _
                cases f2 <;> simp [ONode.depthOKb]
            · rw [if_neg hcnt] at h
              injection h with h2
              rw [← h2]
              dsimp only [setAgg]
              exact hkeep _ _ _
          · have hb0 : rc.1 = false := by simpa using hbb
            rw [if_pos (by simp [hb0])] at h
            injection h with h2
            rw [← h2]
            exact hkeep _ _ _
      · dsimp only at h
        cases hrm : a1.remove node_id pos minp with
        | none =>
          rw [hrm] at h
          simp at h
        | some rc =>
          rw [hrm] at h
          rw [Option.map_some', Option.some_bind] at h
          have ihh := ih1 rc hrm
          have hkeep : ∀ com2 m2 cnt2,
              ((ONode.branch b com2 m2 cnt2 a0 rc.2 a2 a3 a4 a5 a6 a7).bounds
                  = (ONode.branch b com m cnt a0 a1 a2 a3 a4 a5 a6 a7).bounds) ∧
              ((ONode.branch b com m cnt a0 a1 a2 a3 a4 a5 a6
                  a7).boundsOKb = true →
                (ONode.branch b com2 m2 cnt2 a0 rc.2 a2 a3 a4 a5 a6 a7).boundsOKb = true) ∧
              (∀ f2, (ONode.branch b com m cnt a0 a1 a2 a3 a4 a5 a6
                  a7).depthOKb f2 = true →
                (ONode.branch b com2 m2 cnt2 a0 rc.2 a2 a3 a4 a5 a6 a7).depthOKb f2 = true) := by
            intro com2 m2 cnt2
            refine ⟨rfl, ?_, ?_⟩
            · intro hbo
              simp only [ONode.boundsOKb, Bool.and_eq_true,
                decide_eq_true_eq] at hbo ⊢
              obtain ⟨⟨⟨⟨⟨⟨⟨⟨⟨⟨⟨⟨⟨⟨⟨⟨hwf, hc0⟩, hc1⟩, hc2⟩, hc3⟩, hc4⟩, hc5⟩, hc6⟩, hc7⟩, hq0⟩, hq1⟩, hq2⟩, hq3⟩, hq4⟩, hq5⟩, hq6⟩, hq7⟩ := hbo
              exact ⟨⟨⟨⟨⟨⟨⟨⟨⟨⟨⟨⟨⟨⟨⟨⟨hwf, hc0⟩, (by rw [ihh.1]; exact hc1)⟩, hc2⟩, hc3⟩, hc4⟩, hc5⟩, hc6⟩, hc7⟩, hq0⟩, (ihh.2.1 hq1)⟩, hq2⟩, hq3⟩, hq4⟩, hq5⟩, hq6⟩, hq7⟩
            · intro f2 hdo
              cases f2 with
              | zero => simp [ONode.depthOKb] at hdo
              | succ k2 =>
                simp only [ONode.depthOKb, Bool.and_eq_true] at hdo ⊢
                obtain ⟨⟨⟨⟨⟨⟨⟨hd0, hd1⟩, hd2⟩, hd3⟩, hd4⟩, hd5⟩, hd6⟩, hd7⟩ := hdo
                exact ⟨⟨⟨⟨⟨⟨⟨hd0, (ihh.2.2 k2 hd1)⟩, hd2⟩, hd3⟩, hd4⟩, hd5⟩, hd6⟩, hd7⟩
          by_cases hbb : rc.1 = true
          · rw [if_neg (by simp [hbb])] at h
            by_cases hcnt : cnt < minp
            · rw [if_pos hcnt] at h
              injection h with h2
              rw [← h2]
              refine ⟨rfl, ?_, ?_⟩
              · intro hbo
                simp only [ONode.boundsOKb, Bool.and_eq_true,
                  decide_eq_true_eq] at hbo
                obtain ⟨⟨⟨⟨⟨⟨⟨⟨⟨⟨⟨⟨⟨⟨⟨⟨hwf, hc0⟩, hc1⟩, hc2⟩, hc3⟩, hc4⟩, hc5⟩, hc6⟩, hc7⟩, hq0⟩, hq1⟩, hq2⟩, hq3⟩, hq4⟩, hq5⟩, hq6⟩, hq7⟩ := hbo
                simp only [ONode.boundsOKb]
                exact hwf
              · intro f2 _
                cases f2 <;> simp [ONode.depthOKb]
            · rw [if_neg hcnt] at h
              injection h with h2
              rw [← h2]
              dsimp only [setAgg]
              exact hkeep _ _ _
          · have hb0 : rc.1 = false := by simpa using hbb
            rw [if_pos (by simp [hb0])] at h
            injection h with h2
            rw [← h2]
            exact hkeep _ _ _
      · dsimp only at h
        cases hrm : a2.remove node_id pos minp with
        | none =>
          rw [hrm] at h
          simp at h
        | some rc =>
          rw [hrm] at h
          rw [Option.map_some', Option.some_bind] at h
          have ihh := ih2 rc hrm
          have hkeep : ∀ com2 m2 cnt2,
              ((ONode.branch b com2 m2 cnt2 a0 a1 rc.2 a3 a4 a5 a6 a7).bounds
                  = (ONode.branch b com m cnt a0 a1 a2 a3 a4 a5 a6 a7).bounds) ∧
              ((ONode.branch b com m cnt a0 a1 a2 a3 a4 a5 a6
                  a7).boundsOKb = true →
                (ONode.branch b com2 m2 cnt2 a0 a1 rc.2 a3 a4 a5 a6 a7).boundsOKb = true) ∧
              (∀ f2, (ONode.branch b com m cnt a0 a1 a2 a3 a4 a5 a6
                  a7).depthOKb f2 = true →
                (ONode.branch b com2 m2 cnt2 a0 a1 rc.2 a3 a4 a5 a6 a7).depthOKb f2 = true) := by
            intro com2 m2 cnt2
            refine ⟨rfl, ?_, ?_⟩
            · intro hbo
              simp only [ONode.boundsOKb, Bool.and_eq_true,
                decide_eq_true_eq] at hbo ⊢
              obtain ⟨⟨⟨⟨⟨⟨⟨⟨⟨⟨⟨⟨⟨⟨⟨⟨hwf, hc0⟩, hc1⟩, hc2⟩, hc3⟩, hc4⟩, hc5⟩, hc6⟩, hc7⟩, hq0⟩, hq1⟩, hq2⟩, hq3⟩, hq4⟩, hq5⟩, hq6⟩, hq7⟩ := hbo
              exact ⟨⟨⟨⟨⟨⟨⟨⟨⟨⟨⟨⟨⟨⟨⟨⟨hwf, hc0⟩, hc1⟩, (by rw [ihh.1]; exact hc2)⟩, hc3⟩, hc4⟩, hc5⟩, hc6⟩, hc7⟩, hq0⟩, hq1⟩, (ihh.2.1 hq2)⟩, hq3⟩, hq4⟩, hq5⟩, hq6⟩, hq7⟩
            · intro f2 hdo
              cases f2 with
              | zero => simp [ONode.depthOKb] at hdo
              | succ k2 =>
                simp only [ONode.depthOKb, Bool.and_eq_true] at hdo ⊢
                obtain ⟨⟨⟨⟨⟨⟨⟨hd0, hd1⟩, hd2⟩, hd3⟩, hd4⟩, hd5⟩, hd6⟩, hd7⟩ := hdo
                exact ⟨⟨⟨⟨⟨⟨⟨hd0, hd1⟩, (ihh.2.2 k2 hd2)⟩, hd3⟩, hd4⟩, hd5⟩, hd6⟩, hd7⟩
          by_cases hbb : rc.1 = true
          · rw [if_neg (by simp [hbb])] at h
            by_cases hcnt : cnt < minp
            · rw [if_pos hcnt] at h
              injection h with h2
              rw [← h2]
              refine ⟨rfl, ?_, ?_⟩
              · intro hbo
                simp only [ONode.boundsOKb, Bool.and_eq_true,
                  decide_eq_true_eq] at hbo
                obtain ⟨⟨⟨⟨⟨⟨⟨⟨⟨⟨⟨⟨⟨⟨⟨⟨hwf, hc0⟩, hc1⟩, hc2⟩, hc3⟩, hc4⟩, hc5⟩, hc6⟩, hc7⟩, hq0⟩, hq1⟩, hq2⟩, hq3⟩, hq4⟩, hq5⟩, hq6⟩, hq7⟩ := hbo
                simp only [ONode.boundsOKb]
                exact hwf
              · intro f2 _
                cases f2 <;> simp [ONode.depthOKb]
            · rw [if_neg hcnt] at h
              injection h with h2
              rw [← h2]
              dsimp only [setAgg]
              exact hkeep _ _ _
          · have hb0 : rc.1 = false := by simpa using hbb
            rw [if_pos (by simp [hb0])] at h
            injection h with h2
            rw [← h2]
            exact hkeep _ _ _
      · dsimp only at h
        cases hrm : a3.remove node_id pos minp with
        | none =>
          rw [hrm] at h
          simp at h
        | some rc =>
          rw [hrm] at h
          rw [Option.map_some', Option.some_bind] at h
          have ihh := ih3 rc hrm
          have hkeep : ∀ com2 m2 cnt2,
              ((ONode.branch b com2 m2 cnt2 a0 a1 a2 rc.2 a4 a5 a6 a7).bounds
                  = (ONode.branch b com m cnt a0 a1 a2 a3 a4 a5 a6 a7).bounds) ∧
              ((ONode.branch b com m cnt a0 a1 a2 a3 a4 a5 a6
                  a7).boundsOKb = true →
                (ONode.branch b com2 m2 cnt2 a0 a1 a2 rc.2 a4 a5 a6 a7).boundsOKb = true) ∧
              (∀ f2, (ONode.branch b com m cnt a0 a1 a2 a3 a4 a5 a6
                  a7).depthOKb f2 = true →
                (ONode.branch b com2 m2 cnt2 a0 a1 a2 rc.2 a4 a5 a6 a7).depthOKb f2 = true) := by
            intro com2 m2 cnt2
            refine ⟨rfl, ?_, ?_⟩
            · intro hbo
              simp only [ONode.boundsOKb, Bool.and_eq_true,
                decide_eq_true_eq] at hbo ⊢
              obtain ⟨⟨⟨⟨⟨⟨⟨⟨⟨⟨⟨⟨⟨⟨⟨⟨hwf, hc0⟩, hc1⟩, hc2⟩, hc3⟩, hc4⟩, hc5⟩, hc6⟩, hc7⟩, hq0⟩, hq1⟩, hq2⟩, hq3⟩, hq4⟩, hq5⟩, hq6⟩, hq7⟩ := hbo
              exact ⟨⟨⟨⟨⟨⟨⟨⟨⟨⟨⟨⟨⟨⟨⟨⟨hwf, hc0⟩, hc1⟩, hc2⟩, (by rw [ihh.1]; exact hc3)⟩, hc4⟩, hc5⟩, hc6⟩, hc7⟩, hq0⟩, hq1⟩, hq2⟩, (ihh.2.1 hq3)⟩, hq4⟩, hq5⟩, hq6⟩, hq7⟩
            · intro f2 hdo
              cases f2 with
              | zero => simp [ONode.depthOKb] at hdo
              | succ k2 =>
                simp only [ONode.depthOKb, Bool.and_eq_true] at hdo ⊢
                obtain ⟨⟨⟨⟨⟨⟨⟨hd0, hd1⟩, hd2⟩, hd3⟩, hd4⟩, hd5⟩, hd6⟩, hd7⟩ := hdo
                exact ⟨⟨⟨⟨⟨⟨⟨hd0, hd1⟩, hd2⟩, (ihh.2.2 k2 hd3)⟩, hd4⟩, hd5⟩, hd6⟩, hd7⟩
          by_cases hbb : rc.1 = true
          · rw [if_neg (by simp [hbb])] at h
            by_cases hcnt : cnt < minp
            · rw [if_pos hcnt] at h
              injection h with h2
              rw [← h2]
              refine ⟨rfl, ?_, ?_⟩
              · intro hbo
                simp only [ONode.boundsOKb, Bool.and_eq_true,
                  decide_eq_true_eq] at hbo
                obtain ⟨⟨⟨⟨⟨⟨⟨⟨⟨⟨⟨⟨⟨⟨⟨⟨hwf, hc0⟩, hc1⟩, hc2⟩, hc3⟩, hc4⟩, hc5⟩, hc6⟩, hc7⟩, hq0⟩, hq1⟩, hq2⟩, hq3⟩, hq4⟩, hq5⟩, hq6⟩, hq7⟩ := hbo
                simp only [ONode.boundsOKb]
                exact hwf
              · intro f2 _
                cases f2 <;> simp [ONode.depthOKb]
            · rw [if_neg hcnt] at h
              injection h with h2
              rw [← h2]
              dsimp only [setAgg]
              exact hkeep _ _ _
          · have hb0 : rc.1 = false := by simpa using hbb
            rw [if_pos (by simp [hb0])] at h
            injection h with h2
            rw [← h2]
            exact hkeep _ _ _
      · dsimp only at h
        cases hrm : a4.remove node_id pos minp with
        | none =>
          rw [hrm] at h
          simp at h
        | some rc =>
          rw [hrm] at h
          rw [Option.map_some', Option.some_bind] at h
          have ihh := ih4 rc hrm
          have hkeep : ∀ com2 m2 cnt2,
              ((ONode.branch b com2 m2 cnt2 a0 a1 a2 a3 rc.2 a5 a6 a7).bounds
                  = (ONode.branch b com m cnt a0 a1 a2 a3 a4 a5 a6 a7).bounds) ∧
              ((ONode.branch b com m cnt a0 a1 a2 a3 a4 a5 a6
                  a7).boundsOKb = true →
                (ONode.branch b com2 m2 cnt2 a0 a1 a2 a3 rc.2 a5 a6 a7).boundsOKb = true) ∧
              (∀ f2, (ONode.branch b com m cnt a0 a1 a2 a3 a4 a5 a6
                  a7).depthOKb f2 = true →
                (ONode.branch b com2 m2 cnt2 a0 a1 a2 a3 rc.2 a5 a6 a7).depthOKb f2 = true) := by
            intro com2 m2 cnt2
            refine ⟨rfl, ?_, ?_⟩
            · intro hbo
              simp only [ONode.boundsOKb, Bool.and_eq_true,
                decide_eq_true_eq] at hbo ⊢
              obtain ⟨⟨⟨⟨⟨⟨⟨⟨⟨⟨⟨⟨⟨⟨⟨⟨hwf, hc0⟩, hc1⟩, hc2⟩, hc3⟩, hc4⟩, hc5⟩, hc6⟩, hc7⟩, hq0⟩, hq1⟩, hq2⟩, hq3⟩, hq4⟩, hq5⟩, hq6⟩, hq7⟩ := hbo
              exact ⟨⟨⟨⟨⟨⟨⟨⟨⟨⟨⟨⟨⟨⟨⟨⟨hwf, hc0⟩, hc1⟩, hc2⟩, hc3⟩, (by rw [ihh.1]; exact hc4)⟩, hc5⟩, hc6⟩, hc7⟩, hq0⟩, hq1⟩, hq2⟩, hq3⟩, (ihh.2.1 hq4)⟩, hq5⟩, hq6⟩, hq7⟩
            · intro f2 hdo
              cases f2 with
              | zero => simp [ONode.depthOKb] at hdo
              | succ k2 =>
                simp only [ONode.depthOKb, Bool.and_eq_true] at hdo ⊢
                obtain ⟨⟨⟨⟨⟨⟨⟨hd0, hd1⟩, hd2⟩, hd3⟩, hd4⟩, hd5⟩, hd6⟩, hd7⟩ := hdo
                exact ⟨⟨⟨⟨⟨⟨⟨hd0, hd1⟩, hd2⟩, hd3⟩, (ihh.2.2 k2 hd4)⟩, hd5⟩, hd6⟩, hd7⟩
          by_cases hbb : rc.1 = true
          · rw [if_neg (by simp [hbb])] at h
            by_cases hcnt : cnt < minp
            · rw [if_pos hcnt] at h
              injection h with h2
              rw [← h2]
              refine ⟨rfl, ?_, ?_⟩
              · intro hbo
                simp only [ONode.boundsOKb, Bool.and_eq_true,
                  decide_eq_true_eq] at hbo
                obtain ⟨⟨⟨⟨⟨⟨⟨⟨⟨⟨⟨⟨⟨⟨⟨⟨hwf, hc0⟩, hc1⟩, hc2⟩, hc3⟩, hc4⟩, hc5⟩, hc6⟩, hc7⟩, hq0⟩, hq1⟩, hq2⟩, hq3⟩, hq4⟩, hq5⟩, hq6⟩, hq7⟩ := hbo
                simp only [ONode.boundsOKb]
                exact hwf
              · intro f2 _
                cases f2 <;> simp [ONode.depthOKb]
            · rw [if_neg hcnt] at h
              injection h with h2
              rw [← h2]
              dsimp only [setAgg]
              exact hkeep _ _ _
          · have hb0 : rc.1 = false := by simpa using hbb
            rw [if_pos (by simp [hb0])] at h
            injection h with h2
            rw [← h2]
            exact hkeep _ _ _
      · dsimp only at h
        cases hrm : a5.remove node_id pos minp with
        | none =>
          rw [hrm] at h
          simp at h
        | some rc =>
          rw [hrm] at h
          rw [Option.map_some', Option.some_bind] at h
          have ihh := ih5 rc hrm
          have hkeep : ∀ com2 m2 cnt2,
              ((ONode.branch b com2 m2 cnt2 a0 a1 a2 a3 a4 rc.2 a6 a7).bounds
                  = (ONode.branch b com m cnt a0 a1 a2 a3 a4 a5 a6 a7).bounds) ∧
              ((ONode.branch b com m cnt a0 a1 a2 a3 a4 a5 a6
                  a7).boundsOKb = true →
                (ONode.branch b com2 m2 cnt2 a0 a1 a2 a3 a4 rc.2 a6 a7).boundsOKb = true) ∧
              (∀ f2, (ONode.branch b com m cnt a0 a1 a2 a3 a4 a5 a6
                  a7).depthOKb f2 = true →
                (ONode.branch b com2 m2 cnt2 a0 a1 a2 a3 a4 rc.2 a6 a7).depthOKb f2 = true) := by
            intro com2 m2 cnt2
            refine ⟨rfl, ?_, ?_⟩
            · intro hbo
              simp only [ONode.boundsOKb, Bool.and_eq_true,
                decide_eq_true_eq] at hbo ⊢
              obtain ⟨⟨⟨⟨⟨⟨⟨⟨⟨⟨⟨⟨⟨⟨⟨⟨hwf, hc0⟩, hc1⟩, hc2⟩, hc3⟩, hc4⟩, hc5⟩, hc6⟩, hc7⟩, hq0⟩, hq1⟩, hq2⟩, hq3⟩, hq4⟩, hq5⟩, hq6⟩, hq7⟩ := hbo
              exact ⟨⟨⟨⟨⟨⟨⟨⟨⟨⟨⟨⟨⟨⟨⟨⟨hwf, hc0⟩, hc1⟩, hc2⟩, hc3⟩, hc4⟩, (by rw [ihh.1]; exact hc5)⟩, hc6⟩, hc7⟩, hq0⟩, hq1⟩, hq2⟩, hq3⟩, hq4⟩, (ihh.2.1 hq5)⟩, hq6⟩, hq7⟩
            · intro f2 hdo
              cases f2 with
              | zero => simp [ONode.depthOKb] at hdo
              | succ k2 =>
                simp only [ONode.depthOKb, Bool.and_eq_true] at hdo ⊢
                obtain ⟨⟨⟨⟨⟨⟨⟨hd0, hd1⟩, hd2⟩, hd3⟩, hd4⟩, hd5⟩, hd6⟩, hd7⟩ := hdo
                exact ⟨⟨⟨⟨⟨⟨⟨hd0, hd1⟩, hd2⟩, hd3⟩, hd4⟩, (ihh.2.2 k2 hd5)⟩, hd6⟩, hd7⟩
          by_cases hbb : rc.1 = true
          · rw [if_neg (by simp [hbb])] at h
            by_cases hcnt : cnt < minp
            · rw [if_pos hcnt] at h
              injection h with h2
              rw [← h2]
              refine ⟨rfl, ?_, ?_⟩
              · intro hbo
                simp only [ONode.boundsOKb, Bool.and_eq_true,
                  decide_eq_true_eq] at hbo
                obtain ⟨⟨⟨⟨⟨⟨⟨⟨⟨⟨⟨⟨⟨⟨⟨⟨hwf, hc0⟩, hc1⟩, hc2⟩, hc3⟩, hc4⟩, hc5⟩, hc6⟩, hc7⟩, hq0⟩, hq1⟩, hq2⟩, hq3⟩, hq4⟩, hq5⟩, hq6⟩, hq7⟩ := hbo
                simp only [ONode.boundsOKb]
                exact hwf
              · intro f2 _
                cases f2 <;> simp [ONode.depthOKb]
            · rw [if_neg hcnt] at h
              injection h with h2
              rw [← h2]
              dsimp only [setAgg]
              exact hkeep _ _ _
          · have hb0 : rc.1 = false := by simpa using hbb
            rw [if_pos (by simp [hb0])] at h
            injection h with h2
            rw [← h2]
            exact hkeep _ _ _
      · dsimp only at h
        cases hrm : a6.remove node_id pos minp with
        | none =>
          rw [hrm] at h
          simp at h
        | some rc =>
          rw [hrm] at h
          rw [Option.map_some', Option.some_bind] at h
          have ihh := ih6 rc hrm
          have hkeep : ∀ com2 m2 cnt2,
              ((ONode.branch b com2 m2 cnt2 a0 a1 a2 a3 a4 a5 rc.2 a7).bounds
                  = (ONode.branch b com m cnt a0 a1 a2 a3 a4 a5 a6 a7).bounds) ∧
              ((ONode.branch b com m cnt a0 a1 a2 a3 a4 a5 a6
                  a7).boundsOKb = true →
                (ONode.branch b com2 m2 cnt2 a0 a1 a2 a3 a4 a5 rc.2 a7).boundsOKb = true) ∧
              (∀ f2, (ONode.branch b com m cnt a0 a1 a2 a3 a4 a5 a6
                  a7).depthOKb f2 = true →
                (ONode.branch b com2 m2 cnt2 a0 a1 a2 a3 a4 a5 rc.2 a7).depthOKb f2 = true) := by
            intro com2 m2 cnt2
            refine ⟨rfl, ?_, ?_⟩
            · intro hbo
              simp only [ONode.boundsOKb, Bool.and_eq_true,
                decide_eq_true_eq] at hbo ⊢
              obtain ⟨⟨⟨⟨⟨⟨⟨⟨⟨⟨⟨⟨⟨⟨⟨⟨hwf, hc0⟩, hc1⟩, hc2⟩, hc3⟩, hc4⟩, hc5⟩, hc6⟩, hc7⟩, hq0⟩, hq1⟩, hq2⟩, hq3⟩, hq4⟩, hq5⟩, hq6⟩, hq7⟩ := hbo
              exact ⟨⟨⟨⟨⟨⟨⟨⟨⟨⟨⟨⟨⟨⟨⟨⟨hwf, hc0⟩, hc1⟩, hc2⟩, hc3⟩, hc4⟩, hc5⟩, (by rw [ihh.1]; exact hc6)⟩, hc7⟩, hq0⟩, hq1⟩, hq2⟩, hq3⟩, hq4⟩, hq5⟩, (ihh.2.1 hq6)⟩, hq7⟩
            · intro f2 hdo
              cases f2 with
              | zero => simp [ONode.depthOKb] at hdo
              | succ k2 =>
                simp only [ONode.depthOKb, Bool.and_eq_true] at hdo ⊢
                obtain ⟨⟨⟨⟨⟨⟨⟨hd0, hd1⟩, hd2⟩, hd3⟩, hd4⟩, hd5⟩, hd6⟩, hd7⟩ := hdo
                exact ⟨⟨⟨⟨⟨⟨⟨hd0, hd1⟩, hd2⟩, hd3⟩, hd4⟩, hd5⟩, (ihh.2.2 k2 hd6)⟩, hd7⟩
          by_cases hbb : rc.1 = true
          · rw [if_neg (by simp [hbb])] at h
            by_cases hcnt : cnt < minp
            · rw [if_pos hcnt] at h
              injection h with h2
              rw [← h2]
              refine ⟨rfl, ?_, ?_⟩
              · intro hbo
                simp only [ONode.boundsOKb, Bool.and_eq_true,
                  decide_eq_true_eq] at hbo
                obtain ⟨⟨⟨⟨⟨⟨⟨⟨⟨⟨⟨⟨⟨⟨⟨⟨hwf, hc0⟩, hc1⟩, hc2⟩, hc3⟩, hc4⟩, hc5⟩, hc6⟩, hc7⟩, hq0⟩, hq1⟩, hq2⟩, hq3⟩, hq4⟩, hq5⟩, hq6⟩, hq7⟩ := hbo
                simp only [ONode.boundsOKb]
                exact hwf
              · intro f2 _
                cases f2 <;> simp [ONode.depthOKb]
            · rw [if_neg hcnt] at h
              injection h with h2
              rw [← h2]
              dsimp only [setAgg]
              exact hkeep _ _ _
          · have hb0 : rc.1 = false := by simpa using hbb
            rw [if_pos (by simp [hb0])] at h
            injection h with h2
            rw [← h2]
            exact hkeep _ _ _
      · dsimp only at h
        cases hrm : a7.remove node_id pos minp with
        | none =>
          rw [hrm] at h
          simp at h
        | some rc =>
          rw [hrm] at h
          rw [Option.map_some', Option.some_bind] at h
          have ihh := ih7 rc hrm
          have hkeep : ∀ com2 m2 cnt2,
              ((ONode.branch b com2 m2 cnt2 a0 a1 a2 a3 a4 a5 a6 rc.2).bounds
                  = (ONode.branch b com m cnt a0 a1 a2 a3 a4 a5 a6 a7).bounds) ∧
              ((ONode.branch b com m cnt a0 a1 a2 a3 a4 a5 a6
                  a7).boundsOKb = true →
                (ONode.branch b com2 m2 cnt2 a0 a1 a2 a3 a4 a5 a6 rc.2).boundsOKb = true) ∧
              (∀ f2, (ONode.branch b com m cnt a0 a1 a2 a3 a4 a5 a6
                  a7).depthOKb f2 = true →
                (ONode.branch b com2 m2 cnt2 a0 a1 a2 a3 a4 a5 a6 rc.2).depthOKb f2 = true) := by
            intro com2 m2 cnt2
            refine ⟨rfl, ?_, ?_⟩
            · intro hbo
              simp only [ONode.boundsOKb, Bool.and_eq_true,
                decide_eq_true_eq] at hbo ⊢
              obtain ⟨⟨⟨⟨⟨⟨⟨⟨⟨⟨⟨⟨⟨⟨⟨⟨hwf, hc0⟩, hc1⟩, hc2⟩, hc3⟩, hc4⟩, hc5⟩, hc6⟩, hc7⟩, hq0⟩, hq1⟩, hq2⟩, hq3⟩, hq4⟩, hq5⟩, hq6⟩, hq7⟩ := hbo
              exact ⟨⟨⟨⟨⟨⟨⟨⟨⟨⟨⟨⟨⟨⟨⟨⟨hwf, hc0⟩, hc1⟩, hc2⟩, hc3⟩, hc4⟩, hc5⟩, hc6⟩, (by rw [ihh.1]; exact hc7)⟩, hq0⟩, hq1⟩, hq2⟩, hq3⟩, hq4⟩, hq5⟩, hq6⟩, (ihh.2.1 hq7)⟩
            · intro f2 hdo
              cases f2 with
              | zero => simp [ONode.depthOKb] at hdo
              | succ k2 =>
                simp only [ONode.depthOKb, Bool.and_eq_true] at hdo ⊢
                obtain ⟨⟨⟨⟨⟨⟨⟨hd0, hd1⟩, hd2⟩, hd3⟩, hd4⟩, hd5⟩, hd6⟩, hd7⟩ := hdo
                exact ⟨⟨⟨⟨⟨⟨⟨hd0, hd1⟩, hd2⟩, hd3⟩, hd4⟩, hd5⟩, hd6⟩, (ihh.2.2 k2 hd7)⟩
          by_cases hbb : rc.1 = true
          · rw [if_neg (by simp [hbb])] at h
            by_cases hcnt : cnt < minp
            · rw [if_pos hcnt] at h
              injection h with h2
              rw [← h2]
              refine ⟨rfl, ?_, ?_⟩
              · intro hbo
                simp only [ONode.boundsOKb, Bool.and_eq_true,
                  decide_eq_true_eq] at hbo
                obtain ⟨⟨⟨⟨⟨⟨⟨⟨⟨⟨⟨⟨⟨⟨⟨⟨hwf, hc0⟩, hc1⟩, hc2⟩, hc3⟩, hc4⟩, hc5⟩, hc6⟩, hc7⟩, hq0⟩, hq1⟩, hq2⟩, hq3⟩, hq4⟩, hq5⟩, hq6⟩, hq7⟩ := hbo
                simp only [ONode.boundsOKb]
                exact hwf
              · intro f2 _
                cases f2 <;> simp [ONode.depthOKb]
            · rw [if_neg hcnt] at h
              injection h with h2
              rw [← h2]
              dsimp only [setAgg]
              exact hkeep _ _ _
          · have hb0 : rc.1 = false := by simpa using hbb
            rw [if_pos (by simp [hb0])] at h
            injection h with h2
            rw [← h2]
            exact hkeep _ _ _

def ONode.isBranchB : ONode → Bool
  | .leaf _ _ _ _ _ => false
  | .branch _ _ _ _ _ _ _ _ _ _ _ _ => true

/-- The incremental centre-of-mass update performed by `insert`. -/
def insCom (com : Vec3Q) (m : Q) (p : Vec3Q) (mass : Q) : Vec3Q :=
  if Q.lt Q.zero (m.add mass) then
    ((com.smul m).add (p.smul mass)).sdiv (m.add mass)
  else p

/-- One redistribution step of `subdivide`: insert one point directly into
    the octant child (no parent aggregate update). -/
def redisStep (k maxl : Nat) (acc : ONode) (ip : Nat × Vec3Q) :
    Option ONode :=
  match acc with
  | ONode.leaf _ _ _ _ _ => none
  | ONode.branch bb bcom bm bcnt a0 a1 a2 a3 a4 a5 a6 a7 =>
    (insertGo k ([a0, a1, a2, a3, a4, a5, a6,
        a7].getD (bb.octant_index ip.2) a0)
      ip.1 ip.2 NODE_MASS maxl).bind fun cnew =>
      mkBranch bb bcom bm bcnt
        ([a0, a1, a2, a3, a4, a5, a6, a7].set
          (bb.octant_index ip.2) cnew)

theorem insertGo_zero_leaf (b : Bounds) (com : Vec3Q) (m : Q) (cnt : Nat)
    (pts : List (Nat × Vec3Q)) (node_id : Nat) (p : Vec3Q) (mass : Q)
    (maxl : Nat) :
    insertGo 0 (ONode.leaf b com m cnt pts) node_id p mass maxl
      = some (ONode.leaf b (insCom com m p mass) (m.add mass) (cnt + 1)
          (pts ++ [(node_id, p)])) := rfl

theorem insertGo_succ_leaf_small (k : Nat) (b : Bounds) (com : Vec3Q)
    (m : Q) (cnt : Nat) (pts : List (Nat × Vec3Q)) (node_id : Nat)
    (p : Vec3Q) (mass : Q) (maxl : Nat)
    (h : ¬ (pts ++ [(node_id, p)]).length > maxl) :
    insertGo (k + 1) (ONode.leaf b com m cnt pts) node_id p mass maxl
      = some (ONode.leaf b (insCom com m p mass) (m.add mass) (cnt + 1)
          (pts ++ [(node_id, p)])) := by
  unfold insertGo
  simp only [insCom]
  rw [if_neg h]

theorem insertGo_succ_leaf_split (k : Nat) (b : Bounds) (com : Vec3Q)
    (m : Q) (cnt : Nat) (pts : List (Nat × Vec3Q)) (node_id : Nat)
    (p : Vec3Q) (mass : Q) (maxl : Nat)
    (h : (pts ++ [(node_id, p)]).length > maxl) :
    insertGo (k + 1) (ONode.leaf b com m cnt pts) node_id p mass maxl
      = (pts ++ [(node_id, p)]).foldlM (redisStep k maxl)
          (ONode.branch b (insCom com m p mass) (m.add mass) (cnt + 1)
            (ONode.newNode (b.octant 0)) (ONode.newNode (b.octant 1))
            (ONode.newNode (b.octant 2)) (ONode.newNode (b.octant 3))
            (ONode.newNode (b.octant 4)) (ONode.newNode (b.octant 5))
            (ONode.newNode (b.octant 6)) (ONode.newNode (b.octant 7))) := by
  unfold insertGo redisStep
  simp only [insCom]
  rw [if_pos h]

theorem insertGo_succ_branch (k : Nat) (b : Bounds) (com : Vec3Q) (m : Q)
    (cnt : Nat) (a0 a1 a2 a3 a4 a5 a6 a7 : ONode) (node_id : Nat)
    (p : Vec3Q) (mass : Q) (maxl : Nat) :
    insertGo (k + 1)
        (ONode.branch b com m cnt a0 a1 a2 a3 a4 a5 a6 a7)
        node_id p mass maxl
      = (insertGo k ([a0, a1, a2, a3, a4, a5, a6, a7].getD
            (b.octant_index p) a0) node_id p mass maxl).bind fun cnew =>
          mkBranch b (insCom com m p mass) (m.add mass) (cnt + 1)
            ([a0, a1, a2, a3, a4, a5, a6, a7].set (b.octant_index p)
              cnew) := rfl

theorem insertGo_zero_branch (b : Bounds) (com : Vec3Q) (m : Q)
    (cnt : Nat) (a0 a1 a2 a3 a4 a5 a6 a7 : ONode) (node_id : Nat)
    (p : Vec3Q) (mass : Q) (maxl : Nat) :
    insertGo 0 (ONode.branch b com m cnt a0 a1 a2 a3 a4 a5 a6 a7)
      node_id p mass maxl = none := rfl

theorem branch_repl_0 (b : Bounds) (bcom : Vec3Q) (bm : Q) (bcnt : Nat)
    (bcom2 : Vec3Q) (bm2 : Q) (bcnt2 : Nat)
    (x0 x1 x2 x3 x4 x5 x6 x7 cnew : ONode) (k : Nat)
    (hbo : (ONode.branch b bcom bm bcnt x0 x1 x2 x3 x4 x5 x6 x7).boundsOKb = true)
    (hbnd : cnew.bounds = x0.bounds)
    (hcb : cnew.boundsOKb = true)
    (hdep : x0.depthOKb k = true → cnew.depthOKb k = true)
    (hmono : ∀ q ∈ x0.collect, q ∈ cnew.collect)
    (hpos : ∀ q ∈ cnew.collect, q.2.posP)
    (hesc : x0.escapedB = true → cnew.escapedB = true) :
    (ONode.branch b bcom2 bm2 bcnt2 cnew x1 x2 x3 x4 x5 x6 x7).boundsOKb = true ∧
    ((ONode.branch b bcom bm bcnt x0 x1 x2 x3 x4 x5 x6 x7).depthOKb (k + 1) = true →
      (ONode.branch b bcom2 bm2 bcnt2 cnew x1 x2 x3 x4 x5 x6 x7).depthOKb (k + 1) = true) ∧
    (∀ q ∈ (ONode.branch b bcom bm bcnt x0 x1 x2 x3 x4 x5 x6 x7).collect, q ∈ (ONode.branch b bcom2 bm2 bcnt2 cnew x1 x2 x3 x4 x5 x6 x7).collect) ∧
    (∀ q ∈ cnew.collect, q ∈ (ONode.branch b bcom2 bm2 bcnt2 cnew x1 x2 x3 x4 x5 x6 x7).collect) ∧
    ((∀ q ∈ (ONode.branch b bcom bm bcnt x0 x1 x2 x3 x4 x5 x6 x7).collect, q.2.posP) →
      ∀ q ∈ (ONode.branch b bcom2 bm2 bcnt2 cnew x1 x2 x3 x4 x5 x6 x7).collect, q.2.posP) ∧
    ((ONode.branch b bcom bm bcnt x0 x1 x2 x3 x4 x5 x6 x7).escapedB = true → (ONode.branch b bcom2 bm2 bcnt2 cnew x1 x2 x3 x4 x5 x6 x7).escapedB = true) ∧
    (cnew.escapedB = true → (ONode.branch b bcom2 bm2 bcnt2 cnew x1 x2 x3 x4 x5 x6 x7).escapedB = true) := by
  refine ⟨?_, ?_, ?_, ?_, ?_, ?_, ?_⟩
  · simp only [ONode.boundsOKb, Bool.and_eq_true,
      decide_eq_true_eq] at hbo ⊢
    obtain ⟨⟨⟨⟨⟨⟨⟨⟨⟨⟨⟨⟨⟨⟨⟨⟨hwf, hc0⟩, hc1⟩, hc2⟩, hc3⟩, hc4⟩, hc5⟩, hc6⟩, hc7⟩, hq0⟩, hq1⟩, hq2⟩, hq3⟩, hq4⟩, hq5⟩, hq6⟩, hq7⟩ := hbo
    exact ⟨⟨⟨⟨⟨⟨⟨⟨⟨⟨⟨⟨⟨⟨⟨⟨hwf, (hbnd ▸ hc0)⟩, hc1⟩, hc2⟩, hc3⟩, hc4⟩, hc5⟩, hc6⟩, hc7⟩, hcb⟩, hq1⟩, hq2⟩, hq3⟩, hq4⟩, hq5⟩, hq6⟩, hq7⟩
  · intro hdo
    simp only [ONode.depthOKb, Bool.and_eq_true] at hdo ⊢
    obtain ⟨⟨⟨⟨⟨⟨⟨hd0, hd1⟩, hd2⟩, hd3⟩, hd4⟩, hd5⟩, hd6⟩, hd7⟩ := hdo
    exact ⟨⟨⟨⟨⟨⟨⟨(hdep hd0), hd1⟩, hd2⟩, hd3⟩, hd4⟩, hd5⟩, hd6⟩, hd7⟩
  · intro q hq
    simp only [ONode.collect, List.mem_append] at hq ⊢
    rcases hq with ((((((hm0 | hm1) | hm2) | hm3) | hm4) | hm5) | hm6) | hm7
    · exact Or.inl (Or.inl (Or.inl (Or.inl (Or.inl (Or.inl (Or.inl (hmono q hm0)))))))
    · exact Or.inl (Or.inl (Or.inl (Or.inl (Or.inl (Or.inl (Or.inr (hm1)))))))
    · exact Or.inl (Or.inl (Or.inl (Or.inl (Or.inl (Or.inr (hm2))))))
    · exact Or.inl (Or.inl (Or.inl (Or.inl (Or.inr (hm3)))))
    · exact Or.inl (Or.inl (Or.inl (Or.inr (hm4))))
    · exact Or.inl (Or.inl (Or.inr (hm5)))
    · exact Or.inl (Or.inr (hm6))
    · exact Or.inr (hm7)
  · intro q hq2
    simp only [ONode.collect, List.mem_append]
    exact Or.inl (Or.inl (Or.inl (Or.inl (Or.inl (Or.inl (Or.inl (hq2)))))))
  · intro hold q hq
    simp only [ONode.collect, List.mem_append] at hq
    simp only [ONode.collect, List.mem_append] at hold
    rcases hq with ((((((hm0 | hm1) | hm2) | hm3) | hm4) | hm5) | hm6) | hm7
    · exact hpos q hm0
    · exact hold q (Or.inl (Or.inl (Or.inl (Or.inl (Or.inl (Or.inl (Or.inr (hm1))))))))
    · exact hold q (Or.inl (Or.inl (Or.inl (Or.inl (Or.inl (Or.inr (hm2)))))))
    · exact hold q (Or.inl (Or.inl (Or.inl (Or.inl (Or.inr (hm3))))))
    · exact hold q (Or.inl (Or.inl (Or.inl (Or.inr (hm4)))))
    · exact hold q (Or.inl (Or.inl (Or.inr (hm5))))
    · exact hold q (Or.inl (Or.inr (hm6)))
    · exact hold q (Or.inr (hm7))
  · intro hescold
    simp only [ONode.escapedB, Bool.or_eq_true] at hescold ⊢
    rcases hescold with ((((((hm0 | hm1) | hm2) | hm3) | hm4) | hm5) | hm6) | hm7
    · exact Or.inl (Or.inl (Or.inl (Or.inl (Or.inl (Or.inl (Or.inl (hesc hm0)))))))
    · exact Or.inl (Or.inl (Or.inl (Or.inl (Or.inl (Or.inl (Or.inr (hm1)))))))
    · exact Or.inl (Or.inl (Or.inl (Or.inl (Or.inl (Or.inr (hm2))))))
    · exact Or.inl (Or.inl (Or.inl (Or.inl (Or.inr (hm3)))))
    · exact Or.inl (Or.inl (Or.inl (Or.inr (hm4))))
    · exact Or.inl (Or.inl (Or.inr (hm5)))
    · exact Or.inl (Or.inr (hm6))
    · exact Or.inr (hm7)
  · intro hq2
    simp only [ONode.escapedB, Bool.or_eq_true]
    exact Or.inl (Or.inl (Or.inl (Or.inl (Or.inl (Or.inl (Or.inl (hq2)))))))

theorem branch_repl_1 (b : Bounds) (bcom : Vec3Q) (bm : Q) (bcnt : Nat)
    (bcom2 : Vec3Q) (bm2 : Q) (bcnt2 : Nat)
    (x0 x1 x2 x3 x4 x5 x6 x7 cnew : ONode) (k : Nat)
    (hbo : (ONode.branch b bcom bm bcnt x0 x1 x2 x3 x4 x5 x6 x7).boundsOKb = true)
    (hbnd : cnew.bounds = x1.bounds)
    (hcb : cnew.boundsOKb = true)
    (hdep : x1.depthOKb k = true → cnew.depthOKb k = true)
    (hmono : ∀ q ∈ x1.collect, q ∈ cnew.collect)
    (hpos : ∀ q ∈ cnew.collect, q.2.posP)
    (hesc : x1.escapedB = true → cnew.escapedB = true) :
    (ONode.branch b bcom2 bm2 bcnt2 x0 cnew x2 x3 x4 x5 x6 x7).boundsOKb = true ∧
    ((ONode.branch b bcom bm bcnt x0 x1 x2 x3 x4 x5 x6 x7).depthOKb (k + 1) = true →
      (ONode.branch b bcom2 bm2 bcnt2 x0 cnew x2 x3 x4 x5 x6 x7).depthOKb (k + 1) = true) ∧
    (∀ q ∈ (ONode.branch b bcom bm bcnt x0 x1 x2 x3 x4 x5 x6 x7).collect, q ∈ (ONode.branch b bcom2 bm2 bcnt2 x0 cnew x2 x3 x4 x5 x6 x7).collect) ∧
    (∀ q ∈ cnew.collect, q ∈ (ONode.branch b bcom2 bm2 bcnt2 x0 cnew x2 x3 x4 x5 x6 x7).collect) ∧
    ((∀ q ∈ (ONode.branch b bcom bm bcnt x0 x1 x2 x3 x4 x5 x6 x7).collect, q.2.posP) →
      ∀ q ∈ (ONode.branch b bcom2 bm2 bcnt2 x0 cnew x2 x3 x4 x5 x6 x7).collect, q.2.posP) ∧
    ((ONode.branch b bcom bm bcnt x0 x1 x2 x3 x4 x5 x6 x7).escapedB = true → (ONode.branch b bcom2 bm2 bcnt2 x0 cnew x2 x3 x4 x5 x6 x7).escapedB = true) ∧
    (cnew.escapedB = true → (ONode.branch b bcom2 bm2 bcnt2 x0 cnew x2 x3 x4 x5 x6 x7).escapedB = true) := by
  refine ⟨?_, ?_, ?_, ?_, ?_, ?_, ?_⟩
  · simp only [ONode.boundsOKb, Bool.and_eq_true,
      decide_eq_true_eq] at hbo ⊢
    obtain ⟨⟨⟨⟨⟨⟨⟨⟨⟨⟨⟨⟨⟨⟨⟨⟨hwf, hc0⟩, hc1⟩, hc2⟩, hc3⟩, hc4⟩, hc5⟩, hc6⟩, hc7⟩, hq0⟩, hq1⟩, hq2⟩, hq3⟩, hq4⟩, hq5⟩, hq6⟩, hq7⟩ := hbo
    exact ⟨⟨⟨⟨⟨⟨⟨⟨⟨⟨⟨⟨⟨⟨⟨⟨hwf, hc0⟩, (hbnd ▸ hc1)⟩, hc2⟩, hc3⟩, hc4⟩, hc5⟩, hc6⟩, hc7⟩, hq0⟩, hcb⟩, hq2⟩, hq3⟩, hq4⟩, hq5⟩, hq6⟩, hq7⟩
  · intro hdo
    simp only [ONode.depthOKb, Bool.and_eq_true] at hdo ⊢
    obtain ⟨⟨⟨⟨⟨⟨⟨hd0, hd1⟩, hd2⟩, hd3⟩, hd4⟩, hd5⟩, hd6⟩, hd7⟩ := hdo
    exact ⟨⟨⟨⟨⟨⟨⟨hd0, (hdep hd1)⟩, hd2⟩, hd3⟩, hd4⟩, hd5⟩, hd6⟩, hd7⟩
  · intro q hq
    simp only [ONode.collect, List.mem_append] at hq ⊢
    rcases hq with ((((((hm0 | hm1) | hm2) | hm3) | hm4) | hm5) | hm6) | hm7
    · exact Or.inl (Or.inl (Or.inl (Or.inl (Or.inl (Or.inl (Or.inl (hm0)))))))
    · exact Or.inl (Or.inl (Or.inl (Or.inl (Or.inl (Or.inl (Or.inr (hmono q hm1)))))))
    · exact Or.inl (Or.inl (Or.inl (Or.inl (Or.inl (Or.inr (hm2))))))
    · exact Or.inl (Or.inl (Or.inl (Or.inl (Or.inr (hm3)))))
    · exact Or.inl (Or.inl (Or.inl (Or.inr (hm4))))
    · exact Or.inl (Or.inl (Or.inr (hm5)))
    · exact Or.inl (Or.inr (hm6))
    · exact Or.inr (hm7)
  · intro q hq2
    simp only [ONode.collect, List.mem_append]
    exact Or.inl (Or.inl (Or.inl (Or.inl (Or.inl (Or.inl (Or.inr (hq2)))))))
  · intro hold q hq
    simp only [ONode.collect, List.mem_append] at hq
    simp only [ONode.collect, List.mem_append] at hold
    rcases hq with ((((((hm0 | hm1) | hm2) | hm3) | hm4) | hm5) | hm6) | hm7
    · exact hold q (Or.inl (Or.inl (Or.inl (Or.inl (Or.inl (Or.inl (Or.inl (hm0))))))))
    · exact hpos q hm1
    · exact hold q (Or.inl (Or.inl (Or.inl (Or.inl (Or.inl (Or.inr (hm2)))))))
    · exact hold q (Or.inl (Or.inl (Or.inl (Or.inl (Or.inr (hm3))))))
    · exact hold q (Or.inl (Or.inl (Or.inl (Or.inr (hm4)))))
    · exact hold q (Or.inl (Or.inl (Or.inr (hm5))))
    · exact hold q (Or.inl (Or.inr (hm6)))
    · exact hold q (Or.inr (hm7))
  · intro hescold
    simp only [ONode.escapedB, Bool.or_eq_true] at hescold ⊢
    rcases hescold with ((((((hm0 | hm1) | hm2) | hm3) | hm4) | hm5) | hm6) | hm7
    · exact Or.inl (Or.inl (Or.inl (Or.inl (Or.inl (Or.inl (Or.inl (hm0)))))))
    · exact Or.inl (Or.inl (Or.inl (Or.inl (Or.inl (Or.inl (Or.inr (hesc hm1)))))))
    · exact Or.inl (Or.inl (Or.inl (Or.inl (Or.inl (Or.inr (hm2))))))
    · exact Or.inl (Or.inl (Or.inl (Or.inl (Or.inr (hm3)))))
    · exact Or.inl (Or.inl (Or.inl (Or.inr (hm4))))
    · exact Or.inl (Or.inl (Or.inr (hm5)))
    · exact Or.inl (Or.inr (hm6))
    · exact Or.inr (hm7)
  · intro hq2
    simp only [ONode.escapedB, Bool.or_eq_true]
    exact Or.inl (Or.inl (Or.inl (Or.inl (Or.inl (Or.inl (Or.inr (hq2)))))))

theorem branch_repl_2 (b : Bounds) (bcom : Vec3Q) (bm : Q) (bcnt : Nat)
    (bcom2 : Vec3Q) (bm2 : Q) (bcnt2 : Nat)
    (x0 x1 x2 x3 x4 x5 x6 x7 cnew : ONode) (k : Nat)
    (hbo : (ONode.branch b bcom bm bcnt x0 x1 x2 x3 x4 x5 x6 x7).boundsOKb = true)
    (hbnd : cnew.bounds = x2.bounds)
    (hcb : cnew.boundsOKb = true)
    (hdep : x2.depthOKb k = true → cnew.depthOKb k = true)
    (hmono : ∀ q ∈ x2.collect, q ∈ cnew.collect)
    (hpos : ∀ q ∈ cnew.collect, q.2.posP)
    (hesc : x2.escapedB = true → cnew.escapedB = true) :
    (ONode.branch b bcom2 bm2 bcnt2 x0 x1 cnew x3 x4 x5 x6 x7).boundsOKb = true ∧
    ((ONode.branch b bcom bm bcnt x0 x1 x2 x3 x4 x5 x6 x7).depthOKb (k + 1) = true →
      (ONode.branch b bcom2 bm2 bcnt2 x0 x1 cnew x3 x4 x5 x6 x7).depthOKb (k + 1) = true) ∧
    (∀ q ∈ (ONode.branch b bcom bm bcnt x0 x1 x2 x3 x4 x5 x6 x7).collect, q ∈ (ONode.branch b bcom2 bm2 bcnt2 x0 x1 cnew x3 x4 x5 x6 x7).collect) ∧
    (∀ q ∈ cnew.collect, q ∈ (ONode.branch b bcom2 bm2 bcnt2 x0 x1 cnew x3 x4 x5 x6 x7).collect) ∧
    ((∀ q ∈ (ONode.branch b bcom bm bcnt x0 x1 x2 x3 x4 x5 x6 x7).collect, q.2.posP) →
      ∀ q ∈ (ONode.branch b bcom2 bm2 bcnt2 x0 x1 cnew x3 x4 x5 x6 x7).collect, q.2.posP) ∧
    ((ONode.branch b bcom bm bcnt x0 x1 x2 x3 x4 x5 x6 x7).escapedB = true → (ONode.branch b bcom2 bm2 bcnt2 x0 x1 cnew x3 x4 x5 x6 x7).escapedB = true) ∧
    (cnew.escapedB = true → (ONode.branch b bcom2 bm2 bcnt2 x0 x1 cnew x3 x4 x5 x6 x7).escapedB = true) := by
  refine ⟨?_, ?_, ?_, ?_, ?_, ?_, ?_⟩
  · simp only [ONode.boundsOKb, Bool.and_eq_true,
      decide_eq_true_eq] at hbo ⊢
    obtain ⟨⟨⟨⟨⟨⟨⟨⟨⟨⟨⟨⟨⟨⟨⟨⟨hwf, hc0⟩, hc1⟩, hc2⟩, hc3⟩, hc4⟩, hc5⟩, hc6⟩, hc7⟩, hq0⟩, hq1⟩, hq2⟩, hq3⟩, hq4⟩, hq5⟩, hq6⟩, hq7⟩ := hbo
    exact ⟨⟨⟨⟨⟨⟨⟨⟨⟨⟨⟨⟨⟨⟨⟨⟨hwf, hc0⟩, hc1⟩, (hbnd ▸ hc2)⟩, hc3⟩, hc4⟩, hc5⟩, hc6⟩, hc7⟩, hq0⟩, hq1⟩, hcb⟩, hq3⟩, hq4⟩, hq5⟩, hq6⟩, hq7⟩
  · intro hdo
    simp only [ONode.depthOKb, Bool.and_eq_true] at hdo ⊢
    obtain ⟨⟨⟨⟨⟨⟨⟨hd0, hd1⟩, hd2⟩, hd3⟩, hd4⟩, hd5⟩, hd6⟩, hd7⟩ := hdo
    exact ⟨⟨⟨⟨⟨⟨⟨hd0, hd1⟩, (hdep hd2)⟩, hd3⟩, hd4⟩, hd5⟩, hd6⟩, hd7⟩
  · intro q hq
    simp only [ONode.collect, List.mem_append] at hq ⊢
    rcases hq with ((((((hm0 | hm1) | hm2) | hm3) | hm4) | hm5) | hm6) | hm7
    · exact Or.inl (Or.inl (Or.inl (Or.inl (Or.inl (Or.inl (Or.inl (hm0)))))))
    · exact Or.inl (Or.inl (Or.inl (Or.inl (Or.inl (Or.inl (Or.inr (hm1)))))))
    · exact Or.inl (Or.inl (Or.inl (Or.inl (Or.inl (Or.inr (hmono q hm2))))))
    · exact Or.inl (Or.inl (Or.inl (Or.inl (Or.inr (hm3)))))
    · exact Or.inl (Or.inl (Or.inl (Or.inr (hm4))))
    · exact Or.inl (Or.inl (Or.inr (hm5)))
    · exact Or.inl (Or.inr (hm6))
    · exact Or.inr (hm7)
  · intro q hq2
    simp only [ONode.collect, List.mem_append]
    exact Or.inl (Or.inl (Or.inl (Or.inl (Or.inl (Or.inr (hq2))))))
  · intro hold q hq
    simp only [ONode.collect, List.mem_append] at hq
    simp only [ONode.collect, List.mem_append] at hold
    rcases hq with ((((((hm0 | hm1) | hm2) | hm3) | hm4) | hm5) | hm6) | hm7
    · exact hold q (Or.inl (Or.inl (Or.inl (Or.inl (Or.inl (Or.inl (Or.inl (hm0))))))))
    · exact hold q (Or.inl (Or.inl (Or.inl (Or.inl (Or.inl (Or.inl (Or.inr (hm1))))))))
    · exact hpos q hm2
    · exact hold q (Or.inl (Or.inl (Or.inl (Or.inl (Or.inr (hm3))))))
    · exact hold q (Or.inl (Or.inl (Or.inl (Or.inr (hm4)))))
    · exact hold q (Or.inl (Or.inl (Or.inr (hm5))))
    · exact hold q (Or.inl (Or.inr (hm6)))
    · exact hold q (Or.inr (hm7))
  · intro hescold
    simp only [ONode.escapedB, Bool.or_eq_true] at hescold ⊢
    rcases hescold with ((((((hm0 | hm1) | hm2) | hm3) | hm4) | hm5) | hm6) | hm7
    · exact Or.inl (Or.inl (Or.inl (Or.inl (Or.inl (Or.inl (Or.inl (hm0)))))))
    · exact Or.inl (Or.inl (Or.inl (Or.inl (Or.inl (Or.inl (Or.inr (hm1)))))))
    · exact Or.inl (Or.inl (Or.inl (Or.inl (Or.inl (Or.inr (hesc hm2))))))
    · exact Or.inl (Or.inl (Or.inl (Or.inl (Or.inr (hm3)))))
    · exact Or.inl (Or.inl (Or.inl (Or.inr (hm4))))
    · exact Or.inl (Or.inl (Or.inr (hm5)))
    · exact Or.inl (Or.inr (hm6))
    · exact Or.inr (hm7)
  · intro hq2
    simp only [ONode.escapedB, Bool.or_eq_true]
    exact Or.inl (Or.inl (Or.inl (Or.inl (Or.inl (Or.inr (hq2))))))

theorem branch_repl_3 (b : Bounds) (bcom : Vec3Q) (bm : Q) (bcnt : Nat)
    (bcom2 : Vec3Q) (bm2 : Q) (bcnt2 : Nat)
    (x0 x1 x2 x3 x4 x5 x6 x7 cnew : ONode) (k : Nat)
    (hbo : (ONode.branch b bcom bm bcnt x0 x1 x2 x3 x4 x5 x6 x7).boundsOKb = true)
    (hbnd : cnew.bounds = x3.bounds)
    (hcb : cnew.boundsOKb = true)
    (hdep : x3.depthOKb k = true → cnew.depthOKb k = true)
    (hmono : ∀ q ∈ x3.collect, q ∈ cnew.collect)
    (hpos : ∀ q ∈ cnew.collect, q.2.posP)
    (hesc : x3.escapedB = true → cnew.escapedB = true) :
    (ONode.branch b bcom2 bm2 bcnt2 x0 x1 x2 cnew x4 x5 x6 x7).boundsOKb = true ∧
    ((ONode.branch b bcom bm bcnt x0 x1 x2 x3 x4 x5 x6 x7).depthOKb (k + 1) = true →
      (ONode.branch b bcom2 bm2 bcnt2 x0 x1 x2 cnew x4 x5 x6 x7).depthOKb (k + 1) = true) ∧
    (∀ q ∈ (ONode.branch b bcom bm bcnt x0 x1 x2 x3 x4 x5 x6 x7).collect, q ∈ (ONode.branch b bcom2 bm2 bcnt2 x0 x1 x2 cnew x4 x5 x6 x7).collect) ∧
    (∀ q ∈ cnew.collect, q ∈ (ONode.branch b bcom2 bm2 bcnt2 x0 x1 x2 cnew x4 x5 x6 x7).collect) ∧
    ((∀ q ∈ (ONode.branch b bcom bm bcnt x0 x1 x2 x3 x4 x5 x6 x7).collect, q.2.posP) →
      ∀ q ∈ (ONode.branch b bcom2 bm2 bcnt2 x0 x1 x2 cnew x4 x5 x6 x7).collect, q.2.posP) ∧
    ((ONode.branch b bcom bm bcnt x0 x1 x2 x3 x4 x5 x6 x7).escapedB = true → (ONode.branch b bcom2 bm2 bcnt2 x0 x1 x2 cnew x4 x5 x6 x7).escapedB = true) ∧
    (cnew.escapedB = true → (ONode.branch b bcom2 bm2 bcnt2 x0 x1 x2 cnew x4 x5 x6 x7).escapedB = true) := by
  refine ⟨?_, ?_, ?_, ?_, ?_, ?_, ?_⟩
  · simp only [ONode.boundsOKb, Bool.and_eq_true,
      decide_eq_true_eq] at hbo ⊢
    obtain ⟨⟨⟨⟨⟨⟨⟨⟨⟨⟨⟨⟨⟨⟨⟨⟨hwf, hc0⟩, hc1⟩, hc2⟩, hc3⟩, hc4⟩, hc5⟩, hc6⟩, hc7⟩, hq0⟩, hq1⟩, hq2⟩, hq3⟩, hq4⟩, hq5⟩, hq6⟩, hq7⟩ := hbo
    exact ⟨⟨⟨⟨⟨⟨⟨⟨⟨⟨⟨⟨⟨⟨⟨⟨hwf, hc0⟩, hc1⟩, hc2⟩, (hbnd ▸ hc3)⟩, hc4⟩, hc5⟩, hc6⟩, hc7⟩, hq0⟩, hq1⟩, hq2⟩, hcb⟩, hq4⟩, hq5⟩, hq6⟩, hq7⟩
  · intro hdo
    simp only [ONode.depthOKb, Bool.and_eq_true] at hdo ⊢
    obtain ⟨⟨⟨⟨⟨⟨⟨hd0, hd1⟩, hd2⟩, hd3⟩, hd4⟩, hd5⟩, hd6⟩, hd7⟩ := hdo
    exact ⟨⟨⟨⟨⟨⟨⟨hd0, hd1⟩, hd2⟩, (hdep hd3)⟩, hd4⟩, hd5⟩, hd6⟩, hd7⟩
  · intro q hq
    simp only [ONode.collect, List.mem_append] at hq ⊢
    rcases hq with ((((((hm0 | hm1) | hm2) | hm3) | hm4) | hm5) | hm6) | hm7
    · exact Or.inl (Or.inl (Or.inl (Or.inl (Or.inl (Or.inl (Or.inl (hm0)))))))
    · exact Or.inl (Or.inl (Or.inl (Or.inl (Or.inl (Or.inl (Or.inr (hm1)))))))
    · exact Or.inl (Or.inl (Or.inl (Or.inl (Or.inl (Or.inr (hm2))))))
    · exact Or.inl (Or.inl (Or.inl (Or.inl (Or.inr (hmono q hm3)))))
    · exact Or.inl (Or.inl (Or.inl (Or.inr (hm4))))
    · exact Or.inl (Or.inl (Or.inr (hm5)))
    · exact Or.inl (Or.inr (hm6))
    · exact Or.inr (hm7)
  · intro q hq2
    simp only [ONode.collect, List.mem_append]
    exact Or.inl (Or.inl (Or.inl (Or.inl (Or.inr (hq2)))))
  · intro hold q hq
    simp only [ONode.collect, List.mem_append] at hq
    simp only [ONode.collect, List.mem_append] at hold
    rcases hq with ((((((hm0 | hm1) | hm2) | hm3) | hm4) | hm5) | hm6) | hm7
    · exact hold q (Or.inl (Or.inl (Or.inl (Or.inl (Or.inl (Or.inl (Or.inl (hm0))))))))
    · exact hold q (Or.inl (Or.inl (Or.inl (Or.inl (Or.inl (Or.inl (Or.inr (hm1))))))))
    · exact hold q (Or.inl (Or.inl (Or.inl (Or.inl (Or.inl (Or.inr (hm2)))))))
    · exact hpos q hm3
    · exact hold q (Or.inl (Or.inl (Or.inl (Or.inr (hm4)))))
    · exact hold q (Or.inl (Or.inl (Or.inr (hm5))))
    · exact hold q (Or.inl (Or.inr (hm6)))
    · exact hold q (Or.inr (hm7))
  · intro hescold
    simp only [ONode.escapedB, Bool.or_eq_true] at hescold ⊢
    rcases hescold with ((((((hm0 | hm1) | hm2) | hm3) | hm4) | hm5) | hm6) | hm7
    · exact Or.inl (Or.inl (Or.inl (Or.inl (Or.inl (Or.inl (Or.inl (hm0)))))))
    · exact Or.inl (Or.inl (Or.inl (Or.inl (Or.inl (Or.inl (Or.inr (hm1)))))))
    · exact Or.inl (Or.inl (Or.inl (Or.inl (Or.inl (Or.inr (hm2))))))
    · exact Or.inl (Or.inl (Or.inl (Or.inl (Or.inr (hesc hm3)))))
    · exact Or.inl (Or.inl (Or.inl (Or.inr (hm4))))
    · exact Or.inl (Or.inl (Or.inr (hm5)))
    · exact Or.inl (Or.inr (hm6))
    · exact Or.inr (hm7)
  · intro hq2
    simp only [ONode.escapedB, Bool.or_eq_true]
    exact Or.inl (Or.inl (Or.inl (Or.inl (Or.inr (hq2)))))

theorem branch_repl_4 (b : Bounds) (bcom : Vec3Q) (bm : Q) (bcnt : Nat)
    (bcom2 : Vec3Q) (bm2 : Q) (bcnt2 : Nat)
    (x0 x1 x2 x3 x4 x5 x6 x7 cnew : ONode) (k : Nat)
    (hbo : (ONode.branch b bcom bm bcnt x0 x1 x2 x3 x4 x5 x6 x7).boundsOKb = true)
    (hbnd : cnew.bounds = x4.bounds)
    (hcb : cnew.boundsOKb = true)
    (hdep : x4.depthOKb k = true → cnew.depthOKb k = true)
    (hmono : ∀ q ∈ x4.collect, q ∈ cnew.collect)
    (hpos : ∀ q ∈ cnew.collect, q.2.posP)
    (hesc : x4.escapedB = true → cnew.escapedB = true) :
    (ONode.branch b bcom2 bm2 bcnt2 x0 x1 x2 x3 cnew x5 x6 x7).boundsOKb = true ∧
    ((ONode.branch b bcom bm bcnt x0 x1 x2 x3 x4 x5 x6 x7).depthOKb (k + 1) = true →
      (ONode.branch b bcom2 bm2 bcnt2 x0 x1 x2 x3 cnew x5 x6 x7).depthOKb (k + 1) = true) ∧
    (∀ q ∈ (ONode.branch b bcom bm bcnt x0 x1 x2 x3 x4 x5 x6 x7).collect, q ∈ (ONode.branch b bcom2 bm2 bcnt2 x0 x1 x2 x3 cnew x5 x6 x7).collect) ∧
    (∀ q ∈ cnew.collect, q ∈ (ONode.branch b bcom2 bm2 bcnt2 x0 x1 x2 x3 cnew x5 x6 x7).collect) ∧
    ((∀ q ∈ (ONode.branch b bcom bm bcnt x0 x1 x2 x3 x4 x5 x6 x7).collect, q.2.posP) →
      ∀ q ∈ (ONode.branch b bcom2 bm2 bcnt2 x0 x1 x2 x3 cnew x5 x6 x7).collect, q.2.posP) ∧
    ((ONode.branch b bcom bm bcnt x0 x1 x2 x3 x4 x5 x6 x7).escapedB = true → (ONode.branch b bcom2 bm2 bcnt2 x0 x1 x2 x3 cnew x5 x6 x7).escapedB = true) ∧
    (cnew.escapedB = true → (ONode.branch b bcom2 bm2 bcnt2 x0 x1 x2 x3 cnew x5 x6 x7).escapedB = true) := by
  refine ⟨?_, ?_, ?_, ?_, ?_, ?_, ?_⟩
  · simp only [ONode.boundsOKb, Bool.and_eq_true,
      decide_eq_true_eq] at hbo ⊢
    obtain ⟨⟨⟨⟨⟨⟨⟨⟨⟨⟨⟨⟨⟨⟨⟨⟨hwf, hc0⟩, hc1⟩, hc2⟩, hc3⟩, hc4⟩, hc5⟩, hc6⟩, hc7⟩, hq0⟩, hq1⟩, hq2⟩, hq3⟩, hq4⟩, hq5⟩, hq6⟩, hq7⟩ := hbo
    exact ⟨⟨⟨⟨⟨⟨⟨⟨⟨⟨⟨⟨⟨⟨⟨⟨hwf, hc0⟩, hc1⟩, hc2⟩, hc3⟩, (hbnd ▸ hc4)⟩, hc5⟩, hc6⟩, hc7⟩, hq0⟩, hq1⟩, hq2⟩, hq3⟩, hcb⟩, hq5⟩, hq6⟩, hq7⟩
  · intro hdo
    simp only [ONode.depthOKb, Bool.and_eq_true] at hdo ⊢
    obtain ⟨⟨⟨⟨⟨⟨⟨hd0, hd1⟩, hd2⟩, hd3⟩, hd4⟩, hd5⟩, hd6⟩, hd7⟩ := hdo
    exact ⟨⟨⟨⟨⟨⟨⟨hd0, hd1⟩, hd2⟩, hd3⟩, (hdep hd4)⟩, hd5⟩, hd6⟩, hd7⟩
  · intro q hq
    simp only [ONode.collect, List.mem_append] at hq ⊢
    rcases hq with ((((((hm0 | hm1) | hm2) | hm3) | hm4) | hm5) | hm6) | hm7
    · exact Or.inl (Or.inl (Or.inl (Or.inl (Or.inl (Or.inl (Or.inl (hm0)))))))
    · exact Or.inl (Or.inl (Or.inl (Or.inl (Or.inl (Or.inl (Or.inr (hm1)))))))
    · exact Or.inl (Or.inl (Or.inl (Or.inl (Or.inl (Or.inr (hm2))))))
    · exact Or.inl (Or.inl (Or.inl (Or.inl (Or.inr (hm3)))))
    · exact Or.inl (Or.inl (Or.inl (Or.inr (hmono q hm4))))
    · exact Or.inl (Or.inl (Or.inr (hm5)))
    · exact Or.inl (Or.inr (hm6))
    · exact Or.inr (hm7)
  · intro q hq2
    simp only [ONode.collect, List.mem_append]
    exact Or.inl (Or.inl (Or.inl (Or.inr (hq2))))
  · intro hold q hq
    simp only [ONode.collect, List.mem_append] at hq
    simp only [ONode.collect, List.mem_append] at hold
    rcases hq with ((((((hm0 | hm1) | hm2) | hm3) | hm4) | hm5) | hm6) | hm7
    · exact hold q (Or.inl (Or.inl (Or.inl (Or.inl (Or.inl (Or.inl (Or.inl (hm0))))))))
    · exact hold q (Or.inl (Or.inl (Or.inl (Or.inl (Or.inl (Or.inl (Or.inr (hm1))))))))
    · exact hold q (Or.inl (Or.inl (Or.inl (Or.inl (Or.inl (Or.inr (hm2)))))))
    · exact hold q (Or.inl (Or.inl (Or.inl (Or.inl (Or.inr (hm3))))))
    · exact hpos q hm4
    · exact hold q (Or.inl (Or.inl (Or.inr (hm5))))
    · exact hold q (Or.inl (Or.inr (hm6)))
    · exact hold q (Or.inr (hm7))
  · intro hescold
    simp only [ONode.escapedB, Bool.or_eq_true] at hescold ⊢
    rcases hescold with ((((((hm0 | hm1) | hm2) | hm3) | hm4) | hm5) | hm6) | hm7
    · exact Or.inl (Or.inl (Or.inl (Or.inl (Or.inl (Or.inl (Or.inl (hm0)))))))
    · exact Or.inl (Or.inl (Or.inl (Or.inl (Or.inl (Or.inl (Or.inr (hm1)))))))
    · exact Or.inl (Or.inl (Or.inl (Or.inl (Or.inl (Or.inr (hm2))))))
    · exact Or.inl (Or.inl (Or.inl (Or.inl (Or.inr (hm3)))))
    · exact Or.inl (Or.inl (Or.inl (Or.inr (hesc hm4))))
    · exact Or.inl (Or.inl (Or.inr (hm5)))
    · exact Or.inl (Or.inr (hm6))
    · exact Or.inr (hm7)
  · intro hq2
    simp only [ONode.escapedB, Bool.or_eq_true]
    exact Or.inl (Or.inl (Or.inl (Or.inr (hq2))))

theorem branch_repl_5 (b : Bounds) (bcom : Vec3Q) (bm : Q) (bcnt : Nat)
    (bcom2 : Vec3Q) (bm2 : Q) (bcnt2 : Nat)
    (x0 x1 x2 x3 x4 x5 x6 x7 cnew : ONode) (k : Nat)
    (hbo : (ONode.branch b bcom bm bcnt x0 x1 x2 x3 x4 x5 x6 x7).boundsOKb = true)
    (hbnd : cnew.bounds = x5.bounds)
    (hcb : cnew.boundsOKb = true)
    (hdep : x5.depthOKb k = true → cnew.depthOKb k = true)
    (hmono : ∀ q ∈ x5.collect, q ∈ cnew.collect)
    (hpos : ∀ q ∈ cnew.collect, q.2.posP)
    (hesc : x5.escapedB = true → cnew.escapedB = true) :
    (ONode.branch b bcom2 bm2 bcnt2 x0 x1 x2 x3 x4 cnew x6 x7).boundsOKb = true ∧
    ((ONode.branch b bcom bm bcnt x0 x1 x2 x3 x4 x5 x6 x7).depthOKb (k + 1) = true →
      (ONode.branch b bcom2 bm2 bcnt2 x0 x1 x2 x3 x4 cnew x6 x7).depthOKb (k + 1) = true) ∧
    (∀ q ∈ (ONode.branch b bcom bm bcnt x0 x1 x2 x3 x4 x5 x6 x7).collect, q ∈ (ONode.branch b bcom2 bm2 bcnt2 x0 x1 x2 x3 x4 cnew x6 x7).collect) ∧
    (∀ q ∈ cnew.collect, q ∈ (ONode.branch b bcom2 bm2 bcnt2 x0 x1 x2 x3 x4 cnew x6 x7).collect) ∧
    ((∀ q ∈ (ONode.branch b bcom bm bcnt x0 x1 x2 x3 x4 x5 x6 x7).collect, q.2.posP) →
      ∀ q ∈ (ONode.branch b bcom2 bm2 bcnt2 x0 x1 x2 x3 x4 cnew x6 x7).collect, q.2.posP) ∧
    ((ONode.branch b bcom bm bcnt x0 x1 x2 x3 x4 x5 x6 x7).escapedB = true → (ONode.branch b bcom2 bm2 bcnt2 x0 x1 x2 x3 x4 cnew x6 x7).escapedB = true) ∧
    (cnew.escapedB = true → (ONode.branch b bcom2 bm2 bcnt2 x0 x1 x2 x3 x4 cnew x6 x7).escapedB = true) := by
  refine ⟨?_, ?_, ?_, ?_, ?_, ?_, ?_⟩
  · simp only [ONode.boundsOKb, Bool.and_eq_true,
      decide_eq_true_eq] at hbo ⊢
    obtain ⟨⟨⟨⟨⟨⟨⟨⟨⟨⟨⟨⟨⟨⟨⟨⟨hwf, hc0⟩, hc1⟩, hc2⟩, hc3⟩, hc4⟩, hc5⟩, hc6⟩, hc7⟩, hq0⟩, hq1⟩, hq2⟩, hq3⟩, hq4⟩, hq5⟩, hq6⟩, hq7⟩ := hbo
    exact ⟨⟨⟨⟨⟨⟨⟨⟨⟨⟨⟨⟨⟨⟨⟨⟨hwf, hc0⟩, hc1⟩, hc2⟩, hc3⟩, hc4⟩, (hbnd ▸ hc5)⟩, hc6⟩, hc7⟩, hq0⟩, hq1⟩, hq2⟩, hq3⟩, hq4⟩, hcb⟩, hq6⟩, hq7⟩
  · intro hdo
    simp only [ONode.depthOKb, Bool.and_eq_true] at hdo ⊢
    obtain ⟨⟨⟨⟨⟨⟨⟨hd0, hd1⟩, hd2⟩, hd3⟩, hd4⟩, hd5⟩, hd6⟩, hd7⟩ := hdo
    exact ⟨⟨⟨⟨⟨⟨⟨hd0, hd1⟩, hd2⟩, hd3⟩, hd4⟩, (hdep hd5)⟩, hd6⟩, hd7⟩
  · intro q hq
    simp only [ONode.collect, List.mem_append] at hq ⊢
    rcases hq with ((((((hm0 | hm1) | hm2) | hm3) | hm4) | hm5) | hm6) | hm7
    · exact Or.inl (Or.inl (Or.inl (Or.inl (Or.inl (Or.inl (Or.inl (hm0)))))))
    · exact Or.inl (Or.inl (Or.inl (Or.inl (Or.inl (Or.inl (Or.inr (hm1)))))))
    · exact Or.inl (Or.inl (Or.inl (Or.inl (Or.inl (Or.inr (hm2))))))
    · exact Or.inl (Or.inl (Or.inl (Or.inl (Or.inr (hm3)))))
    · exact Or.inl (Or.inl (Or.inl (Or.inr (hm4))))
    · exact Or.inl (Or.inl (Or.inr (hmono q hm5)))
    · exact Or.inl (Or.inr (hm6))
    · exact Or.inr (hm7)
  · intro q hq2
    simp only [ONode.collect, List.mem_append]
    exact Or.inl (Or.inl (Or.inr (hq2)))
  · intro hold q hq
    simp only [ONode.collect, List.mem_append] at hq
    simp only [ONode.collect, List.mem_append] at hold
    rcases hq with ((((((hm0 | hm1) | hm2) | hm3) | hm4) | hm5) | hm6) | hm7
    · exact hold q (Or.inl (Or.inl (Or.inl (Or.inl (Or.inl (Or.inl (Or.inl (hm0))))))))
    · exact hold q (Or.inl (Or.inl (Or.inl (Or.inl (Or.inl (Or.inl (Or.inr (hm1))))))))
    · exact hold q (Or.inl (Or.inl (Or.inl (Or.inl (Or.inl (Or.inr (hm2)))))))
    · exact hold q (Or.inl (Or.inl (Or.inl (Or.inl (Or.inr (hm3))))))
    · exact hold q (Or.inl (Or.inl (Or.inl (Or.inr (hm4)))))
    · exact hpos q hm5
    · exact hold q (Or.inl (Or.inr (hm6)))
    · exact hold q (Or.inr (hm7))
  · intro hescold
    simp only [ONode.escapedB, Bool.or_eq_true] at hescold ⊢
    rcases hescold with ((((((hm0 | hm1) | hm2) | hm3) | hm4) | hm5) | hm6) | hm7
    · exact Or.inl (Or.inl (Or.inl (Or.inl (Or.inl (Or.inl (Or.inl (hm0)))))))
    · exact Or.inl (Or.inl (Or.inl (Or.inl (Or.inl (Or.inl (Or.inr (hm1)))))))
    · exact Or.inl (Or.inl (Or.inl (Or.inl (Or.inl (Or.inr (hm2))))))
    · exact Or.inl (Or.inl (Or.inl (Or.inl (Or.inr (hm3)))))
    · exact Or.inl (Or.inl (Or.inl (Or.inr (hm4))))
    · exact Or.inl (Or.inl (Or.inr (hesc hm5)))
    · exact Or.inl (Or.inr (hm6))
    · exact Or.inr (hm7)
  · intro hq2
    simp only [ONode.escapedB, Bool.or_eq_true]
    exact Or.inl (Or.inl (Or.inr (hq2)))

theorem branch_repl_6 (b : Bounds) (bcom : Vec3Q) (bm : Q) (bcnt : Nat)
    (bcom2 : Vec3Q) (bm2 : Q) (bcnt2 : Nat)
    (x0 x1 x2 x3 x4 x5 x6 x7 cnew : ONode) (k : Nat)
    (hbo : (ONode.branch b bcom bm bcnt x0 x1 x2 x3 x4 x5 x6 x7).boundsOKb = true)
    (hbnd : cnew.bounds = x6.bounds)
    (hcb : cnew.boundsOKb = true)
    (hdep : x6.depthOKb k = true → cnew.depthOKb k = true)
    (hmono : ∀ q ∈ x6.collect, q ∈ cnew.collect)
    (hpos : ∀ q ∈ cnew.collect, q.2.posP)
    (hesc : x6.escapedB = true → cnew.escapedB = true) :
    (ONode.branch b bcom2 bm2 bcnt2 x0 x1 x2 x3 x4 x5 cnew x7).boundsOKb = true ∧
    ((ONode.branch b bcom bm bcnt x0 x1 x2 x3 x4 x5 x6 x7).depthOKb (k + 1) = true →
      (ONode.branch b bcom2 bm2 bcnt2 x0 x1 x2 x3 x4 x5 cnew x7).depthOKb (k + 1) = true) ∧
    (∀ q ∈ (ONode.branch b bcom bm bcnt x0 x1 x2 x3 x4 x5 x6 x7).collect, q ∈ (ONode.branch b bcom2 bm2 bcnt2 x0 x1 x2 x3 x4 x5 cnew x7).collect) ∧
    (∀ q ∈ cnew.collect, q ∈ (ONode.branch b bcom2 bm2 bcnt2 x0 x1 x2 x3 x4 x5 cnew x7).collect) ∧
    ((∀ q ∈ (ONode.branch b bcom bm bcnt x0 x1 x2 x3 x4 x5 x6 x7).collect, q.2.posP) →
      ∀ q ∈ (ONode.branch b bcom2 bm2 bcnt2 x0 x1 x2 x3 x4 x5 cnew x7).collect, q.2.posP) ∧
    ((ONode.branch b bcom bm bcnt x0 x1 x2 x3 x4 x5 x6 x7).escapedB = true → (ONode.branch b bcom2 bm2 bcnt2 x0 x1 x2 x3 x4 x5 cnew x7).escapedB = true) ∧
    (cnew.escapedB = true → (ONode.branch b bcom2 bm2 bcnt2 x0 x1 x2 x3 x4 x5 cnew x7).escapedB = true) := by
  refine ⟨?_, ?_, ?_, ?_, ?_, ?_, ?_⟩
  · simp only [ONode.boundsOKb, Bool.and_eq_true,
      decide_eq_true_eq] at hbo ⊢
    obtain ⟨⟨⟨⟨⟨⟨⟨⟨⟨⟨⟨⟨⟨⟨⟨⟨hwf, hc0⟩, hc1⟩, hc2⟩, hc3⟩, hc4⟩, hc5⟩, hc6⟩, hc7⟩, hq0⟩, hq1⟩, hq2⟩, hq3⟩, hq4⟩, hq5⟩, hq6⟩, hq7⟩ := hbo
    exact ⟨⟨⟨⟨⟨⟨⟨⟨⟨⟨⟨⟨⟨⟨⟨⟨hwf, hc0⟩, hc1⟩, hc2⟩, hc3⟩, hc4⟩, hc5⟩, (hbnd ▸ hc6)⟩, hc7⟩, hq0⟩, hq1⟩, hq2⟩, hq3⟩, hq4⟩, hq5⟩, hcb⟩, hq7⟩
  · intro hdo
    simp only [ONode.depthOKb, Bool.and_eq_true] at hdo ⊢
    obtain ⟨⟨⟨⟨⟨⟨⟨hd0, hd1⟩, hd2⟩, hd3⟩, hd4⟩, hd5⟩, hd6⟩, hd7⟩ := hdo
    exact ⟨⟨⟨⟨⟨⟨⟨hd0, hd1⟩, hd2⟩, hd3⟩, hd4⟩, hd5⟩, (hdep hd6)⟩, hd7⟩
  · intro q hq
    simp only [ONode.collect, List.mem_append] at hq ⊢
    rcases hq with ((((((hm0 | hm1) | hm2) | hm3) | hm4) | hm5) | hm6) | hm7
    · exact Or.inl (Or.inl (Or.inl (Or.inl (Or.inl (Or.inl (Or.inl (hm0)))))))
    · exact Or.inl (Or.inl (Or.inl (Or.inl (Or.inl (Or.inl (Or.inr (hm1)))))))
    · exact Or.inl (Or.inl (Or.inl (Or.inl (Or.inl (Or.inr (hm2))))))
    · exact Or.inl (Or.inl (Or.inl (Or.inl (Or.inr (hm3)))))
    · exact Or.inl (Or.inl (Or.inl (Or.inr (hm4))))
    · exact Or.inl (Or.inl (Or.inr (hm5)))
    · exact Or.inl (Or.inr (hmono q hm6))
    · exact Or.inr (hm7)
  · intro q hq2
    simp only [ONode.collect, List.mem_append]
    exact Or.inl (Or.inr (hq2))
  · intro hold q hq
    simp only [ONode.collect, List.mem_append] at hq
    simp only [ONode.collect, List.mem_append] at hold
    rcases hq with ((((((hm0 | hm1) | hm2) | hm3) | hm4) | hm5) | hm6) | hm7
    · exact hold q (Or.inl (Or.inl (Or.inl (Or.inl (Or.inl (Or.inl (Or.inl (hm0))))))))
    · exact hold q (Or.inl (Or.inl (Or.inl (Or.inl (Or.inl (Or.inl (Or.inr (hm1))))))))
    · exact hold q (Or.inl (Or.inl (Or.inl (Or.inl (Or.inl (Or.inr (hm2)))))))
    · exact hold q (Or.inl (Or.inl (Or.inl (Or.inl (Or.inr (hm3))))))
    · exact hold q (Or.inl (Or.inl (Or.inl (Or.inr (hm4)))))
    · exact hold q (Or.inl (Or.inl (Or.inr (hm5))))
    · exact hpos q hm6
    · exact hold q (Or.inr (hm7))
  · intro hescold
    simp only [ONode.escapedB, Bool.or_eq_true] at hescold ⊢
    rcases hescold with ((((((hm0 | hm1) | hm2) | hm3) | hm4) | hm5) | hm6) | hm7
    · exact Or.inl (Or.inl (Or.inl (Or.inl (Or.inl (Or.inl (Or.inl (hm0)))))))
    · exact Or.inl (Or.inl (Or.inl (Or.inl (Or.inl (Or.inl (Or.inr (hm1)))))))
    · exact Or.inl (Or.inl (Or.inl (Or.inl (Or.inl (Or.inr (hm2))))))
    · exact Or.inl (Or.inl (Or.inl (Or.inl (Or.inr (hm3)))))
    · exact Or.inl (Or.inl (Or.inl (Or.inr (hm4))))
    · exact Or.inl (Or.inl (Or.inr (hm5)))
    · exact Or.inl (Or.inr (hesc hm6))
    · exact Or.inr (hm7)
  · intro hq2
    simp only [ONode.escapedB, Bool.or_eq_true]
    exact Or.inl (Or.inr (hq2))

theorem branch_repl_7 (b : Bounds) (bcom : Vec3Q) (bm : Q) (bcnt : Nat)
    (bcom2 : Vec3Q) (bm2 : Q) (bcnt2 : Nat)
    (x0 x1 x2 x3 x4 x5 x6 x7 cnew : ONode) (k : Nat)
    (hbo : (ONode.branch b bcom bm bcnt x0 x1 x2 x3 x4 x5 x6 x7).boundsOKb = true)
    (hbnd : cnew.bounds = x7.bounds)
    (hcb : cnew.boundsOKb = true)
    (hdep : x7.depthOKb k = true → cnew.depthOKb k = true)
    (hmono : ∀ q ∈ x7.collect, q ∈ cnew.collect)
    (hpos : ∀ q ∈ cnew.collect, q.2.posP)
    (hesc : x7.escapedB = true → cnew.escapedB = true) :
    (ONode.branch b bcom2 bm2 bcnt2 x0 x1 x2 x3 x4 x5 x6 cnew).boundsOKb = true ∧
    ((ONode.branch b bcom bm bcnt x0 x1 x2 x3 x4 x5 x6 x7).depthOKb (k + 1) = true →
      (ONode.branch b bcom2 bm2 bcnt2 x0 x1 x2 x3 x4 x5 x6 cnew).depthOKb (k + 1) = true) ∧
    (∀ q ∈ (ONode.branch b bcom bm bcnt x0 x1 x2 x3 x4 x5 x6 x7).collect, q ∈ (ONode.branch b bcom2 bm2 bcnt2 x0 x1 x2 x3 x4 x5 x6 cnew).collect) ∧
    (∀ q ∈ cnew.collect, q ∈ (ONode.branch b bcom2 bm2 bcnt2 x0 x1 x2 x3 x4 x5 x6 cnew).collect) ∧
    ((∀ q ∈ (ONode.branch b bcom bm bcnt x0 x1 x2 x3 x4 x5 x6 x7).collect, q.2.posP) →
      ∀ q ∈ (ONode.branch b bcom2 bm2 bcnt2 x0 x1 x2 x3 x4 x5 x6 cnew).collect, q.2.posP) ∧
    ((ONode.branch b bcom bm bcnt x0 x1 x2 x3 x4 x5 x6 x7).escapedB = true → (ONode.branch b bcom2 bm2 bcnt2 x0 x1 x2 x3 x4 x5 x6 cnew).escapedB = true) ∧
    (cnew.escapedB = true → (ONode.branch b bcom2 bm2 bcnt2 x0 x1 x2 x3 x4 x5 x6 cnew).escapedB = true) := by
  refine ⟨?_, ?_, ?_, ?_, ?_, ?_, ?_⟩
  · simp only [ONode.boundsOKb, Bool.and_eq_true,
      decide_eq_true_eq] at hbo ⊢
    obtain ⟨⟨⟨⟨⟨⟨⟨⟨⟨⟨⟨⟨⟨⟨⟨⟨hwf, hc0⟩, hc1⟩, hc2⟩, hc3⟩, hc4⟩, hc5⟩, hc6⟩, hc7⟩, hq0⟩, hq1⟩, hq2⟩, hq3⟩, hq4⟩, hq5⟩, hq6⟩, hq7⟩ := hbo
    exact ⟨⟨⟨⟨⟨⟨⟨⟨⟨⟨⟨⟨⟨⟨⟨⟨hwf, hc0⟩, hc1⟩, hc2⟩, hc3⟩, hc4⟩, hc5⟩, hc6⟩, (hbnd ▸ hc7)⟩, hq0⟩, hq1⟩, hq2⟩, hq3⟩, hq4⟩, hq5⟩, hq6⟩, hcb⟩
  · intro hdo
    simp only [ONode.depthOKb, Bool.and_eq_true] at hdo ⊢
    obtain ⟨⟨⟨⟨⟨⟨⟨hd0, hd1⟩, hd2⟩, hd3⟩, hd4⟩, hd5⟩, hd6⟩, hd7⟩ := hdo
    exact ⟨⟨⟨⟨⟨⟨⟨hd0, hd1⟩, hd2⟩, hd3⟩, hd4⟩, hd5⟩, hd6⟩, (hdep hd7)⟩
  · intro q hq
    simp only [ONode.collect, List.mem_append] at hq ⊢
    rcases hq with ((((((hm0 | hm1) | hm2) | hm3) | hm4) | hm5) | hm6) | hm7
    · exact Or.inl (Or.inl (Or.inl (Or.inl (Or.inl (Or.inl (Or.inl (hm0)))))))
    · exact Or.inl (Or.inl (Or.inl (Or.inl (Or.inl (Or.inl (Or.inr (hm1)))))))
    · exact Or.inl (Or.inl (Or.inl (Or.inl (Or.inl (Or.inr (hm2))))))
    · exact Or.inl (Or.inl (Or.inl (Or.inl (Or.inr (hm3)))))
    · exact Or.inl (Or.inl (Or.inl (Or.inr (hm4))))
    · exact Or.inl (Or.inl (Or.inr (hm5)))
    · exact Or.inl (Or.inr (hm6))
    · exact Or.inr (hmono q hm7)
  · intro q hq2
    simp only [ONode.collect, List.mem_append]
    exact Or.inr (hq2)
  · intro hold q hq
    simp only [ONode.collect, List.mem_append] at hq
    simp only [ONode.collect, List.mem_append] at hold
    rcases hq with ((((((hm0 | hm1) | hm2) | hm3) | hm4) | hm5) | hm6) | hm7
    · exact hold q (Or.inl (Or.inl (Or.inl (Or.inl (Or.inl (Or.inl (Or.inl (hm0))))))))
    · exact hold q (Or.inl (Or.inl (Or.inl (Or.inl (Or.inl (Or.inl (Or.inr (hm1))))))))
    · exact hold q (Or.inl (Or.inl (Or.inl (Or.inl (Or.inl (Or.inr (hm2)))))))
    · exact hold q (Or.inl (Or.inl (Or.inl (Or.inl (Or.inr (hm3))))))
    · exact hold q (Or.inl (Or.inl (Or.inl (Or.inr (hm4)))))
    · exact hold q (Or.inl (Or.inl (Or.inr (hm5))))
    · exact hold q (Or.inl (Or.inr (hm6)))
    · exact hpos q hm7
  · intro hescold
    simp only [ONode.escapedB, Bool.or_eq_true] at hescold ⊢
    rcases hescold with ((((((hm0 | hm1) | hm2) | hm3) | hm4) | hm5) | hm6) | hm7
    · exact Or.inl (Or.inl (Or.inl (Or.inl (Or.inl (Or.inl (Or.inl (hm0)))))))
    · exact Or.inl (Or.inl (Or.inl (Or.inl (Or.inl (Or.inl (Or.inr (hm1)))))))
    · exact Or.inl (Or.inl (Or.inl (Or.inl (Or.inl (Or.inr (hm2))))))
    · exact Or.inl (Or.inl (Or.inl (Or.inl (Or.inr (hm3)))))
    · exact Or.inl (Or.inl (Or.inl (Or.inr (hm4))))
    · exact Or.inl (Or.inl (Or.inr (hm5)))
    · exact Or.inl (Or.inr (hm6))
    · exact Or.inr (hesc hm7)
  · intro hq2
    simp only [ONode.escapedB, Bool.or_eq_true]
    exact Or.inr (hq2)

/-- Folding the redistribution step over a point list: the fold succeeds
    and preserves every invariant; every folded point lands in the tree,
    and a folded point outside the branch bounds leaves an escaped
    leaf. -/
theorem redis_fold (k maxl : Nat)
    (IH : ∀ (n : ONode) (node_id : Nat) (p : Vec3Q) (mass : Q),
      n.boundsOKb = true → (∀ q ∈ n.collect, q.2.posP) → p.posP →
      n.depthOKb k = true →
      ∃ n', insertGo k n node_id p mass maxl = some n' ∧
        n'.bounds = n.bounds ∧ n'.boundsOKb = true ∧
        n'.depthOKb k = true ∧
        (node_id, p) ∈ n'.collect ∧
        (∀ q ∈ n.collect, q ∈ n'.collect) ∧
        (∀ q ∈ n'.collect, q.2.posP) ∧
        (n.escapedB = true → n'.escapedB = true) ∧
        (¬ n.bounds.containsQ p → n'.escapedB = true)) :
    ∀ (L : List (Nat × Vec3Q)) (acc : ONode),
      acc.boundsOKb = true → acc.depthOKb (k + 1) = true →
      acc.isBranchB = true →
      (∀ q ∈ acc.collect, q.2.posP) → (∀ ip ∈ L, ip.2.posP) →
      ∃ res, L.foldlM (redisStep k maxl) acc = some res ∧
        res.bounds = acc.bounds ∧ res.boundsOKb = true ∧
        res.depthOKb (k + 1) = true ∧ res.isBranchB = true ∧
        (∀ q ∈ acc.collect, q ∈ res.collect) ∧
        (∀ ip ∈ L, ip ∈ res.collect) ∧
        (∀ q ∈ res.collect, q.2.posP) ∧
        (acc.escapedB = true → res.escapedB = true) ∧
        (∀ ip ∈ L, ¬ acc.bounds.containsQ ip.2 →
          res.escapedB = true) := by
  intro L
  induction L with
  | nil =>
    intro acc hbo hdep hbr hpos hLpos
    exact ⟨acc, rfl, rfl, hbo, hdep, hbr, fun q hq => hq, by simp,
      hpos, fun h => h, by simp⟩
  | cons ip L2 ihL =>
    intro acc hbo hdep hbr hpos hLpos
    cases acc with
    | leaf b2 c2 m2 n2 p2 => simp [ONode.isBranchB] at hbr
    | branch b bcom bm bcnt x0 x1 x2 x3 x4 x5 x6 x7 =>
      have h8 := octant_index_lt_8 b ip.2
      have hwfall := hbo
      simp only [ONode.boundsOKb, Bool.and_eq_true,
        decide_eq_true_eq] at hwfall
      obtain ⟨⟨⟨⟨⟨⟨⟨⟨⟨⟨⟨⟨⟨⟨⟨⟨hwf, hc0⟩, hc1⟩, hc2⟩, hc3⟩, hc4⟩, hc5⟩, hc6⟩, hc7⟩, hk0⟩, hk1⟩, hk2⟩, hk3⟩, hk4⟩, hk5⟩, hk6⟩, hk7⟩ := hwfall
      have hdall := hdep
      simp only [ONode.depthOKb, Bool.and_eq_true] at hdall
      obtain ⟨⟨⟨⟨⟨⟨⟨hd0, hd1⟩, hd2⟩, hd3⟩, hd4⟩, hd5⟩, hd6⟩, hd7⟩ := hdall
      have hvals : b.octant_index ip.2 = 0 ∨ b.octant_index ip.2 = 1 ∨
          b.octant_index ip.2 = 2 ∨ b.octant_index ip.2 = 3 ∨
          b.octant_index ip.2 = 4 ∨ b.octant_index ip.2 = 5 ∨
          b.octant_index ip.2 = 6 ∨ b.octant_index ip.2 = 7 := by omega
      rcases hvals with hv | hv | hv | hv | hv | hv | hv | hv
      · obtain ⟨cnew, hins, hiB, hiOK, hiD, hiMem, hiMono, hiPos, hiEsc,
          hiProd⟩ :=
          IH x0 ip.1 ip.2 NODE_MASS hk0
            (fun q hq => hpos q (by
              simp only [ONode.collect, List.mem_append]
              exact Or.inl (Or.inl (Or.inl (Or.inl (Or.inl (Or.inl (Or.inl (hq)))))))))
            (hLpos ip (List.mem_cons_self ip L2)) hd0
        have hstep : redisStep k maxl
            (ONode.branch b bcom bm bcnt x0 x1 x2 x3 x4 x5 x6 x7) ip
            = (insertGo k x0 ip.1 ip.2 NODE_MASS maxl).bind fun cnew =>
              some (ONode.branch b bcom bm bcnt cnew x1 x2 x3 x4 x5 x6 x7) := by
          simp [redisStep, hv, mkBranch]
        obtain ⟨hrOK, hrDep, hrMono, hrFromNew, hrPos, hrEscMono,
          hrEscNew⟩ :=
          branch_repl_0 b bcom bm bcnt bcom bm bcnt x0 x1 x2 x3 x4 x5 x6 x7 cnew k hbo hiB hiOK
            (fun _ => hiD) hiMono hiPos hiEsc
        obtain ⟨res, hfold, hrb, hrbOK, hrdep2, hrbr, hrmono2, hrLmem,
          hrpos2, hrescmono2, hrprod2⟩ :=
          ihL (ONode.branch b bcom bm bcnt cnew x1 x2 x3 x4 x5 x6 x7) hrOK (hrDep hdep) rfl (hrPos hpos)
            (fun q hq => hLpos q (List.mem_cons_of_mem ip hq))
        refine ⟨res, ?_, hrb, hrbOK, hrdep2, hrbr, ?_, ?_, hrpos2, ?_, ?_⟩
        · rw [List.foldlM_cons, hstep, hins, Option.some_bind]
          exact hfold
        · exact fun q hq => hrmono2 q (hrMono q hq)
        · intro ip2 hip
          rcases List.mem_cons.mp hip with hh | hh
          · subst hh
            exact hrmono2 _ (hrFromNew _ hiMem)
          · exact hrLmem ip2 hh
        · exact fun he => hrescmono2 (hrEscMono he)
        · intro ip2 hip hout
          rcases List.mem_cons.mp hip with hh | hh
          · subst hh
            have hnoct : ¬ x0.bounds.containsQ ip2.2 := by
              rw [hc0]
              intro hco
              exact hout (octant_contains_sub b 0 ip2.2 hwf
                (hLpos ip2 (List.mem_cons_self ip2 L2)) hco)
            exact hrescmono2 (hrEscNew (hiProd hnoct))
          · exact hrprod2 ip2 hh hout
      · obtain ⟨cnew, hins, hiB, hiOK, hiD, hiMem, hiMono, hiPos, hiEsc,
          hiProd⟩ :=
          IH x1 ip.1 ip.2 NODE_MASS hk1
            (fun q hq => hpos q (by
              simp only [ONode.collect, List.mem_append]
              exact Or.inl (Or.inl (Or.inl (Or.inl (Or.inl (Or.inl (Or.inr (hq)))))))))
            (hLpos ip (List.mem_cons_self ip L2)) hd1
        have hstep : redisStep k maxl
            (ONode.branch b bcom bm bcnt x0 x1 x2 x3 x4 x5 x6 x7) ip
            = (insertGo k x1 ip.1 ip.2 NODE_MASS maxl).bind fun cnew =>
              some (ONode.branch b bcom bm bcnt x0 cnew x2 x3 x4 x5 x6 x7) := by
          simp [redisStep, hv, mkBranch]
        obtain ⟨hrOK, hrDep, hrMono, hrFromNew, hrPos, hrEscMono,
          hrEscNew⟩ :=
          branch_repl_1 b bcom bm bcnt bcom bm bcnt x0 x1 x2 x3 x4 x5 x6 x7 cnew k hbo hiB hiOK
            (fun _ => hiD) hiMono hiPos hiEsc
        obtain ⟨res, hfold, hrb, hrbOK, hrdep2, hrbr, hrmono2, hrLmem,
          hrpos2, hrescmono2, hrprod2⟩ :=
          ihL (ONode.branch b bcom bm bcnt x0 cnew x2 x3 x4 x5 x6 x7) hrOK (hrDep hdep) rfl (hrPos hpos)
            (fun q hq => hLpos q (List.mem_cons_of_mem ip hq))
        refine ⟨res, ?_, hrb, hrbOK, hrdep2, hrbr, ?_, ?_, hrpos2, ?_, ?_⟩
        · rw [List.foldlM_cons, hstep, hins, Option.some_bind]
          exact hfold
        · exact fun q hq => hrmono2 q (hrMono q hq)
        · intro ip2 hip
          rcases List.mem_cons.mp hip with hh | hh
          · subst hh
            exact hrmono2 _ (hrFromNew _ hiMem)
          · exact hrLmem ip2 hh
        · exact fun he => hrescmono2 (hrEscMono he)
        · intro ip2 hip hout
          rcases List.mem_cons.mp hip with hh | hh
          · subst hh
            have hnoct : ¬ x1.bounds.containsQ ip2.2 := by
              rw [hc1]
              intro hco
              exact hout (octant_contains_sub b 1 ip2.2 hwf
                (hLpos ip2 (List.mem_cons_self ip2 L2)) hco)
            exact hrescmono2 (hrEscNew (hiProd hnoct))
          · exact hrprod2 ip2 hh hout
      · obtain ⟨cnew, hins, hiB, hiOK, hiD, hiMem, hiMono, hiPos, hiEsc,
          hiProd⟩ :=
          IH x2 ip.1 ip.2 NODE_MASS hk2
            (fun q hq => hpos q (by
              simp only [ONode.collect, List.mem_append]
              exact Or.inl (Or.inl (Or.inl (Or.inl (Or.inl (Or.inr (hq))))))))
            (hLpos ip (List.mem_cons_self ip L2)) hd2
        have hstep : redisStep k maxl
            (ONode.branch b bcom bm bcnt x0 x1 x2 x3 x4 x5 x6 x7) ip
            = (insertGo k x2 ip.1 ip.2 NODE_MASS maxl).bind fun cnew =>
              some (ONode.branch b bcom bm bcnt x0 x1 cnew x3 x4 x5 x6 x7) := by
          simp [redisStep, hv, mkBranch]
        obtain ⟨hrOK, hrDep, hrMono, hrFromNew, hrPos, hrEscMono,
          hrEscNew⟩ :=
          branch_repl_2 b bcom bm bcnt bcom bm bcnt x0 x1 x2 x3 x4 x5 x6 x7 cnew k hbo hiB hiOK
            (fun _ => hiD) hiMono hiPos hiEsc
        obtain ⟨res, hfold, hrb, hrbOK, hrdep2, hrbr, hrmono2, hrLmem,
          hrpos2, hrescmono2, hrprod2⟩ :=
          ihL (ONode.branch b bcom bm bcnt x0 x1 cnew x3 x4 x5 x6 x7) hrOK (hrDep hdep) rfl (hrPos hpos)
            (fun q hq => hLpos q (List.mem_cons_of_mem ip hq))
        refine ⟨res, ?_, hrb, hrbOK, hrdep2, hrbr, ?_, ?_, hrpos2, ?_, ?_⟩
        · rw [List.foldlM_cons, hstep, hins, Option.some_bind]
          exact hfold
        · exact fun q hq => hrmono2 q (hrMono q hq)
        · intro ip2 hip
          rcases List.mem_cons.mp hip with hh | hh
          · subst hh
            exact hrmono2 _ (hrFromNew _ hiMem)
          · exact hrLmem ip2 hh
        · exact fun he => hrescmono2 (hrEscMono he)
        · intro ip2 hip hout
          rcases List.mem_cons.mp hip with hh | hh
          · subst hh
            have hnoct : ¬ x2.bounds.containsQ ip2.2 := by
              rw [hc2]
              intro hco
              exact hout (octant_contains_sub b 2 ip2.2 hwf
                (hLpos ip2 (List.mem_cons_self ip2 L2)) hco)
            exact hrescmono2 (hrEscNew (hiProd hnoct))
          · exact hrprod2 ip2 hh hout
      · obtain ⟨cnew, hins, hiB, hiOK, hiD, hiMem, hiMono, hiPos, hiEsc,
          hiProd⟩ :=
          IH x3 ip.1 ip.2 NODE_MASS hk3
            (fun q hq => hpos q (by
              simp only [ONode.collect, List.mem_append]
              exact Or.inl (Or.inl (Or.inl (Or.inl (Or.inr (hq)))))))
            (hLpos ip (List.mem_cons_self ip L2)) hd3
        have hstep : redisStep k maxl
            (ONode.branch b bcom bm bcnt x0 x1 x2 x3 x4 x5 x6 x7) ip
            = (insertGo k x3 ip.1 ip.2 NODE_MASS maxl).bind fun cnew =>
              some (ONode.branch b bcom bm bcnt x0 x1 x2 cnew x4 x5 x6 x7) := by
          simp [redisStep, hv, mkBranch]
        obtain ⟨hrOK, hrDep, hrMono, hrFromNew, hrPos, hrEscMono,
          hrEscNew⟩ :=
          branch_repl_3 b bcom bm bcnt bcom bm bcnt x0 x1 x2 x3 x4 x5 x6 x7 cnew k hbo hiB hiOK
            (fun _ => hiD) hiMono hiPos hiEsc
        obtain ⟨res, hfold, hrb, hrbOK, hrdep2, hrbr, hrmono2, hrLmem,
          hrpos2, hrescmono2, hrprod2⟩ :=
          ihL (ONode.branch b bcom bm bcnt x0 x1 x2 cnew x4 x5 x6 x7) hrOK (hrDep hdep) rfl (hrPos hpos)
            (fun q hq => hLpos q (List.mem_cons_of_mem ip hq))
        refine ⟨res, ?_, hrb, hrbOK, hrdep2, hrbr, ?_, ?_, hrpos2, ?_, ?_⟩
        · rw [List.foldlM_cons, hstep, hins, Option.some_bind]
          exact hfold
        · exact fun q hq => hrmono2 q (hrMono q hq)
        · intro ip2 hip
          rcases List.mem_cons.mp hip with hh | hh
          · subst hh
            exact hrmono2 _ (hrFromNew _ hiMem)
          · exact hrLmem ip2 hh
        · exact fun he => hrescmono2 (hrEscMono he)
        · intro ip2 hip hout
          rcases List.mem_cons.mp hip with hh | hh
          · subst hh
            have hnoct : ¬ x3.bounds.containsQ ip2.2 := by
              rw [hc3]
              intro hco
              exact hout (octant_contains_sub b 3 ip2.2 hwf
                (hLpos ip2 (List.mem_cons_self ip2 L2)) hco)
            exact hrescmono2 (hrEscNew (hiProd hnoct))
          · exact hrprod2 ip2 hh hout
      · obtain ⟨cnew, hins, hiB, hiOK, hiD, hiMem, hiMono, hiPos, hiEsc,
          hiProd⟩ :=
          IH x4 ip.1 ip.2 NODE_MASS hk4
            (fun q hq => hpos q (by
              simp only [ONode.collect, List.mem_append]
              exact Or.inl (Or.inl (Or.inl (Or.inr (hq))))))
            (hLpos ip (List.mem_cons_self ip L2)) hd4
        have hstep : redisStep k maxl
            (ONode.branch b bcom bm bcnt x0 x1 x2 x3 x4 x5 x6 x7) ip
            = (insertGo k x4 ip.1 ip.2 NODE_MASS maxl).bind fun cnew =>
              some (ONode.branch b bcom bm bcnt x0 x1 x2 x3 cnew x5 x6 x7) := by
          simp [redisStep, hv, mkBranch]
        obtain ⟨hrOK, hrDep, hrMono, hrFromNew, hrPos, hrEscMono,
          hrEscNew⟩ :=
          branch_repl_4 b bcom bm bcnt bcom bm bcnt x0 x1 x2 x3 x4 x5 x6 x7 cnew k hbo hiB hiOK
            (fun _ => hiD) hiMono hiPos hiEsc
        obtain ⟨res, hfold, hrb, hrbOK, hrdep2, hrbr, hrmono2, hrLmem,
          hrpos2, hrescmono2, hrprod2⟩ :=
          ihL (ONode.branch b bcom bm bcnt x0 x1 x2 x3 cnew x5 x6 x7) hrOK (hrDep hdep) rfl (hrPos hpos)
            (fun q hq => hLpos q (List.mem_cons_of_mem ip hq))
        refine ⟨res, ?_, hrb, hrbOK, hrdep2, hrbr, ?_, ?_, hrpos2, ?_, ?_⟩
        · rw [List.foldlM_cons, hstep, hins, Option.some_bind]
          exact hfold
        · exact fun q hq => hrmono2 q (hrMono q hq)
        · intro ip2 hip
          rcases List.mem_cons.mp hip with hh | hh
          · subst hh
            exact hrmono2 _ (hrFromNew _ hiMem)
          · exact hrLmem ip2 hh
        · exact fun he => hrescmono2 (hrEscMono he)
        · intro ip2 hip hout
          rcases List.mem_cons.mp hip with hh | hh
          · subst hh
            have hnoct : ¬ x4.bounds.containsQ ip2.2 := by
              rw [hc4]
              intro hco
              exact hout (octant_contains_sub b 4 ip2.2 hwf
                (hLpos ip2 (List.mem_cons_self ip2 L2)) hco)
            exact hrescmono2 (hrEscNew (hiProd hnoct))
          · exact hrprod2 ip2 hh hout
      · obtain ⟨cnew, hins, hiB, hiOK, hiD, hiMem, hiMono, hiPos, hiEsc,
          hiProd⟩ :=
          IH x5 ip.1 ip.2 NODE_MASS hk5
            (fun q hq => hpos q (by
              simp only [ONode.collect, List.mem_append]
              exact Or.inl (Or.inl (Or.inr (hq)))))
            (hLpos ip (List.mem_cons_self ip L2)) hd5
        have hstep : redisStep k maxl
            (ONode.branch b bcom bm bcnt x0 x1 x2 x3 x4 x5 x6 x7) ip
            = (insertGo k x5 ip.1 ip.2 NODE_MASS maxl).bind fun cnew =>
              some (ONode.branch b bcom bm bcnt x0 x1 x2 x3 x4 cnew x6 x7) := by
          simp [redisStep, hv, mkBranch]
        obtain ⟨hrOK, hrDep, hrMono, hrFromNew, hrPos, hrEscMono,
          hrEscNew⟩ :=
          branch_repl_5 b bcom bm bcnt bcom bm bcnt x0 x1 x2 x3 x4 x5 x6 x7 cnew k hbo hiB hiOK
            (fun _ => hiD) hiMono hiPos hiEsc
        obtain ⟨res, hfold, hrb, hrbOK, hrdep2, hrbr, hrmono2, hrLmem,
          hrpos2, hrescmono2, hrprod2⟩ :=
          ihL (ONode.branch b bcom bm bcnt x0 x1 x2 x3 x4 cnew x6 x7) hrOK (hrDep hdep) rfl (hrPos hpos)
            (fun q hq => hLpos q (List.mem_cons_of_mem ip hq))
        refine ⟨res, ?_, hrb, hrbOK, hrdep2, hrbr, ?_, ?_, hrpos2, ?_, ?_⟩
        · rw [List.foldlM_cons, hstep, hins, Option.some_bind]
          exact hfold
        · exact fun q hq => hrmono2 q (hrMono q hq)
        · intro ip2 hip
          rcases List.mem_cons.mp hip with hh | hh
          · subst hh
            exact hrmono2 _ (hrFromNew _ hiMem)
          · exact hrLmem ip2 hh
        · exact fun he => hrescmono2 (hrEscMono he)
        · intro ip2 hip hout
          rcases List.mem_cons.mp hip with hh | hh
          · subst hh
            have hnoct : ¬ x5.bounds.containsQ ip2.2 := by
              rw [hc5]
              intro hco
              exact hout (octant_contains_sub b 5 ip2.2 hwf
                (hLpos ip2 (List.mem_cons_self ip2 L2)) hco)
            exact hrescmono2 (hrEscNew (hiProd hnoct))
          · exact hrprod2 ip2 hh hout
      · obtain ⟨cnew, hins, hiB, hiOK, hiD, hiMem, hiMono, hiPos, hiEsc,
          hiProd⟩ :=
          IH x6 ip.1 ip.2 NODE_MASS hk6
            (fun q hq => hpos q (by
              simp only [ONode.collect, List.mem_append]
              exact Or.inl (Or.inr (hq))))
            (hLpos ip (List.mem_cons_self ip L2)) hd6
        have hstep : redisStep k maxl
            (ONode.branch b bcom bm bcnt x0 x1 x2 x3 x4 x5 x6 x7) ip
            = (insertGo k x6 ip.1 ip.2 NODE_MASS maxl).bind fun cnew =>
              some (ONode.branch b bcom bm bcnt x0 x1 x2 x3 x4 x5 cnew x7) := by
          simp [redisStep, hv, mkBranch]
        obtain ⟨hrOK, hrDep, hrMono, hrFromNew, hrPos, hrEscMono,
          hrEscNew⟩ :=
          branch_repl_6 b bcom bm bcnt bcom bm bcnt x0 x1 x2 x3 x4 x5 x6 x7 cnew k hbo hiB hiOK
            (fun _ => hiD) hiMono hiPos hiEsc
        obtain ⟨res, hfold, hrb, hrbOK, hrdep2, hrbr, hrmono2, hrLmem,
          hrpos2, hrescmono2, hrprod2⟩ :=
          ihL (ONode.branch b bcom bm bcnt x0 x1 x2 x3 x4 x5 cnew x7) hrOK (hrDep hdep) rfl (hrPos hpos)
            (fun q hq => hLpos q (List.mem_cons_of_mem ip hq))
        refine ⟨res, ?_, hrb, hrbOK, hrdep2, hrbr, ?_, ?_, hrpos2, ?_, ?_⟩
        · rw [List.foldlM_cons, hstep, hins, Option.some_bind]
          exact hfold
        · exact fun q hq => hrmono2 q (hrMono q hq)
        · intro ip2 hip
          rcases List.mem_cons.mp hip with hh | hh
          · subst hh
            exact hrmono2 _ (hrFromNew _ hiMem)
          · exact hrLmem ip2 hh
        · exact fun he => hrescmono2 (hrEscMono he)
        · intro ip2 hip hout
          rcases List.mem_cons.mp hip with hh | hh
          · subst hh
            have hnoct : ¬ x6.bounds.containsQ ip2.2 := by
              rw [hc6]
              intro hco
              exact hout (octant_contains_sub b 6 ip2.2 hwf
                (hLpos ip2 (List.mem_cons_self ip2 L2)) hco)
            exact hrescmono2 (hrEscNew (hiProd hnoct))
          · exact hrprod2 ip2 hh hout
      · obtain ⟨cnew, hins, hiB, hiOK, hiD, hiMem, hiMono, hiPos, hiEsc,
          hiProd⟩ :=
          IH x7 ip.1 ip.2 NODE_MASS hk7
            (fun q hq => hpos q (by
              simp only [ONode.collect, List.mem_append]
              exact Or.inr (hq)))
            (hLpos ip (List.mem_cons_self ip L2)) hd7
        have hstep : redisStep k maxl
            (ONode.branch b bcom bm bcnt x0 x1 x2 x3 x4 x5 x6 x7) ip
            = (insertGo k x7 ip.1 ip.2 NODE_MASS maxl).bind fun cnew =>
              some (ONode.branch b bcom bm bcnt x0 x1 x2 x3 x4 x5 x6 cnew) := by
          simp [redisStep, hv, mkBranch]
        obtain ⟨hrOK, hrDep, hrMono, hrFromNew, hrPos, hrEscMono,
          hrEscNew⟩ :=
          branch_repl_7 b bcom bm bcnt bcom bm bcnt x0 x1 x2 x3 x4 x5 x6 x7 cnew k hbo hiB hiOK
            (fun _ => hiD) hiMono hiPos hiEsc
        obtain ⟨res, hfold, hrb, hrbOK, hrdep2, hrbr, hrmono2, hrLmem,
          hrpos2, hrescmono2, hrprod2⟩ :=
          ihL (ONode.branch b bcom bm bcnt x0 x1 x2 x3 x4 x5 x6 cnew) hrOK (hrDep hdep) rfl (hrPos hpos)
            (fun q hq => hLpos q (List.mem_cons_of_mem ip hq))
        refine ⟨res, ?_, hrb, hrbOK, hrdep2, hrbr, ?_, ?_, hrpos2, ?_, ?_⟩
        · rw [List.foldlM_cons, hstep, hins, Option.some_bind]
          exact hfold
        · exact fun q hq => hrmono2 q (hrMono q hq)
        · intro ip2 hip
          rcases List.mem_cons.mp hip with hh | hh
          · subst hh
            exact hrmono2 _ (hrFromNew _ hiMem)
          · exact hrLmem ip2 hh
        · exact fun he => hrescmono2 (hrEscMono he)
        · intro ip2 hip hout
          rcases List.mem_cons.mp hip with hh | hh
          · subst hh
            have hnoct : ¬ x7.bounds.containsQ ip2.2 := by
              rw [hc7]
              intro hco
              exact hout (octant_contains_sub b 7 ip2.2 hwf
                (hLpos ip2 (List.mem_cons_self ip2 L2)) hco)
            exact hrescmono2 (hrEscNew (hiProd hnoct))
          · exact hrprod2 ip2 hh hout

/-- The master invariant of `insert`: on a tree satisfying the geometric,
    positivity and depth invariants, insertion succeeds, preserves them,
    keeps the bounds, stores the new entry and every old entry, and —
    when the inserted position lies outside the node bounds — leaves a
    leaf holding a point outside that leaf's bounds. -/
theorem insert_master : ∀ (f : Nat) (n : ONode) (node_id : Nat)
    (p : Vec3Q) (mass : Q) (maxl : Nat),
    n.boundsOKb = true → (∀ q ∈ n.collect, q.2.posP) → p.posP →
    n.depthOKb f = true →
    ∃ n', insertGo f n node_id p mass maxl = some n' ∧
      n'.bounds = n.bounds ∧ n'.boundsOKb = true ∧
      n'.depthOKb f = true ∧
      (node_id, p) ∈ n'.collect ∧
      (∀ q ∈ n.collect, q ∈ n'.collect) ∧
      (∀ q ∈ n'.collect, q.2.posP) ∧
      (n.escapedB = true → n'.escapedB = true) ∧
      (¬ n.bounds.containsQ p → n'.escapedB = true) := by
  intro f
  induction f with
  | zero =>
    intro n node_id p mass maxl hbo hpos hp hdep
    cases n with
    | branch b com m cnt x0 x1 x2 x3 x4 x5 x6 x7 =>
      simp [ONode.depthOKb] at hdep
    | leaf b com m cnt pts =>
      refine ⟨_, insertGo_zero_leaf b com m cnt pts node_id p mass maxl,
        rfl, hbo, rfl, ?_, ?_, ?_, ?_, ?_⟩
      · simp [ONode.collect]
      · intro q hq
        simp only [ONode.collect] at hq ⊢
        exact List.mem_append_left _ hq
      · intro q hq
        simp only [ONode.collect, List.mem_append,
          List.mem_singleton] at hq
        rcases hq with hq | hq
        · exact hpos q hq
        · subst hq; exact hp
      · intro he
        simp only [ONode.escapedB, List.any_append, Bool.or_eq_true]
          at he ⊢
        exact Or.inl he
      · intro hout
        simp only [ONode.escapedB, List.any_append, Bool.or_eq_true]
        right
        simp
        exact hout
  | succ k ih =>
    intro n node_id p mass maxl hbo hpos hp hdep
    cases n with
    | leaf b com m cnt pts =>
      by_cases hlen : (pts ++ [(node_id, p)]).length > maxl
      · obtain ⟨res, hfold, hrb, hrbOK, hrdep2, hrbr, hrmono2, hrLmem,
          hrpos2, hrescmono2, hrprod2⟩ :=
          redis_fold k maxl (fun n2 id2 p2 mass2 => ih n2 id2 p2 mass2 maxl) (pts ++ [(node_id, p)])
            (ONode.branch b (insCom com m p mass) (m.add mass) (cnt + 1)
              (ONode.newNode (b.octant 0)) (ONode.newNode (b.octant 1))
              (ONode.newNode (b.octant 2)) (ONode.newNode (b.octant 3))
              (ONode.newNode (b.octant 4)) (ONode.newNode (b.octant 5))
              (ONode.newNode (b.octant 6)) (ONode.newNode (b.octant 7)))
            (by
              have hwfb : wfBb b = true := hbo
              simp [ONode.boundsOKb, ONode.newNode, ONode.bounds, hwfb,
                wfBb_octant b])
            (by simp [ONode.depthOKb, ONode.newNode])
            rfl
            (by simp [ONode.collect, ONode.newNode])
            (by
              intro ip hip
              rcases List.mem_append.mp hip with hh | hh
              · exact hpos ip hh
              · rw [List.mem_singleton] at hh
                subst hh
                exact hp)
        refine ⟨res, ?_, hrb, hrbOK, hrdep2, ?_, ?_, hrpos2, ?_, ?_⟩
        · rw [insertGo_succ_leaf_split k b com m cnt pts node_id p mass
            maxl hlen]
          exact hfold
        · exact hrLmem _ (List.mem_append_right _ (List.mem_singleton.mpr
            rfl))
        · intro q hq
          exact hrLmem q (List.mem_append_left _ hq)
        · intro he
          simp only [ONode.escapedB, List.any_eq_true,
            decide_eq_true_eq] at he
          obtain ⟨pt, hpt, hptout⟩ := he
          exact hrprod2 pt (List.mem_append_left _ hpt) hptout
        · intro hout
          exact hrprod2 (node_id, p)
            (List.mem_append_right _ (List.mem_singleton.mpr rfl)) hout
      · refine ⟨_, insertGo_succ_leaf_small k b com m cnt pts node_id p
          mass maxl hlen, rfl, hbo, rfl, ?_, ?_, ?_, ?_, ?_⟩
        · simp [ONode.collect]
        · intro q hq
          simp only [ONode.collect] at hq ⊢
          exact List.mem_append_left _ hq
        · intro q hq
          simp only [ONode.collect, List.mem_append,
            List.mem_singleton] at hq
          rcases hq with hq | hq
          · exact hpos q hq
          · subst hq; exact hp
        · intro he
          simp only [ONode.escapedB, List.any_append, Bool.or_eq_true]
            at he ⊢
          exact Or.inl he
        · intro hout
          simp only [ONode.escapedB, List.any_append, Bool.or_eq_true]
          right
          simp
          exact hout
    | branch b com m cnt x0 x1 x2 x3 x4 x5 x6 x7 =>
      have h8 := octant_index_lt_8 b p
      have hwfall := hbo
      simp only [ONode.boundsOKb, Bool.and_eq_true,
        decide_eq_true_eq] at hwfall
      obtain ⟨⟨⟨⟨⟨⟨⟨⟨⟨⟨⟨⟨⟨⟨⟨⟨hwf, hc0⟩, hc1⟩, hc2⟩, hc3⟩, hc4⟩, hc5⟩, hc6⟩, hc7⟩, hk0⟩, hk1⟩, hk2⟩, hk3⟩, hk4⟩, hk5⟩, hk6⟩, hk7⟩ := hwfall
      have hdall := hdep
      simp only [ONode.depthOKb, Bool.and_eq_true] at hdall
      obtain ⟨⟨⟨⟨⟨⟨⟨hd0, hd1⟩, hd2⟩, hd3⟩, hd4⟩, hd5⟩, hd6⟩, hd7⟩ := hdall
      have hvals : b.octant_index p = 0 ∨ b.octant_index p = 1 ∨
          b.octant_index p = 2 ∨ b.octant_index p = 3 ∨
          b.octant_index p = 4 ∨ b.octant_index p = 5 ∨
          b.octant_index p = 6 ∨ b.octant_index p = 7 := by omega
      rcases hvals with hv | hv | hv | hv | hv | hv | hv | hv
      · obtain ⟨cnew, hins, hiB, hiOK, hiD, hiMem, hiMono, hiPos, hiEsc,
          hiProd⟩ :=
          ih x0 node_id p mass maxl hk0
            (fun q hq => hpos q (by
              simp only [ONode.collect, List.mem_append]
              exact Or.inl (Or.inl (Or.inl (Or.inl (Or.inl (Or.inl (Or.inl (hq)))))))))
            hp hd0
        have heq : insertGo (k + 1)
            (ONode.branch b com m cnt x0 x1 x2 x3 x4 x5 x6 x7) node_id p mass maxl
            = (insertGo k x0 node_id p mass maxl).bind fun cnew =>
              some (ONode.branch b (insCom com m p mass) (m.add mass) (cnt + 1) cnew x1 x2 x3 x4 x5 x6 x7) := by
          rw [insertGo_succ_branch]
          simp [hv, mkBranch]
        obtain ⟨hrOK, hrDep, hrMono, hrFromNew, hrPos, hrEscMono,
          hrEscNew⟩ :=
          branch_repl_0 b com m cnt (insCom com m p mass) (m.add mass)
            (cnt + 1) x0 x1 x2 x3 x4 x5 x6 x7 cnew k hbo hiB hiOK
            (fun _ => hiD) hiMono hiPos hiEsc
        refine ⟨ONode.branch b (insCom com m p mass) (m.add mass) (cnt + 1) cnew x1 x2 x3 x4 x5 x6 x7, ?_, rfl, hrOK, hrDep hdep, ?_, hrMono,
          hrPos hpos, hrEscMono, ?_⟩
        · rw [heq, hins, Option.some_bind]
        · exact hrFromNew _ hiMem
        · intro hout
          have hnoct : ¬ x0.bounds.containsQ p := by
            rw [hc0]
            intro hco
            exact hout (octant_contains_sub b 0 p hwf hp hco)
          exact hrEscNew (hiProd hnoct)
      · obtain ⟨cnew, hins, hiB, hiOK, hiD, hiMem, hiMono, hiPos, hiEsc,
          hiProd⟩ :=
          ih x1 node_id p mass maxl hk1
            (fun q hq => hpos q (by
              simp only [ONode.collect, List.mem_append]
              exact Or.inl (Or.inl (Or.inl (Or.inl (Or.inl (Or.inl (Or.inr (hq)))))))))
            hp hd1
        have heq : insertGo (k + 1)
            (ONode.branch b com m cnt x0 x1 x2 x3 x4 x5 x6 x7) node_id p mass maxl
            = (insertGo k x1 node_id p mass maxl).bind fun cnew =>
              some (ONode.branch b (insCom com m p mass) (m.add mass) (cnt + 1) x0 cnew x2 x3 x4 x5 x6 x7) := by
          rw [insertGo_succ_branch]
          simp [hv, mkBranch]
        obtain ⟨hrOK, hrDep, hrMono, hrFromNew, hrPos, hrEscMono,
          hrEscNew⟩ :=
          branch_repl_1 b com m cnt (insCom com m p mass) (m.add mass)
            (cnt + 1) x0 x1 x2 x3 x4 x5 x6 x7 cnew k hbo hiB hiOK
            (fun _ => hiD) hiMono hiPos hiEsc
        refine ⟨ONode.branch b (insCom com m p mass) (m.add mass) (cnt + 1) x0 cnew x2 x3 x4 x5 x6 x7, ?_, rfl, hrOK, hrDep hdep, ?_, hrMono,
          hrPos hpos, hrEscMono, ?_⟩
        · rw [heq, hins, Option.some_bind]
        · exact hrFromNew _ hiMem
        · intro hout
          have hnoct : ¬ x1.bounds.containsQ p := by
            rw [hc1]
            intro hco
            exact hout (octant_contains_sub b 1 p hwf hp hco)
          exact hrEscNew (hiProd hnoct)
      · obtain ⟨cnew, hins, hiB, hiOK, hiD, hiMem, hiMono, hiPos, hiEsc,
          hiProd⟩ :=
          ih x2 node_id p mass maxl hk2
            (fun q hq => hpos q (by
              simp only [ONode.collect, List.mem_append]
              exact Or.inl (Or.inl (Or.inl (Or.inl (Or.inl (Or.inr (hq))))))))
            hp hd2
        have heq : insertGo (k + 1)
            (ONode.branch b com m cnt x0 x1 x2 x3 x4 x5 x6 x7) node_id p mass maxl
            = (insertGo k x2 node_id p mass maxl).bind fun cnew =>
              some (ONode.branch b (insCom com m p mass) (m.add mass) (cnt + 1) x0 x1 cnew x3 x4 x5 x6 x7) := by
          rw [insertGo_succ_branch]
          simp [hv, mkBranch]
        obtain ⟨hrOK, hrDep, hrMono, hrFromNew, hrPos, hrEscMono,
          hrEscNew⟩ :=
          branch_repl_2 b com m cnt (insCom com m p mass) (m.add mass)
            (cnt + 1) x0 x1 x2 x3 x4 x5 x6 x7 cnew k hbo hiB hiOK
            (fun _ => hiD) hiMono hiPos hiEsc
        refine ⟨ONode.branch b (insCom com m p mass) (m.add mass) (cnt + 1) x0 x1 cnew x3 x4 x5 x6 x7, ?_, rfl, hrOK, hrDep hdep, ?_, hrMono,
          hrPos hpos, hrEscMono, ?_⟩
        · rw [heq, hins, Option.some_bind]
        · exact hrFromNew _ hiMem
        · intro hout
          have hnoct : ¬ x2.bounds.containsQ p := by
            rw [hc2]
            intro hco
            exact hout (octant_contains_sub b 2 p hwf hp hco)
          exact hrEscNew (hiProd hnoct)
      · obtain ⟨cnew, hins, hiB, hiOK, hiD, hiMem, hiMono, hiPos, hiEsc,
          hiProd⟩ :=
          ih x3 node_id p mass maxl hk3
            (fun q hq => hpos q (by
              simp only [ONode.collect, List.mem_append]
              exact Or.inl (Or.inl (Or.inl (Or.inl (Or.inr (hq)))))))
            hp hd3
        have heq : insertGo (k + 1)
            (ONode.branch b com m cnt x0 x1 x2 x3 x4 x5 x6 x7) node_id p mass maxl
            = (insertGo k x3 node_id p mass maxl).bind fun cnew =>
              some (ONode.branch b (insCom com m p mass) (m.add mass) (cnt + 1) x0 x1 x2 cnew x4 x5 x6 x7) := by
          rw [insertGo_succ_branch]
          simp [hv, mkBranch]
        obtain ⟨hrOK, hrDep, hrMono, hrFromNew, hrPos, hrEscMono,
          hrEscNew⟩ :=
          branch_repl_3 b com m cnt (insCom com m p mass) (m.add mass)
            (cnt + 1) x0 x1 x2 x3 x4 x5 x6 x7 cnew k hbo hiB hiOK
            (fun _ => hiD) hiMono hiPos hiEsc
        refine ⟨ONode.branch b (insCom com m p mass) (m.add mass) (cnt + 1) x0 x1 x2 cnew x4 x5 x6 x7, ?_, rfl, hrOK, hrDep hdep, ?_, hrMono,
          hrPos hpos, hrEscMono, ?_⟩
        · rw [heq, hins, Option.some_bind]
        · exact hrFromNew _ hiMem
        · intro hout
          have hnoct : ¬ x3.bounds.containsQ p := by
            rw [hc3]
            intro hco
            exact hout (octant_contains_sub b 3 p hwf hp hco)
          exact hrEscNew (hiProd hnoct)
      · obtain ⟨cnew, hins, hiB, hiOK, hiD, hiMem, hiMono, hiPos, hiEsc,
          hiProd⟩ :=
          ih x4 node_id p mass maxl hk4
            (fun q hq => hpos q (by
              simp only [ONode.collect, List.mem_append]
              exact Or.inl (Or.inl (Or.inl (Or.inr (hq))))))
            hp hd4
        have heq : insertGo (k + 1)
            (ONode.branch b com m cnt x0 x1 x2 x3 x4 x5 x6 x7) node_id p mass maxl
            = (insertGo k x4 node_id p mass maxl).bind fun cnew =>
              some (ONode.branch b (insCom com m p mass) (m.add mass) (cnt + 1) x0 x1 x2 x3 cnew x5 x6 x7) := by
          rw [insertGo_succ_branch]
          simp [hv, mkBranch]
        obtain ⟨hrOK, hrDep, hrMono, hrFromNew, hrPos, hrEscMono,
          hrEscNew⟩ :=
          branch_repl_4 b com m cnt (insCom com m p mass) (m.add mass)
            (cnt + 1) x0 x1 x2 x3 x4 x5 x6 x7 cnew k hbo hiB hiOK
            (fun _ => hiD) hiMono hiPos hiEsc
        refine ⟨ONode.branch b (insCom com m p mass) (m.add mass) (cnt + 1) x0 x1 x2 x3 cnew x5 x6 x7, ?_, rfl, hrOK, hrDep hdep, ?_, hrMono,
          hrPos hpos, hrEscMono, ?_⟩
        · rw [heq, hins, Option.some_bind]
        · exact hrFromNew _ hiMem
        · intro hout
          have hnoct : ¬ x4.bounds.containsQ p := by
            rw [hc4]
            intro hco
            exact hout (octant_contains_sub b 4 p hwf hp hco)
          exact hrEscNew (hiProd hnoct)
      · obtain ⟨cnew, hins, hiB, hiOK, hiD, hiMem, hiMono, hiPos, hiEsc,
          hiProd⟩ :=
          ih x5 node_id p mass maxl hk5
            (fun q hq => hpos q (by
              simp only [ONode.collect, List.mem_append]
              exact Or.inl (Or.inl (Or.inr (hq)))))
            hp hd5
        have heq : insertGo (k + 1)
            (ONode.branch b com m cnt x0 x1 x2 x3 x4 x5 x6 x7) node_id p mass maxl
            = (insertGo k x5 node_id p mass maxl).bind fun cnew =>
              some (ONode.branch b (insCom com m p mass) (m.add mass) (cnt + 1) x0 x1 x2 x3 x4 cnew x6 x7) := by
          rw [insertGo_succ_branch]
          simp [hv, mkBranch]
        obtain ⟨hrOK, hrDep, hrMono, hrFromNew, hrPos, hrEscMono,
          hrEscNew⟩ :=
          branch_repl_5 b com m cnt (insCom com m p mass) (m.add mass)
            (cnt + 1) x0 x1 x2 x3 x4 x5 x6 x7 cnew k hbo hiB hiOK
            (fun _ => hiD) hiMono hiPos hiEsc
        refine ⟨ONode.branch b (insCom com m p mass) (m.add mass) (cnt + 1) x0 x1 x2 x3 x4 cnew x6 x7, ?_, rfl, hrOK, hrDep hdep, ?_, hrMono,
          hrPos hpos, hrEscMono, ?_⟩
        · rw [heq, hins, Option.some_bind]
        · exact hrFromNew _ hiMem
        · intro hout
          have hnoct : ¬ x5.bounds.containsQ p := by
            rw [hc5]
            intro hco
            exact hout (octant_contains_sub b 5 p hwf hp hco)
          exact hrEscNew (hiProd hnoct)
      · obtain ⟨cnew, hins, hiB, hiOK, hiD, hiMem, hiMono, hiPos, hiEsc,
          hiProd⟩ :=
          ih x6 node_id p mass maxl hk6
            (fun q hq => hpos q (by
              simp only [ONode.collect, List.mem_append]
              exact Or.inl (Or.inr (hq))))
            hp hd6
        have heq : insertGo (k + 1)
            (ONode.branch b com m cnt x0 x1 x2 x3 x4 x5 x6 x7) node_id p mass maxl
            = (insertGo k x6 node_id p mass maxl).bind fun cnew =>
              some (ONode.branch b (insCom com m p mass) (m.add mass) (cnt + 1) x0 x1 x2 x3 x4 x5 cnew x7) := by
          rw [insertGo_succ_branch]
          simp [hv, mkBranch]
        obtain ⟨hrOK, hrDep, hrMono, hrFromNew, hrPos, hrEscMono,
          hrEscNew⟩ :=
          branch_repl_6 b com m cnt (insCom com m p mass) (m.add mass)
            (cnt + 1) x0 x1 x2 x3 x4 x5 x6 x7 cnew k hbo hiB hiOK
            (fun _ => hiD) hiMono hiPos hiEsc
        refine ⟨ONode.branch b (insCom com m p mass) (m.add mass) (cnt + 1) x0 x1 x2 x3 x4 x5 cnew x7, ?_, rfl, hrOK, hrDep hdep, ?_, hrMono,
          hrPos hpos, hrEscMono, ?_⟩
        · rw [heq, hins, Option.some_bind]
        · exact hrFromNew _ hiMem
        · intro hout
          have hnoct : ¬ x6.bounds.containsQ p := by
            rw [hc6]
            intro hco
            exact hout (octant_contains_sub b 6 p hwf hp hco)
          exact hrEscNew (hiProd hnoct)
      · obtain ⟨cnew, hins, hiB, hiOK, hiD, hiMem, hiMono, hiPos, hiEsc,
          hiProd⟩ :=
          ih x7 node_id p mass maxl hk7
            (fun q hq => hpos q (by
              simp only [ONode.collect, List.mem_append]
              exact Or.inr (hq)))
            hp hd7
        have heq : insertGo (k + 1)
            (ONode.branch b com m cnt x0 x1 x2 x3 x4 x5 x6 x7) node_id p mass maxl
            = (insertGo k x7 node_id p mass maxl).bind fun cnew =>
              some (ONode.branch b (insCom com m p mass) (m.add mass) (cnt + 1) x0 x1 x2 x3 x4 x5 x6 cnew) := by
          rw [insertGo_succ_branch]
          simp [hv, mkBranch]
        obtain ⟨hrOK, hrDep, hrMono, hrFromNew, hrPos, hrEscMono,
          hrEscNew⟩ :=
          branch_repl_7 b com m cnt (insCom com m p mass) (m.add mass)
            (cnt + 1) x0 x1 x2 x3 x4 x5 x6 x7 cnew k hbo hiB hiOK
            (fun _ => hiD) hiMono hiPos hiEsc
        refine ⟨ONode.branch b (insCom com m p mass) (m.add mass) (cnt + 1) x0 x1 x2 x3 x4 x5 x6 cnew, ?_, rfl, hrOK, hrDep hdep, ?_, hrMono,
          hrPos hpos, hrEscMono, ?_⟩
        · rw [heq, hins, Option.some_bind]
        · exact hrFromNew _ hiMem
        · intro hout
          have hnoct : ¬ x7.bounds.containsQ p := by
            rw [hc7]
            intro hco
            exact hout (octant_contains_sub b 7 p hwf hp hco)
          exact hrEscNew (hiProd hnoct)

/-- Removal only ever drops entries: every entry of the result was in the
    input tree. -/
theorem remove_collect_sub (n : ONode) (node_id : Nat) (pos : Vec3Q)
    (minp : Nat) :
    ∀ r, ONode.remove n node_id pos minp = some r →
      ∀ q ∈ r.2.collect, q ∈ n.collect := by
  induction n with
  | leaf b com m cnt pts =>
    intro r h
    unfold ONode.remove at h
    by_cases hc : ¬ b.containsQ pos
    · rw [if_pos hc] at h
      injection h with h2
      rw [← h2]
      exact fun q hq => hq
    · rw [if_neg hc] at h
      dsimp only at h
      by_cases hl : (pts.filter fun ip => ip.1 ≠ node_id).length
          = pts.length
      · rw [if_pos hl] at h
        injection h with h2
        rw [← h2]
        exact fun q hq => hq
      · rw [if_neg hl] at h
        injection h with h2
        rw [← h2]
        intro q hq
        simp only [ONode.collect] at hq ⊢
        exact List.mem_of_mem_filter hq
  | branch b com m cnt a0 a1 a2 a3 a4 a5 a6 a7
      ih0 ih1 ih2 ih3 ih4 ih5 ih6 ih7 =>
    intro r h
    unfold ONode.remove at h
    by_cases hc : ¬ b.containsQ pos
    · rw [if_pos hc] at h
      injection h with h2
      rw [← h2]
      exact fun q hq => hq
    · rw [if_neg hc] at h
      dsimp only at h
      have h8 := octant_index_lt_8 b pos
      set i := b.octant_index pos with hi
      interval_cases i
      · dsimp only at h
        cases hrm : a0.remove node_id pos minp with
        | none =>
          rw [hrm] at h
          simp at h
        | some rc =>
          rw [hrm] at h
          rw [Option.map_some', Option.some_bind] at h
          have ihh := ih0
          have hmap : ∀ q ∈ (ONode.branch b com m cnt rc.2 a1 a2 a3 a4 a5 a6 a7).collect,
              q ∈ (ONode.branch b com m cnt a0 a1 a2 a3 a4 a5 a6
                a7).collect := by
            intro q hq
            simp only [ONode.collect, List.mem_append] at hq ⊢
            rcases hq with ((((((hm0 | hm1) | hm2) | hm3) | hm4) | hm5) | hm6) | hm7
            · exact Or.inl (Or.inl (Or.inl (Or.inl (Or.inl (Or.inl (Or.inl (ihh rc hrm q hm0)))))))
            · exact Or.inl (Or.inl (Or.inl (Or.inl (Or.inl (Or.inl (Or.inr (hm1)))))))
            · exact Or.inl (Or.inl (Or.inl (Or.inl (Or.inl (Or.inr (hm2))))))
            · exact Or.inl (Or.inl (Or.inl (Or.inl (Or.inr (hm3)))))
            · exact Or.inl (Or.inl (Or.inl (Or.inr (hm4))))
            · exact Or.inl (Or.inl (Or.inr (hm5)))
            · exact Or.inl (Or.inr (hm6))
            · exact Or.inr (hm7)
          by_cases hbb : rc.1 = true
          · rw [if_neg (by simp [hbb])] at h
            by_cases hcnt : cnt < minp
            · rw [if_pos hcnt] at h
              injection h with h2
              rw [← h2]
              intro q hq
              exact hmap q hq
            · rw [if_neg hcnt] at h
              injection h with h2
              rw [← h2]
              dsimp only [setAgg]
              intro q hq
              exact hmap q hq
          · have hb0 : rc.1 = false := by simpa using hbb
            rw [if_pos (by simp [hb0])] at h
            injection h with h2
            rw [← h2]
            intro q hq
            exact hmap q hq
      · dsimp only at h
        cases hrm : a1.remove node_id pos minp with
        | none =>
          rw [hrm] at h
          simp at h
        | some rc =>
          rw [hrm] at h
          rw [Option.map_some', Option.some_bind] at h
          have ihh := ih1
          have hmap : ∀ q ∈ (ONode.branch b com m cnt a0 rc.2 a2 a3 a4 a5 a6 a7).collect,
              q ∈ (ONode.branch b com m cnt a0 a1 a2 a3 a4 a5 a6
                a7).collect := by
            intro q hq
            simp only [ONode.collect, List.mem_append] at hq ⊢
            rcases hq with ((((((hm0 | hm1) | hm2) | hm3) | hm4) | hm5) | hm6) | hm7
            · exact Or.inl (Or.inl (Or.inl (Or.inl (Or.inl (Or.inl (Or.inl (hm0)))))))
            · exact Or.inl (Or.inl (Or.inl (Or.inl (Or.inl (Or.inl (Or.inr (ihh rc hrm q hm1)))))))
            · exact Or.inl (Or.inl (Or.inl (Or.inl (Or.inl (Or.inr (hm2))))))
            · exact Or.inl (Or.inl (Or.inl (Or.inl (Or.inr (hm3)))))
            · exact Or.inl (Or.inl (Or.inl (Or.inr (hm4))))
            · exact Or.inl (Or.inl (Or.inr (hm5)))
            · exact Or.inl (Or.inr (hm6))
            · exact Or.inr (hm7)
          by_cases hbb : rc.1 = true
          · rw [if_neg (by simp [hbb])] at h
            by_cases hcnt : cnt < minp
            · rw [if_pos hcnt] at h
              injection h with h2
              rw [← h2]
              intro q hq
              exact hmap q hq
            · rw [if_neg hcnt] at h
              injection h with h2
              rw [← h2]
              dsimp only [setAgg]
              intro q hq
              exact hmap q hq
          · have hb0 : rc.1 = false := by simpa using hbb
            rw [if_pos (by simp [hb0])] at h
            injection h with h2
            rw [← h2]
            intro q hq
            exact hmap q hq
      · dsimp only at h
        cases hrm : a2.remove node_id pos minp with
        | none =>
          rw [hrm] at h
          simp at h
        | some rc =>
          rw [hrm] at h
          rw [Option.map_some', Option.some_bind] at h
          have ihh := ih2
          have hmap : ∀ q ∈ (ONode.branch b com m cnt a0 a1 rc.2 a3 a4 a5 a6 a7).collect,
              q ∈ (ONode.branch b com m cnt a0 a1 a2 a3 a4 a5 a6
                a7).collect := by
            intro q hq
            simp only [ONode.collect, List.mem_append] at hq ⊢
            rcases hq with ((((((hm0 | hm1) | hm2) | hm3) | hm4) | hm5) | hm6) | hm7
            · exact Or.inl (Or.inl (Or.inl (Or.inl (Or.inl (Or.inl (Or.inl (hm0)))))))
            · exact Or.inl (Or.inl (Or.inl (Or.inl (Or.inl (Or.inl (Or.inr (hm1)))))))
            · exact Or.inl (Or.inl (Or.inl (Or.inl (Or.inl (Or.inr (ihh rc hrm q hm2))))))
            · exact Or.inl (Or.inl (Or.inl (Or.inl (Or.inr (hm3)))))
            · exact Or.inl (Or.inl (Or.inl (Or.inr (hm4))))
            · exact Or.inl (Or.inl (Or.inr (hm5)))
            · exact Or.inl (Or.inr (hm6))
            · exact Or.inr (hm7)
          by_cases hbb : rc.1 = true
          · rw [if_neg (by simp [hbb])] at h
            by_cases hcnt : cnt < minp
            · rw [if_pos hcnt] at h
              injection h with h2
              rw [← h2]
              intro q hq
              exact hmap q hq
            · rw [if_neg hcnt] at h
              injection h with h2
              rw [← h2]
              dsimp only [setAgg]
              intro q hq
              exact hmap q hq
          · have hb0 : rc.1 = false := by simpa using hbb
            rw [if_pos (by simp [hb0])] at h
            injection h with h2
            rw [← h2]
            intro q hq
            exact hmap q hq
      · dsimp only at h
        cases hrm : a3.remove node_id pos minp with
        | none =>
          rw [hrm] at h
          simp at h
        | some rc =>
          rw [hrm] at h
          rw [Option.map_some', Option.some_bind] at h
          have ihh := ih3
          have hmap : ∀ q ∈ (ONode.branch b com m cnt a0 a1 a2 rc.2 a4 a5 a6 a7).collect,
              q ∈ (ONode.branch b com m cnt a0 a1 a2 a3 a4 a5 a6
                a7).collect := by
            intro q hq
            simp only [ONode.collect, List.mem_append] at hq ⊢
            rcases hq with ((((((hm0 | hm1) | hm2) | hm3) | hm4) | hm5) | hm6) | hm7
            · exact Or.inl (Or.inl (Or.inl (Or.inl (Or.inl (Or.inl (Or.inl (hm0)))))))
            · exact Or.inl (Or.inl (Or.inl (Or.inl (Or.inl (Or.inl (Or.inr (hm1)))))))
            · exact Or.inl (Or.inl (Or.inl (Or.inl (Or.inl (Or.inr (hm2))))))
            · exact Or.inl (Or.inl (Or.inl (Or.inl (Or.inr (ihh rc hrm q hm3)))))
            · exact Or.inl (Or.inl (Or.inl (Or.inr (hm4))))
            · exact Or.inl (Or.inl (Or.inr (hm5)))
            · exact Or.inl (Or.inr (hm6))
            · exact Or.inr (hm7)
          by_cases hbb : rc.1 = true
          · rw [if_neg (by simp [hbb])] at h
            by_cases hcnt : cnt < minp
            · rw [if_pos hcnt] at h
              injection h with h2
              rw [← h2]
              intro q hq
              exact hmap q hq
            · rw [if_neg hcnt] at h
              injection h with h2
              rw [← h2]
              dsimp only [setAgg]
              intro q hq
              exact hmap q hq
          · have hb0 : rc.1 = false := by simpa using hbb
            rw [if_pos (by simp [hb0])] at h
            injection h with h2
            rw [← h2]
            intro q hq
            exact hmap q hq
      · dsimp only at h
        cases hrm : a4.remove node_id pos minp with
        | none =>
          rw [hrm] at h
          simp at h
        | some rc =>
          rw [hrm] at h
          rw [Option.map_some', Option.some_bind] at h
          have ihh := ih4
          have hmap : ∀ q ∈ (ONode.branch b com m cnt a0 a1 a2 a3 rc.2 a5 a6 a7).collect,
              q ∈ (ONode.branch b com m cnt a0 a1 a2 a3 a4 a5 a6
                a7).collect := by
            intro q hq
            simp only [ONode.collect, List.mem_append] at hq ⊢
            rcases hq with ((((((hm0 | hm1) | hm2) | hm3) | hm4) | hm5) | hm6) | hm7
            · exact Or.inl (Or.inl (Or.inl (Or.inl (Or.inl (Or.inl (Or.inl (hm0)))))))
            · exact Or.inl (Or.inl (Or.inl (Or.inl (Or.inl (Or.inl (Or.inr (hm1)))))))
            · exact Or.inl (Or.inl (Or.inl (Or.inl (Or.inl (Or.inr (hm2))))))
            · exact Or.inl (Or.inl (Or.inl (Or.inl (Or.inr (hm3)))))
            · exact Or.inl (Or.inl (Or.inl (Or.inr (ihh rc hrm q hm4))))
            · exact Or.inl (Or.inl (Or.inr (hm5)))
            · exact Or.inl (Or.inr (hm6))
            · exact Or.inr (hm7)
          by_cases hbb : rc.1 = true
          · rw [if_neg (by simp [hbb])] at h
            by_cases hcnt : cnt < minp
            · rw [if_pos hcnt] at h
              injection h with h2
              rw [← h2]
              intro q hq
              exact hmap q hq
            · rw [if_neg hcnt] at h
              injection h with h2
              rw [← h2]
              dsimp only [setAgg]
              intro q hq
              exact hmap q hq
          · have hb0 : rc.1 = false := by simpa using hbb
            rw [if_pos (by simp [hb0])] at h
            injection h with h2
            rw [← h2]
            intro q hq
            exact hmap q hq
      · dsimp only at h
        cases hrm : a5.remove node_id pos minp with
        | none =>
          rw [hrm] at h
          simp at h
        | some rc =>
          rw [hrm] at h
          rw [Option.map_some', Option.some_bind] at h
          have ihh := ih5
          have hmap : ∀ q ∈ (ONode.branch b com m cnt a0 a1 a2 a3 a4 rc.2 a6 a7).collect,
              q ∈ (ONode.branch b com m cnt a0 a1 a2 a3 a4 a5 a6
                a7).collect := by
            intro q hq
            simp only [ONode.collect, List.mem_append] at hq ⊢
            rcases hq with ((((((hm0 | hm1) | hm2) | hm3) | hm4) | hm5) | hm6) | hm7
            · exact Or.inl (Or.inl (Or.inl (Or.inl (Or.inl (Or.inl (Or.inl (hm0)))))))
            · exact Or.inl (Or.inl (Or.inl (Or.inl (Or.inl (Or.inl (Or.inr (hm1)))))))
            · exact Or.inl (Or.inl (Or.inl (Or.inl (Or.inl (Or.inr (hm2))))))
            · exact Or.inl (Or.inl (Or.inl (Or.inl (Or.inr (hm3)))))
            · exact Or.inl (Or.inl (Or.inl (Or.inr (hm4))))
            · exact Or.inl (Or.inl (Or.inr (ihh rc hrm q hm5)))
            · exact Or.inl (Or.inr (hm6))
            · exact Or.inr (hm7)
          by_cases hbb : rc.1 = true
          · rw [if_neg (by simp [hbb])] at h
            by_cases hcnt : cnt < minp
            · rw [if_pos hcnt] at h
              injection h with h2
              rw [← h2]
              intro q hq
              exact hmap q hq
            · rw [if_neg hcnt] at h
              injection h with h2
              rw [← h2]
              dsimp only [setAgg]
              intro q hq
              exact hmap q hq
          · have hb0 : rc.1 = false := by simpa using hbb
            rw [if_pos (by simp [hb0])] at h
            injection h with h2
            rw [← h2]
            intro q hq
            exact hmap q hq
      · dsimp only at h
        cases hrm : a6.remove node_id pos minp with
        | none =>
          rw [hrm] at h
          simp at h
        | some rc =>
          rw [hrm] at h
          rw [Option.map_some', Option.some_bind] at h
          have ihh := ih6
          have hmap : ∀ q ∈ (ONode.branch b com m cnt a0 a1 a2 a3 a4 a5 rc.2 a7).collect,
              q ∈ (ONode.branch b com m cnt a0 a1 a2 a3 a4 a5 a6
                a7).collect := by
            intro q hq
            simp only [ONode.collect, List.mem_append] at hq ⊢
            rcases hq with ((((((hm0 | hm1) | hm2) | hm3) | hm4) | hm5) | hm6) | hm7
            · exact Or.inl (Or.inl (Or.inl (Or.inl (Or.inl (Or.inl (Or.inl (hm0)))))))
            · exact Or.inl (Or.inl (Or.inl (Or.inl (Or.inl (Or.inl (Or.inr (hm1)))))))
            · exact Or.inl (Or.inl (Or.inl (Or.inl (Or.inl (Or.inr (hm2))))))
            · exact Or.inl (Or.inl (Or.inl (Or.inl (Or.inr (hm3)))))
            · exact Or.inl (Or.inl (Or.inl (Or.inr (hm4))))
            · exact Or.inl (Or.inl (Or.inr (hm5)))
            · exact Or.inl (Or.inr (ihh rc hrm q hm6))
            · exact Or.inr (hm7)
          by_cases hbb : rc.1 = true
          · rw [if_neg (by simp [hbb])] at h
            by_cases hcnt : cnt < minp
            · rw [if_pos hcnt] at h
              injection h with h2
              rw [← h2]
              intro q hq
              exact hmap q hq
            · rw [if_neg hcnt] at h
              injection h with h2
              rw [← h2]
              dsimp only [setAgg]
              intro q hq
              exact hmap q hq
          · have hb0 : rc.1 = false := by simpa using hbb
            rw [if_pos (by simp [hb0])] at h
            injection h with h2
            rw [← h2]
            intro q hq
            exact hmap q hq
      · dsimp only at h
        cases hrm : a7.remove node_id pos minp with
        | none =>
          rw [hrm] at h
          simp at h
        | some rc =>
          rw [hrm] at h
          rw [Option.map_some', Option.some_bind] at h
          have ihh := ih7
          have hmap : ∀ q ∈ (ONode.branch b com m cnt a0 a1 a2 a3 a4 a5 a6 rc.2).collect,
              q ∈ (ONode.branch b com m cnt a0 a1 a2 a3 a4 a5 a6
                a7).collect := by
            intro q hq
            simp only [ONode.collect, List.mem_append] at hq ⊢
            rcases hq with ((((((hm0 | hm1) | hm2) | hm3) | hm4) | hm5) | hm6) | hm7
            · exact Or.inl (Or.inl (Or.inl (Or.inl (Or.inl (Or.inl (Or.inl (hm0)))))))
            · exact Or.inl (Or.inl (Or.inl (Or.inl (Or.inl (Or.inl (Or.inr (hm1)))))))
            · exact Or.inl (Or.inl (Or.inl (Or.inl (Or.inl (Or.inr (hm2))))))
            · exact Or.inl (Or.inl (Or.inl (Or.inl (Or.inr (hm3)))))
            · exact Or.inl (Or.inl (Or.inl (Or.inr (hm4))))
            · exact Or.inl (Or.inl (Or.inr (hm5)))
            · exact Or.inl (Or.inr (hm6))
            · exact Or.inr (ihh rc hrm q hm7)
          by_cases hbb : rc.1 = true
          · rw [if_neg (by simp [hbb])] at h
            by_cases hcnt : cnt < minp
            · rw [if_pos hcnt] at h
              injection h with h2
              rw [← h2]
              intro q hq
              exact hmap q hq
            · rw [if_neg hcnt] at h
              injection h with h2
              rw [← h2]
              dsimp only [setAgg]
              intro q hq
              exact hmap q hq
          · have hb0 : rc.1 = false := by simpa using hbb
            rw [if_pos (by simp [hb0])] at h
            injection h with h2
            rw [← h2]
            intro q hq
            exact hmap q hq

/-- C10: `Octree::update` performs its insert phase with no bounds check.
    On any octree satisfying the geometric, positivity and depth
    invariants, if the remove phase succeeds and the new position lies
    outside the root bounds, then `Octree::insert` at that position would
    panic, but `update` returns `true` without panicking and without
    resizing: the root bounds are unchanged, the entry is stored, and some
    leaf ends up holding a point outside its own bounds. -/
theorem c10_update_bypasses_bounds_check (o : Octree) (node_id : Nat)
    (old_pos new_pos : Vec3Q)
    (hbok : o.root.boundsOKb = true)
    (hdok : o.root.depthOKb o.max_depth = true)
    (hpts : ∀ q ∈ o.root.collect, q.2.posP)
    (hposp : new_pos.posP)
    (hout : ¬ o.root.bounds.containsQ new_pos)
    (hrem : (o.root.remove node_id old_pos o.min_points_per_node).map
      Prod.fst = some true) :
    o.insert node_id new_pos NODE_MASS = none ∧
    ∃ o', o.update node_id old_pos new_pos = some (true, o') ∧
      o'.root.bounds = o.root.bounds ∧
      (node_id, new_pos) ∈ o'.root.collect ∧
      o'.root.escapedB = true := by
  constructor
  · unfold Octree.insert
    rw [if_pos hout]
  · cases hr : o.root.remove node_id old_pos o.min_points_per_node with
    | none =>
      rw [hr] at hrem
      cases hrem
    | some rc =>
      rw [hr, Option.map_some'] at hrem
      injection hrem with h2
      obtain ⟨hb1, hb2, hb3⟩ :=
        remove_preserves o.root node_id old_pos o.min_points_per_node
          rc hr
      have hpts2 : ∀ q ∈ rc.2.collect, q.2.posP := fun q hq =>
        hpts q (remove_collect_sub o.root node_id old_pos
          o.min_points_per_node rc hr q hq)
      have hout2 : ¬ rc.2.bounds.containsQ new_pos := by
        rw [hb1]
        exact hout
      obtain ⟨n', hins, hib, hibOK, hibD, hibMem, hibMono, hibPos,
        hibEsc, hibProd⟩ :=
        insert_master o.max_depth rc.2 node_id new_pos NODE_MASS
          o.max_points_per_leaf (hb2 hbok) hpts2 hposp
          (hb3 o.max_depth hdok)
      refine ⟨⟨n', o.max_depth, o.max_points_per_leaf,
        o.min_points_per_node⟩, ?_, ?_, hibMem, hibProd hout2⟩
      · unfold Octree.update
        rw [hr, Option.some_bind, if_neg (by simp [h2]), hins,
          Option.map_some']
      · dsimp only
        rw [hib, hb1]

def c10P1 : Vec3Q := Vec3Q.splat (Q.ofInt 1)
def c10P2 : Vec3Q := ⟨Q.ofInt 3, Q.ofInt 1, Q.ofInt 1⟩
def c10New : Vec3Q := ⟨Q.ofInt 100, Q.ofInt 1, Q.ofInt 1⟩

/-- A two-point octree whose root is subdivided
    (`max_points_per_leaf 1`). -/
def c10o : Octree :=
  (Octree.from_points [(1, c10P1), (2, c10P2)] 3 1 1).getD
    ⟨ONode.newNode ⟨Vec3Q.splat (Q.ofInt 0),
      Vec3Q.splat (Q.ofInt 1)⟩, 3, 1, 1⟩

theorem c10_update_bypasses_bounds_check_witness :
    c10o.insert 2 c10New NODE_MASS = none ∧
    ∃ o', c10o.update 2 c10P2 c10New = some (true, o') ∧
      o'.root.bounds = c10o.root.bounds ∧
      (2, c10New) ∈ o'.root.collect ∧
      o'.root.escapedB = true :=
  c10_update_bypasses_bounds_check c10o 2 c10P2 c10New (by decide)
    (by decide) (by decide) (by decide) (by decide) (by decide)

end Sokobauto
